import Mathlib

/-!
# term_pa_spectrum: rendering pipeline and capture state machine

A shallow embedding of `src/output.c` (grouping, smoothing and glyph mapping), of
`src/pulseaudio_follow_sink.c` (the sink-following capture callbacks) and of the frame
handler `process_data_from_pa` of `src/main.c`.

Conventions of the embedding

* `double` values are exact rationals (`ℚ`); rounding, infinities and NaN are outside the
  model. A `float` value is the rational it stands for; the conversion to `float` and the
  `float` sum of `process_data_from_pa` round to single precision (`float_round`).
  Division keeps Lean's convention `x / 0 = 0`.
* `unsigned int` values are natural numbers, reduced modulo `2 ^ 32` wherever the C
  arithmetic can wrap; `int` values are integers.
* An array is a total map from index to cell. A cell that was never written holds the
  contents the map started with.
* `log`, `exp` and the outcome of an out-of-range floating-to-integer conversion come from
  outside the program and are fields of `libm`.
* A result of type `Option` is `none` when the C program leaves the modelled fragment
  (an uninitialised read, an out-of-bounds table lookup, a loop that does not stop,
  a non-finite floating-point value).
-/

namespace TermPaSpectrum

/-! ## Machine arithmetic -/

/-- Reduction of a natural number to the range of `unsigned int`. -/
def u32 (x : Nat) : Nat := x % 4294967296

/-- Reduction of a natural number to the range of `size_t`. -/
def u64 (x : Nat) : Nat := x % 18446744073709551616

/-- Conversion of an `int` to `unsigned int`. -/
def int_to_u32 (z : Int) : Nat := (z % 4294967296).toNat

/-- Conversion of an `unsigned int` to `int` (two's complement). -/
def u32_to_int (n : Nat) : Int := if n < 2147483648 then (n : Int) else (n : Int) - 4294967296

/-- The `max(a,b)` macro of `output.c`: `_a > _b ? _a : _b`. -/
def c_max {α : Type} [LinearOrder α] (a b : α) : α := if a > b then a else b

/-- The `min(a,b)` macro of `output.c`: `_a < _b ? _a : _b`. -/
def c_min {α : Type} [LinearOrder α] (a b : α) : α := if a < b then a else b

/-- The mathematical functions and conversions the renderer takes from its platform. -/
structure libm where
  /-- The function `log` of `math.h`. -/
  log : ℚ → ℚ
  /-- The function `exp` of `math.h`. -/
  exp : ℚ → ℚ
  /-- What a conversion to `int` yields when the truncated value does not fit. -/
  undef_int : Int
  /-- What a conversion to `unsigned int` yields when the truncated value does not fit. -/
  undef_uint : Nat

/-- Truncation toward zero, the rounding of a C floating-to-integer conversion. -/
def trunc (x : ℚ) : Int := if 0 ≤ x then ⌊x⌋ else ⌈x⌉

/-- Conversion `double` to `int`. -/
def double_to_int (env : libm) (x : ℚ) : Int :=
  if -2147483648 ≤ trunc x ∧ trunc x ≤ 2147483647 then trunc x else env.undef_int

/-- Conversion `double` to `unsigned int`. -/
def double_to_uint (env : libm) (x : ℚ) : Nat :=
  if 0 ≤ trunc x ∧ trunc x ≤ 4294967295 then (trunc x).toNat else u32 env.undef_uint

/-- The indices visited by `for (i = lo; i <= hi; ++i)`. -/
def index_range (lo hi : Nat) : List Nat := List.range' lo (hi + 1 - lo)

/-! ## output.h constants -/

def OUTPUT_NO_GROUPING : Int := 0
def OUTPUT_LINEAL_GROUPING : Int := 1
def OUTPUT_LOGARITMIC_GROUPING : Int := 2

def OUTPUT_NO_GROUPING_FUNC : Int := 0
def OUTPUT_MAX_GROUPING_FUNC : Int := 1
def OUTPUT_AVG_GROUPING_FUNC : Int := 2

def OUTPUT_NO_TRANSFORM : Nat := 0
def OUTPUT_LOGARITMIC_TRANSFORM : Nat := 1

def OUTPUT_CHARSET_BARS : Int := 1
def OUTPUT_CHARSET_BRAILLE : Int := 2
def OUTPUT_CHARSET_BRAILLE_WIDE : Int := 3

def OUTPUT_NO_SMOOTH : Int := 0
def OUTPUT_EXP2_SMOOTH : Int := 1

/-! ## Glyph tables -/

/-- The array `bars_str`: nine glyphs and the terminator. -/
def bars_str : List Nat :=
  [0x20, 0x2581, 0x2582, 0x2583, 0x2584, 0x2585, 0x2586, 0x2587, 0x2588, 0]

def bars_points_per_char : Nat := 1
def bars_levels : Nat := 9

/-- The array `braille_str`: twenty-five glyphs and the terminator. -/
def braille_str : List Nat :=
  [0x20, 0x2880, 0x28A0, 0x28B0, 0x28B8,
   0x2840, 0x28C0, 0x28E0, 0x28F0, 0x28F8,
   0x2844, 0x28C4, 0x28E4, 0x28F4, 0x28FC,
   0x2846, 0x28C6, 0x28E6, 0x28F6, 0x28FE,
   0x2847, 0x28C7, 0x28E7, 0x28F7, 0x28FF, 0]

def braille_points_per_char : Nat := 2
def braille_levels : Nat := 5

/-- The string `silence_str`, `" No data "`, without its terminator. -/
def silence_str : List Nat := [0x20, 0x4E, 0x6F, 0x20, 0x64, 0x61, 0x74, 0x61, 0x20]

/-! ## The rendering context -/

/-- The record `struct output_context`. A string that is only read (`visualization_str`,
`provided_silence_str`) is the list of its characters; `visualization_str` keeps its
terminator because the table is indexed, `provided_silence_str` is `none` for `NULL`. -/
structure output_context where
  data_buffer_index_to_acc_buffer_index : Nat → Option Nat
  acc_buffer_data_count : Nat → Nat
  acc_buffer_avg_factor : Nat → ℚ
  min_data_index : Nat
  max_data_index : Nat
  num_points : Nat
  abs_min : ℚ
  abs_max : ℚ
  group_func : Int
  smoothing : Int
  smoothing_new_value_factor : ℚ
  smoothing_old_value_factor : ℚ
  smoothing_new_limit_factor : ℚ
  smoothing_old_limit_factor : ℚ
  smoothing_min_limit : ℚ
  smoothing_max_limit : ℚ
  transform_flags : Nat
  sigmoid_scaling_factor : ℚ
  lineal_scaling_factor : ℚ
  visualization_levels : Nat
  visualization_points_per_char : Nat
  visualization_str : List Nat
  acc_buffer : Nat → ℚ
  smooth_buffer : Nat → ℚ
  wchar_buffer : Nat → Nat
  provided_silence_str : Option (List Nat)
  wchar_silence_buffer : Nat → Nat

/-- The contents of the buffers `output_init` obtains from `malloc`. -/
structure malloc_contents where
  acc_buffer : Nat → ℚ
  wchar_buffer : Nat → Nat
  wchar_silence_buffer : Nat → Nat

/-- The function `output_set_lineal_scale_factor_offset`. -/
def output_set_lineal_scale_factor_offset (out_ctx : output_context) (offset : ℚ) :
    output_context :=
  { out_ctx with lineal_scaling_factor := 1 + offset }

/-- The function `output_set_sigmoid_scale_factor`. -/
def output_set_sigmoid_scale_factor (out_ctx : output_context) (factor : ℚ) : output_context :=
  { out_ctx with sigmoid_scaling_factor := factor }

/-- The value `num_chars` of `output_update_silence_buffer`:
`ceil((float) num_points / (float) points_per_char) + .5` converted to `unsigned int`. -/
def silence_num_chars (env : libm) (out_ctx : output_context) : Nat :=
  double_to_uint env
    ((⌈(out_ctx.num_points : ℚ) / (out_ctx.visualization_points_per_char : ℚ)⌉ : ℚ) + 1 / 2)

/-- The function `output_update_silence_buffer`: the terminator is stored at `num_chars`,
`wcsncpy` copies the text (filling with terminators up to `num_chars`), and the loop stores
spaces from the length of the text on. -/
def output_update_silence_buffer (env : libm) (out_ctx : output_context) : output_context :=
  let num_chars := silence_num_chars env out_ctx
  let buf0 := Function.update out_ctx.wchar_silence_buffer num_chars 0
  let silence_str_source := match out_ctx.provided_silence_str with
    | some s => s
    | none => silence_str
  let buf1 : Nat → Nat := fun j =>
    if j < num_chars then silence_str_source.getD j 0 else buf0 j
  let buf2 : Nat → Nat := fun j =>
    if silence_str_source.length ≤ j ∧ j < num_chars then 0x20 else buf1 j
  { out_ctx with wchar_silence_buffer := buf2 }

/-- The function `output_set_charset`. -/
def output_set_charset (env : libm) (out_ctx : output_context) (charset : Int) : output_context :=
  if charset = OUTPUT_CHARSET_BRAILLE ∨ charset = OUTPUT_CHARSET_BRAILLE_WIDE then
    output_update_silence_buffer env
      { out_ctx with
        visualization_str := braille_str
        visualization_levels := braille_levels
        visualization_points_per_char :=
          if charset = OUTPUT_CHARSET_BRAILLE_WIDE then 1 else braille_points_per_char }
  else
    output_update_silence_buffer env
      { out_ctx with
        visualization_str := bars_str
        visualization_levels := bars_levels
        visualization_points_per_char := bars_points_per_char }

/-- The function `output_set_silence_str`. -/
def output_set_silence_str (env : libm) (out_ctx : output_context)
    (provided_silence_str : Option (List Nat)) : output_context :=
  output_update_silence_buffer env { out_ctx with provided_silence_str := provided_silence_str }

/-- The function `output_set_smoothing`. -/
def output_set_smoothing (out_ctx : output_context) (smoothing : Int) : output_context :=
  { out_ctx with smoothing := smoothing, smoothing_max_limit := 0, smoothing_min_limit := 0 }

/-- The function `output_set_smoothing_factors`. -/
def output_set_smoothing_factors (out_ctx : output_context)
    (new_value_factor new_limit_factor : ℚ) : output_context :=
  let new_value_factor := c_max (c_min new_value_factor 1) 0
  let new_limit_factor := c_max (c_min new_limit_factor 1) 0
  { out_ctx with
    smoothing_old_limit_factor := 1 - new_limit_factor
    smoothing_old_value_factor := 1 - new_value_factor
    smoothing_new_limit_factor := new_limit_factor
    smoothing_new_value_factor := new_value_factor }

/-! ## output_init -/

/-- The grouping `output_init` switches on: `(group_func && group) ? group : OUTPUT_NO_GROUPING`. -/
def init_group (group group_func : Int) : Int :=
  if group_func ≠ 0 ∧ group ≠ 0 then group else OUTPUT_NO_GROUPING

/-- The flag `no_grouping` after the switch of `output_init`. -/
def init_no_grouping (group group_func : Int) : Bool :=
  !(init_group group group_func = OUTPUT_LOGARITMIC_GROUPING
    || init_group group group_func = OUTPUT_LINEAL_GROUPING)

/-- The parameter `min_freq` (an `unsigned int`) after the switch of `output_init`:
with logarithmic grouping it is `log(min_freq)` stored back into the `unsigned int`. -/
def init_min_freq (env : libm) (group group_func : Int) (min_freq : Nat) : Nat :=
  if init_group group group_func = OUTPUT_LOGARITMIC_GROUPING then
    double_to_uint env (env.log (min_freq : ℚ))
  else min_freq

/-- The parameter `max_freq` after the switch of `output_init`. -/
def init_max_freq (env : libm) (group group_func : Int) (max_freq : Nat) : Nat :=
  if init_group group group_func = OUTPUT_LOGARITMIC_GROUPING then
    double_to_uint env (env.log (max_freq : ℚ))
  else max_freq

/-- The caller's array `data_frequency` after the switch of `output_init`: with logarithmic
grouping its first `data_length` cells are overwritten with their logarithms. -/
def init_data_frequency (env : libm) (group group_func : Int) (data_length : Nat)
    (data_frequency : Nat → ℚ) : Nat → ℚ :=
  if init_group group group_func = OUTPUT_LOGARITMIC_GROUPING then
    fun i => if i < data_length then env.log (data_frequency i) else data_frequency i
  else data_frequency

/-- The parameter `num_points` after the switch of `output_init`. -/
def init_num_points (group group_func : Int) (data_length num_points : Nat) : Nat :=
  if init_no_grouping group group_func then data_length else num_points

/-- The variables the binning loop of `output_init` (lines 158-177) updates. -/
structure init_loop_state where
  target_acc_index : Nat
  min_data_index : Nat
  max_data_index : Nat
  data_buffer_index_to_acc_buffer_index : Nat → Option Nat
  acc_buffer_data_count : Nat → Nat

/-- One iteration of the binning loop of `output_init`, for the index `i`.
The parameters are the values after the switch. -/
def init_loop_step (env : libm) (no_grouping : Bool) (data_frequency : Nat → ℚ)
    (min_freq max_freq num_points : Nat) (s : init_loop_state) (i : Nat) : init_loop_state :=
  let freq := data_frequency i
  if freq < (min_freq : ℚ) ∨ freq > (max_freq : ℚ) then s
  else
    let target_acc_index :=
      if no_grouping then u32 (s.target_acc_index + 1)
      else
        c_min
          (double_to_uint env
            (((freq - (min_freq : ℚ)) / ((u32 (max_freq + 4294967296 - min_freq) : Nat) : ℚ))
              * (num_points : ℚ)))
          (u32 (num_points + 4294967295))
    { target_acc_index := target_acc_index
      min_data_index := c_min s.min_data_index i
      max_data_index := c_max s.max_data_index i
      data_buffer_index_to_acc_buffer_index :=
        Function.update s.data_buffer_index_to_acc_buffer_index i (some target_acc_index)
      acc_buffer_data_count :=
        Function.update s.acc_buffer_data_count target_acc_index
          (u32 (s.acc_buffer_data_count target_acc_index + 1)) }

/-- The state of the binning loop before its first iteration: `target_acc_index = -1`,
`min_data_index = data_length`, `max_data_index = 0`, an index array fresh from `malloc`
(no cell assigned) and a count array fresh from `calloc`. -/
def init_loop_start (data_length : Nat) : init_loop_state :=
  { target_acc_index := 4294967295
    min_data_index := data_length
    max_data_index := 0
    data_buffer_index_to_acc_buffer_index := fun _ => none
    acc_buffer_data_count := fun _ => 0 }

/-- The binning loop of `output_init` over the indices `0 .. data_length - 1`. -/
def init_loop (env : libm) (no_grouping : Bool) (data_frequency : Nat → ℚ)
    (min_freq max_freq num_points data_length : Nat) : init_loop_state :=
  (List.range data_length).foldl
    (init_loop_step env no_grouping data_frequency min_freq max_freq num_points)
    (init_loop_start data_length)

/-- The function `output_init` (allocation is taken to succeed). The averaging loop of lines
179-185 stores into each cell below `num_points` a value that depends on that cell alone. -/
def output_init (env : libm) (heap : malloc_contents) (data_length : Nat)
    (data_frequency : Nat → ℚ) (min_freq max_freq num_points : Nat) (abs_min abs_max : ℚ)
    (group group_func : Int) (transform_flags : Nat) : output_context :=
  let no_grouping := init_no_grouping group group_func
  let freqs := init_data_frequency env group group_func data_length data_frequency
  let min_freq1 := init_min_freq env group group_func min_freq
  let max_freq1 := init_max_freq env group group_func max_freq
  let num_points1 := init_num_points group group_func data_length num_points
  let log_values : Bool := decide (transform_flags &&& OUTPUT_LOGARITMIC_TRANSFORM ≠ 0)
  let abs_max1 := if log_values then env.log abs_max else abs_max
  let abs_min1 := if log_values then env.log abs_min else abs_min
  let s := init_loop env no_grouping freqs min_freq1 max_freq1 num_points1 data_length
  let out_ctx : output_context :=
    { data_buffer_index_to_acc_buffer_index := s.data_buffer_index_to_acc_buffer_index
      acc_buffer_data_count := s.acc_buffer_data_count
      acc_buffer_avg_factor := fun i =>
        if i < num_points1 then
          (if s.acc_buffer_data_count i > 0 then 1 / (s.acc_buffer_data_count i : ℚ) else 0)
        else 0
      min_data_index := s.min_data_index
      max_data_index := s.max_data_index
      num_points := u32 (s.target_acc_index + 1)
      abs_min := abs_min1
      abs_max := abs_max1
      group_func := group_func
      smoothing := 0
      smoothing_new_value_factor := 0
      smoothing_old_value_factor := 0
      smoothing_new_limit_factor := 0
      smoothing_old_limit_factor := 0
      smoothing_min_limit := 0
      smoothing_max_limit := 0
      transform_flags := transform_flags
      sigmoid_scaling_factor := 0
      lineal_scaling_factor := 0
      visualization_levels := 0
      visualization_points_per_char := 0
      visualization_str := []
      acc_buffer := heap.acc_buffer
      smooth_buffer := fun _ => 0
      wchar_buffer := heap.wchar_buffer
      provided_silence_str := none
      wchar_silence_buffer := heap.wchar_silence_buffer }
  let out_ctx := output_set_charset env out_ctx OUTPUT_CHARSET_BARS
  let out_ctx := output_set_silence_str env out_ctx none
  let out_ctx := output_set_smoothing out_ctx OUTPUT_NO_SMOOTH
  let out_ctx := output_set_smoothing_factors out_ctx (1 / 2) (1 / 2)
  output_set_lineal_scale_factor_offset out_ctx 0

/-! ## output_print -/

/-- Whether the flag `OUTPUT_LOGARITMIC_TRANSFORM` is set in `transform_flags`. -/
def log_transform (out_ctx : output_context) : Bool :=
  decide (out_ctx.transform_flags &&& OUTPUT_LOGARITMIC_TRANSFORM ≠ 0)

/-- Stage TRANSFORM of `output_print` (lines 281-286): the caller's array `values` after it. -/
def print_transform (env : libm) (out_ctx : output_context) (values : Nat → ℚ) : Nat → ℚ :=
  if log_transform out_ctx then
    fun i =>
      if out_ctx.min_data_index ≤ i ∧ i ≤ out_ctx.max_data_index then env.log (values i)
      else values i
  else values

/-- The accumulation buffer after the clearing loop of lines 289-291. -/
def acc_clear (out_ctx : output_context) : Nat → ℚ :=
  fun i => if i < out_ctx.num_points then 0 else out_ctx.acc_buffer i

/-- One iteration of an accumulation loop of `output_print`: the column of index `i` is read
from the index array and the cell of that column becomes `f` of its contents and `values[i]`.
The result is `none` when the cell of the index array was never assigned. -/
def acc_step (out_ctx : output_context) (values : Nat → ℚ) (f : ℚ → ℚ → ℚ)
    (acc : Option (Nat → ℚ)) (i : Nat) : Option (Nat → ℚ) :=
  match acc, out_ctx.data_buffer_index_to_acc_buffer_index i with
  | some a, some acc_index => some (Function.update a acc_index (f (a acc_index) (values i)))
  | _, _ => none

/-- An accumulation loop of `output_print` over `min_data_index .. max_data_index`. -/
def acc_loop (out_ctx : output_context) (values : Nat → ℚ) (f : ℚ → ℚ → ℚ) :
    Option (Nat → ℚ) :=
  (index_range out_ctx.min_data_index out_ctx.max_data_index).foldl
    (acc_step out_ctx values f) (some (acc_clear out_ctx))

/-- Stage ACC of `output_print` (lines 288-320): the accumulation buffer after it. -/
def print_acc (out_ctx : output_context) (values : Nat → ℚ) : Option (Nat → ℚ) :=
  if out_ctx.group_func = OUTPUT_MAX_GROUPING_FUNC then
    acc_loop out_ctx values c_max
  else if out_ctx.group_func = OUTPUT_AVG_GROUPING_FUNC then
    (acc_loop out_ctx values (fun a v => a + v)).map fun a => fun i =>
      if i < out_ctx.num_points then a i * out_ctx.acc_buffer_avg_factor i else a i
  else
    acc_loop out_ctx values (fun _ v => v)

/-- The variables the smoothing loop of `output_print` (lines 329-338) updates;
`local_min = none` stands for `INFINITY`. -/
structure smooth_loop_state where
  smooth_buffer : Nat → ℚ
  local_min : Option ℚ
  local_max : ℚ

/-- One iteration of the smoothing loop of `output_print`, for the column `i`. -/
def smooth_step (out_ctx : output_context) (acc_buffer : Nat → ℚ) (s : smooth_loop_state)
    (i : Nat) : smooth_loop_state :=
  if out_ctx.acc_buffer_data_count i ≠ 0 then
    let new_value :=
      c_max (s.smooth_buffer i * out_ctx.smoothing_old_value_factor
              + acc_buffer i * out_ctx.smoothing_new_value_factor) 0
    { smooth_buffer := Function.update s.smooth_buffer i new_value
      local_min := some (match s.local_min with
        | none => new_value
        | some m => c_min m new_value)
      local_max := c_max s.local_max new_value }
  else if i > 0 then
    { s with smooth_buffer := Function.update s.smooth_buffer i (s.smooth_buffer (i - 1)) }
  else s

/-- The smoothing loop of `output_print` over the columns `0 .. num_points - 1`. -/
def smooth_loop (out_ctx : output_context) (acc_buffer : Nat → ℚ) : smooth_loop_state :=
  (List.range out_ctx.num_points).foldl (smooth_step out_ctx acc_buffer)
    { smooth_buffer := out_ctx.smooth_buffer, local_min := none, local_max := 0 }

/-- What stage SMOOTH hands to the scaling stage: the context, the buffer the local pointer
`smooth_buffer` designates, and the locals `min` and `max`. -/
structure smooth_result where
  out_ctx : output_context
  smooth_buffer : Nat → ℚ
  min : ℚ
  max : ℚ

/-- Stage SMOOTH of `output_print` (lines 322-351). With exponential smoothing the result is
`none` when `local_min` is still `INFINITY` after the loop (the limits are then not finite). -/
def print_smooth (out_ctx : output_context) (acc_buffer : Nat → ℚ) : Option smooth_result :=
  if out_ctx.smoothing = OUTPUT_EXP2_SMOOTH then
    let s := smooth_loop out_ctx acc_buffer
    match s.local_min with
    | none => none
    | some local_min =>
      let min := out_ctx.smoothing_min_limit * out_ctx.smoothing_old_limit_factor
        + local_min * out_ctx.smoothing_new_limit_factor
      let max := out_ctx.smoothing_max_limit * out_ctx.smoothing_old_limit_factor
        + s.local_max * out_ctx.smoothing_new_limit_factor
      some
        { out_ctx := { out_ctx with
            smooth_buffer := s.smooth_buffer
            smoothing_min_limit := min
            smoothing_max_limit := max }
          smooth_buffer := s.smooth_buffer
          min := min
          max := max }
  else
    some
      { out_ctx := out_ctx
        smooth_buffer := acc_buffer
        min := out_ctx.abs_min
        max := out_ctx.abs_max }

/-- The stages TRANSFORM, ACC and SMOOTH of `output_print` in sequence. -/
def print_stages (env : libm) (out_ctx : output_context) (values : Nat → ℚ) :
    Option smooth_result :=
  (print_acc out_ctx (print_transform env out_ctx values)).bind fun acc_buffer =>
    print_smooth { out_ctx with acc_buffer := acc_buffer } acc_buffer

/-- The macro `min(f_ranged, levels - 1)` at line 375, an `int` against an `unsigned int`:
the comparison and the selected value are unsigned, the result is stored into an `int`. -/
def c_min_int_uint (a : Int) (b : Nat) : Int :=
  u32_to_int (if int_to_u32 a < b then int_to_u32 a else b)

/-- The variable `level` of `output_print` before the sigmoid (lines 364-367). -/
def print_level (out_ctx : output_context) (smooth_buffer : Nat → ℚ) (min max : ℚ)
    (i current_point : Nat) : ℚ :=
  if u32 (i + current_point) < out_ctx.num_points then
    (smooth_buffer (u32 (i + current_point)) - min) / (max - min)
  else 0

/-- The quantisation of lines 369-375: the value of `f_ranged` for a given `level`. -/
def quantize (env : libm) (out_ctx : output_context) (level : ℚ) : Int :=
  let level :=
    if out_ctx.sigmoid_scaling_factor > 0 then
      1 / (1 + env.exp (-out_ctx.sigmoid_scaling_factor * (level - 1 / 2)))
    else level
  let f_ranged :=
    double_to_int env ((level * out_ctx.lineal_scaling_factor)
      * (out_ctx.visualization_levels : ℚ))
  let f_ranged := c_max f_ranged 0
  c_min_int_uint f_ranged (u32 (out_ctx.visualization_levels + 4294967295))

/-- The quantized level of the sub-column `current_point` of the group that starts at
column `i`. -/
def print_f_ranged (env : libm) (out_ctx : output_context) (smooth_buffer : Nat → ℚ)
    (min max : ℚ) (i current_point : Nat) : Int :=
  quantize env out_ctx (print_level out_ctx smooth_buffer min max i current_point)

/-- The inner loop of lines 361-378: the value of `current_symbol_index` for the group that
starts at column `i`. -/
def print_symbol_index (env : libm) (out_ctx : output_context) (smooth_buffer : Nat → ℚ)
    (min max : ℚ) (i : Nat) : Nat :=
  (List.range out_ctx.visualization_points_per_char).foldl
    (fun current_symbol_index current_point =>
      u32 (u32 (current_symbol_index * out_ctx.visualization_levels)
        + int_to_u32 (print_f_ranged env out_ctx smooth_buffer min max i current_point)))
    0

/-- The outer loop of lines 360-380, from the loop variable `i` with `wchar_index` and the
glyph buffer as they stand; the first argument bounds the number of iterations. The result
is the final `wchar_index` and glyph buffer, or `none` when a glyph is looked up outside the
table or the iterations are used up. -/
def print_chars (env : libm) (out_ctx : output_context) (smooth_buffer : Nat → ℚ)
    (min max : ℚ) : Nat → Nat → Nat → (Nat → Nat) → Option (Nat × (Nat → Nat))
  | 0, i, wchar_index, wchar_buffer =>
    if i < out_ctx.num_points then none else some (wchar_index, wchar_buffer)
  | fuel + 1, i, wchar_index, wchar_buffer =>
    if i < out_ctx.num_points then
      match out_ctx.visualization_str[print_symbol_index env out_ctx smooth_buffer min max i]? with
      | none => none
      | some symbol =>
        print_chars env out_ctx smooth_buffer min max fuel
          (u32 (i + out_ctx.visualization_points_per_char))
          (u32 (wchar_index + 1))
          (Function.update wchar_buffer (u32 (wchar_index + 1)) symbol)
    else some (wchar_index, wchar_buffer)

/-- Stage SCALE and PRINT of `output_print` (lines 353-382): the glyph buffer after it.
The loop variable takes pairwise distinct values below `num_points` until the loop stops,
so `num_points` iterations are enough whenever it stops. Line 381 stores the terminator at
the final `wchar_index`. The buffer has `num_points + 1` cells; when the loop has stored no
glyph (`num_points = 0`) the index is still `(unsigned) -1`, the store is outside the
buffer, and the result is `none`. -/
def print_scale (env : libm) (out_ctx : output_context) (smooth_buffer : Nat → ℚ)
    (min max : ℚ) : Option (Nat → Nat) :=
  (print_chars env out_ctx smooth_buffer min max out_ctx.num_points 0 4294967295
      out_ctx.wchar_buffer).bind
    fun r => if r.1 ≤ out_ctx.num_points then some (Function.update r.2 r.1 0) else none

/-- The function `output_print`: the context and the caller's array `values` after the call.
The returned pointer is the field `wchar_buffer` of the context. -/
def output_print (env : libm) (out_ctx : output_context) (values : Nat → ℚ) :
    Option (output_context × (Nat → ℚ)) :=
  (print_stages env out_ctx values).bind fun sm =>
  (print_scale env sm.out_ctx sm.smooth_buffer sm.min sm.max).map fun wchar_buffer =>
    ({ sm.out_ctx with wchar_buffer := wchar_buffer }, print_transform env out_ctx values)

/-- The wide string stored in `buf`: the characters before the first terminator, looked for
in the first `cap` cells. -/
def wcs (buf : Nat → Nat) (cap : Nat) : List Nat :=
  ((List.range cap).map buf).takeWhile fun c => decide (c ≠ 0)

/-- The line `output_print` returns, read from the glyph buffer of the context. -/
def output_line (out_ctx : output_context) : List Nat :=
  wcs out_ctx.wchar_buffer (out_ctx.num_points + 1)

/-- The glyph table of a context fits its level count and points per character: every index
below `levels ^ points_per_char` designates a glyph of the table, not its terminator. -/
def charset_ok (out_ctx : output_context) : Prop :=
  1 ≤ out_ctx.visualization_points_per_char ∧ 1 ≤ out_ctx.visualization_levels
    ∧ out_ctx.visualization_levels ≤ 2147483648
    ∧ out_ctx.visualization_levels ^ out_ctx.visualization_points_per_char ≤ 4294967296
    ∧ ∀ j, j < out_ctx.visualization_levels ^ out_ctx.visualization_points_per_char →
        ∃ symbol, out_ctx.visualization_str[j]? = some symbol ∧ symbol ≠ 0

/-- The number of groups of `points_per_char` columns: `ceil(num_points / points_per_char)`. -/
def num_groups (out_ctx : output_context) : Nat :=
  (out_ctx.num_points + out_ctx.visualization_points_per_char - 1)
    / out_ctx.visualization_points_per_char

/-- The glyph `output_print` selects for the group `g`. -/
def group_glyph (env : libm) (out_ctx : output_context) (smooth_buffer : Nat → ℚ)
    (min max : ℚ) (g : Nat) : Nat :=
  out_ctx.visualization_str.getD
    (print_symbol_index env out_ctx smooth_buffer min max
      (g * out_ctx.visualization_points_per_char)) 0

/-! ## Example inputs -/

/-- A platform for the examples: `log` and `exp` are the identity, out-of-range conversions
give `INT_MIN` and `0` as on x86-64. -/
def example_env : libm :=
  { log := fun x => x, exp := fun x => x, undef_int := -2147483648, undef_uint := 0 }

/-- Heap contents for the examples. -/
def example_heap : malloc_contents :=
  { acc_buffer := fun _ => 7, wchar_buffer := fun _ => 63, wchar_silence_buffer := fun _ => 63 }

/-- The array whose first cells are the elements of `l`, the others zero. -/
def array_of (l : List ℚ) : Nat → ℚ := fun i => l.getD i 0

/-- The context of the scenario of section 8: five frequencies `0 .. 4`, range `[0, 4]`,
bounds `0` and `8`, no grouping, Max reducer, no transform. -/
def scenario_ctx : output_context :=
  output_init example_env example_heap 5 (array_of [0, 1, 2, 3, 4]) 0 4 30 0 8
    OUTPUT_NO_GROUPING OUTPUT_MAX_GROUPING_FUNC OUTPUT_NO_TRANSFORM

/-! ## pulseaudio_follow_sink.c -/

/-- The constant `PA_INVALID_INDEX` of `pulse/def.h`, `(uint32_t) -1`. -/
def PA_INVALID_INDEX : Nat := 4294967295

/-- The constant `PA_SUBSCRIPTION_EVENT_FACILITY_MASK` of `pulse/def.h`. -/
def PA_SUBSCRIPTION_EVENT_FACILITY_MASK : Nat := 0x000F

/-- The constant `PA_SUBSCRIPTION_EVENT_SINK` of `pulse/def.h`. -/
def PA_SUBSCRIPTION_EVENT_SINK : Nat := 0x0000

/-- The constant `PA_SINK_RUNNING` of `pulse/def.h`. -/
def PA_SINK_RUNNING : Int := 0

/-- The states of `pa_stream_get_state`. -/
inductive pa_stream_state_t where
  | PA_STREAM_UNCONNECTED
  | PA_STREAM_CREATING
  | PA_STREAM_READY
  | PA_STREAM_FAILED
  | PA_STREAM_TERMINATED
  deriving DecidableEq, Repr

/-- The states of `pa_context_get_state`. -/
inductive pa_context_state_t where
  | PA_CONTEXT_UNCONNECTED
  | PA_CONTEXT_CONNECTING
  | PA_CONTEXT_AUTHORIZING
  | PA_CONTEXT_SETTING_NAME
  | PA_CONTEXT_READY
  | PA_CONTEXT_FAILED
  | PA_CONTEXT_TERMINATED
  deriving DecidableEq, Repr

/-- The fields of `pa_sink_info` the sink-list callback reads. -/
structure pa_sink_info where
  state : Int
  index : Nat
  monitor_source_name : List Nat
  deriving DecidableEq, Repr

/-- What the callbacks do to the world outside `state_t`, in the order they do it: calls
into the PulseAudio client and the C library, and invocations of the frame handler (with the
silence flag passed and the contents of the window at the time of the call). A stream is
named by a number. -/
inductive effect where
  | stderr (message : String)
  | quit (ret_value : Int)
  | output_cb (silence : Nat) (window : List ℚ)
  | sleep (seconds : Nat)
  | stream_flush (s : Nat)
  | stream_drop (s : Nat)
  | stream_disconnect (s : Nat)
  | stream_unref (s : Nat)
  | stream_new (stream : Option Nat)
  | stream_connect_record (s : Nat) (source : List Nat)
  | get_sink_info_list
  | operation_unref
  | subscribe
  deriving DecidableEq, Repr

/-- The type of the frame handler `output_cb`: from the silence flag, the user data and
the contents of the sample window to the returned wait, the user data and the window
contents after the call (the handler reaches the window through its user data). -/
abbrev handler (υ : Type) : Type := Nat → υ → (Nat → ℚ) → Int × υ × (Nat → ℚ)

/-- The record `state_t`. The field `stream` is `none` for `NULL`; `output_buffer` is the
contents of the window the pointer designates. The pointers `pa_mainloop_api`,
`sample_spec` and `buffer_attr` are constant after set-up and left out. Two more fields
complete the state of `pa_set_up_read_callback`: its local `pa_operation` (`true` when not
`NULL`) and the effects so far. -/
structure state_t (υ : Type) where
  monitor_source_name : List Nat
  running_index : Nat
  found : Nat
  pa_context_ready : Nat
  current_stream_source_index : Nat
  stream : Option Nat
  write_index : Nat
  buffer_silence : Nat
  n_samples : Nat
  output_buffer : Nat → ℚ
  output_cb : handler υ
  output_userdata : υ
  flush_in_progress : Nat
  pa_operation : Bool
  trace : List effect

/-- The state of `pa_set_up_read_callback` when it enters its loop: `reset_state` followed
by the assignments of lines 230-233, which give a value to the fields `reset_state` cleared
to `0` or `NULL` (`n_samples`, `output_buffer`, `output_cb`, `output_userdata`). -/
def pa_set_up_state {υ : Type} (n_samples : Nat) (output_buffer : Nat → ℚ)
    (output_cb : handler υ) (output_userdata : υ) : state_t υ :=
  { monitor_source_name := []
    running_index := 0
    found := 0
    pa_context_ready := 0
    current_stream_source_index := PA_INVALID_INDEX
    stream := none
    write_index := 0
    buffer_silence := 1
    n_samples := n_samples
    output_buffer := output_buffer
    output_cb := output_cb
    output_userdata := output_userdata
    flush_in_progress := 0
    pa_operation := false
    trace := [] }

/-- Appends an effect to the trace. -/
def emit {υ : Type} (st : state_t υ) (e : effect) : state_t υ :=
  { st with trace := st.trace ++ [e] }

/-- The function `pa_stream_flush_cb`. -/
def pa_stream_flush_cb {υ : Type} (st : state_t υ) : state_t υ :=
  { st with flush_in_progress := 0 }

/-- The function `pa_stream_state_cb` for the stream `s` in the state `stream_state`. -/
def pa_stream_state_cb {υ : Type} (st : state_t υ) (s : Nat)
    (stream_state : pa_stream_state_t) : state_t υ :=
  if stream_state = .PA_STREAM_FAILED ∨ stream_state = .PA_STREAM_TERMINATED then
    if st.stream = some s then
      { emit (emit st (.stream_disconnect s)) (.stream_unref s) with stream := none }
    else st
  else st

/-- The contents of the window: the first `n_samples` cells of the sample buffer. -/
def window {υ : Type} (st : state_t υ) : List ℚ :=
  (List.range st.n_samples).map st.output_buffer

/-- The loop of lines 136-139: samples `pa_buffer[i], ...` are stored at the write cursor
until it reaches `limit`. The first argument bounds the number of iterations; the loop runs
`limit - write_index` times. The result is the state and the index `i` after the loop. -/
def read_fill {υ : Type} (pa_buffer : List Int) (limit : Nat) :
    Nat → state_t υ → Nat → state_t υ × Nat
  | 0, st, i => (st, i)
  | k + 1, st, i =>
    if st.write_index < limit then
      read_fill pa_buffer limit k
        { st with
          output_buffer :=
            Function.update st.output_buffer st.write_index ((pa_buffer.getD i 0 : Int) : ℚ)
          buffer_silence := if st.buffer_silence ≠ 0 ∧ pa_buffer.getD i 0 = 0 then 1 else 0
          write_index := st.write_index + 1 }
        (i + 1)
    else (st, i)

/-- Lines 142-144: the frame handler is called with the silence flag, then the cursor is
reset to 0 and the flag to 1. The result is the state and the handler's return value stored
into the `unsigned int wait_time_ms`. -/
def read_deliver {υ : Type} (st : state_t υ) : state_t υ × Nat :=
  let r := st.output_cb st.buffer_silence st.output_userdata st.output_buffer
  ({ emit st (.output_cb st.buffer_silence (window st)) with
      output_userdata := r.2.1
      output_buffer := r.2.2
      write_index := 0
      buffer_silence := 1 },
    int_to_u32 r.1)

/-- The loop `while (length)` of lines 127-154 on the stream `s`, from the index `i` into
`pa_buffer` with `length` samples left. The first argument bounds the number of iterations;
the result is `none` when they are used up. -/
def read_loop {υ : Type} (s : Nat) (pa_buffer : List Int) :
    Nat → state_t υ → Nat → Nat → Option (state_t υ)
  | 0, st, _, length => if length = 0 then some st else none
  | fuel + 1, st, i, length =>
    if length = 0 then some st
    else
      let limit :=
        if st.n_samples > st.write_index + length then st.write_index + length
        else st.n_samples
      let length1 :=
        if st.n_samples > st.write_index + length then 0
        else u64 (length + 18446744073709551616
          - u32 (st.n_samples + 4294967296 - st.write_index))
      let filled := read_fill pa_buffer limit (limit - st.write_index) st i
      if filled.1.write_index = st.n_samples then
        let delivered := read_deliver filled.1
        if delivered.2 ≠ 0 then
          some { emit (emit delivered.1 (.sleep (delivered.2 / 1000))) (.stream_flush s) with
            flush_in_progress := 1 }
        else read_loop s pa_buffer fuel delivered.1 filled.2 length1
      else some filled.1

/-- The outcome of `pa_stream_peek`: an error, a hole (`data` is `NULL`), or the 16-bit
samples read, with the parity of their address. The byte count of a batch of samples is
twice their number. -/
inductive peek_result where
  | error
  | hole
  | data (aligned : Bool) (pa_buffer : List Int)

/-- The function `pa_stream_read_cb` on the stream `s`, called with `length` and with
`peek` as the outcome of `pa_stream_peek`. Each iteration of the loop that is followed by
another consumes at least one sample in the states the program reaches, so as many
iterations as there are samples are enough. -/
def pa_stream_read_cb {υ : Type} (st : state_t υ) (s : Nat) (length : Nat)
    (peek : peek_result) : Option (state_t υ) :=
  if length > 0 then
    match peek with
    | .error =>
      some { emit st (.stderr "PA: Could not read from stream") with
        found := 0
        current_stream_source_index := PA_INVALID_INDEX }
    | .hole => some (emit st (.stream_drop s))
    | .data aligned pa_buffer =>
      if st.flush_in_progress = 0 ∧ aligned = true then
        (read_loop s pa_buffer pa_buffer.length st 0 pa_buffer.length).map
          fun st1 => emit st1 (.stream_drop s)
      else some (emit st (.stream_drop s))
  else some st

/-- The function `pa_event_cb` (compiled without `DEBUG`). -/
def pa_event_cb {υ : Type} (st : state_t υ) (t : Nat) (sink_index : Nat) : state_t υ :=
  if t &&& PA_SUBSCRIPTION_EVENT_FACILITY_MASK = PA_SUBSCRIPTION_EVENT_SINK then
    if st.found ≠ 0 ∧ st.running_index = sink_index then { st with found := 0 }
    else st
  else st

/-- The function `pa_context_subscribe_completed_cb`. -/
def pa_context_subscribe_completed_cb {υ : Type} (st : state_t υ) (success : Int) :
    state_t υ :=
  if success = 0 then emit st (.quit 0) else st

/-- The function `pa_context_state_cb` for a context in the state `context_state`. -/
def pa_context_state_cb {υ : Type} (st : state_t υ) (context_state : pa_context_state_t) :
    state_t υ :=
  match context_state with
  | .PA_CONTEXT_FAILED | .PA_CONTEXT_TERMINATED =>
    emit (emit st (.stderr "PA: Context failed or terminated")) (.quit 0)
  | .PA_CONTEXT_READY => { emit st .subscribe with pa_context_ready := 1 }
  | _ => st

/-- The function `pa_context_sink_list_cb`; `i` is read only when `eol <= 0`. The name kept
is what `strncpy` and the terminator at index 255 leave: at most 255 characters. -/
def pa_context_sink_list_cb {υ : Type} (st : state_t υ) (i : pa_sink_info) (eol : Int) :
    state_t υ :=
  if eol ≤ 0 ∧ i.state = PA_SINK_RUNNING then
    if i.monitor_source_name.length ≤ 255 then
      { st with
        monitor_source_name := i.monitor_source_name
        running_index := i.index
        found := 1 }
    else
      emit { st with monitor_source_name := i.monitor_source_name.take 255 }
        (.stderr "PA: Monitor source name too big")
  else st

/-- What the PulseAudio client answers to the calls of one pass through the body of the
loop of `pa_set_up_read_callback`. -/
structure tick_env where
  /-- Whether `pa_context_get_sink_info_list` returns an operation. -/
  sink_info_list : Bool
  /-- Whether `pa_operation_get_state` is `PA_OPERATION_RUNNING`. -/
  operation_running : Bool
  /-- The value of `pa_stream_disconnect`. -/
  stream_disconnect : Int
  /-- The value of `pa_stream_new`. -/
  stream_new : Option Nat
  /-- The value of `pa_stream_connect_record`. -/
  stream_connect_record : Int

/-- Lines 257-262 of the loop body: the sink list is requested or the finished operation
released. -/
def tick_discover {υ : Type} (st : state_t υ) (env : tick_env) : state_t υ :=
  if st.found = 0 ∧ st.pa_operation = false then
    { emit st .get_sink_info_list with pa_operation := env.sink_info_list }
  else if st.pa_operation = true ∧ env.operation_running = false then
    { emit st .operation_unref with pa_operation := false }
  else st

/-- Lines 280-293 of the loop body: a stream is created and connected to the monitor
source, and the running index recorded as the index of the stream. -/
def tick_open {υ : Type} (st : state_t υ) (env : tick_env) : state_t υ :=
  let st1 := { emit st (.stream_new env.stream_new) with stream := env.stream_new }
  let st2 :=
    match env.stream_new with
    | none => emit (emit st1 (.stderr "PA: Cannot create stream")) (.quit 0)
    | some s =>
      let st3 := emit st1 (.stream_connect_record s st1.monitor_source_name)
      if env.stream_connect_record < 0 then emit st3 (.stderr "PA: Cannot connect to source")
      else st3
  { st2 with current_stream_source_index := st2.running_index }

/-- Lines 264-294 of the loop body: when a sink is found whose index is not that of the
stream, the open stream is disconnected and released and a stream opened. -/
def tick_stream {υ : Type} (st : state_t υ) (env : tick_env) : state_t υ :=
  if st.found ≠ 0 ∧ st.current_stream_source_index ≠ st.running_index then
    match st.stream with
    | some s =>
      if env.stream_disconnect < 0 then
        emit (emit (emit st (.stream_disconnect s)) (.stderr "PA: Cannot disconnect stream"))
          (.quit 0)
      else
        tick_open { emit (emit st (.stream_disconnect s)) (.stream_unref s) with stream := none }
          env
    | none => tick_open st env
  else st

/-- The body of the loop of `pa_set_up_read_callback` (lines 256-295), run after each
return of `pa_mainloop_iterate`. -/
def tick {υ : Type} (st : state_t υ) (env : tick_env) : state_t υ :=
  if st.pa_context_ready ≠ 0 then tick_stream (tick_discover st env) env else st

/-- What `pa_mainloop_iterate` can dispatch, and the pass through the loop body. -/
inductive event where
  | context_state (context_state : pa_context_state_t)
  | subscribe_completed (success : Int)
  | sink_event (t : Nat) (sink_index : Nat)
  | sink_list (i : pa_sink_info) (eol : Int)
  | stream_state (s : Nat) (stream_state : pa_stream_state_t)
  | stream_read (s : Nat) (length : Nat) (peek : peek_result)
  | stream_flushed
  | tick (env : tick_env)

/-- One event of the capture state machine. -/
def step {υ : Type} (st : state_t υ) : event → Option (state_t υ)
  | .context_state c => some (pa_context_state_cb st c)
  | .subscribe_completed success => some (pa_context_subscribe_completed_cb st success)
  | .sink_event t sink_index => some (pa_event_cb st t sink_index)
  | .sink_list i eol => some (pa_context_sink_list_cb st i eol)
  | .stream_state s stream_state => some (pa_stream_state_cb st s stream_state)
  | .stream_read s length peek => pa_stream_read_cb st s length peek
  | .stream_flushed => some (pa_stream_flush_cb st)
  | .tick env => some (tick st env)

/-- A sequence of events of the capture state machine. -/
def run {υ : Type} (st : state_t υ) : List event → Option (state_t υ)
  | [] => some st
  | e :: es => (step st e).bind fun st1 => run st1 es

/-- The frame-handler invocations of a trace: the silence flag and the window of each. -/
def deliveries (trace : List effect) : List (Nat × List ℚ) :=
  trace.filterMap fun e =>
    match e with
    | .output_cb silence w => some (silence, w)
    | _ => none

/-- The `length` samples of `pa_buffer` from the index `i` on, as stored into the window. -/
def samples (pa_buffer : List Int) (i length : Nat) : List ℚ :=
  (List.range length).map fun j => ((pa_buffer.getD (i + j) 0 : Int) : ℚ)

/-- The samples the window holds below the write cursor. -/
def buffered {υ : Type} (st : state_t υ) : List ℚ :=
  (List.range st.write_index).map st.output_buffer

/-- A state for the examples: a window of two samples holding the sample 5 below the
cursor, a frame handler that returns 0 and leaves the window as it is. -/
def example_state : state_t Unit :=
  { pa_set_up_state 2 (array_of [5]) (fun _ u b => (0, u, b)) () with
    write_index := 1
    buffer_silence := 0 }

/-- The silence flag of a delivery agrees with its window: the flag is 0 or 1, and it is 1
exactly when every sample of the window is zero. -/
def silence_ok (d : Nat × List ℚ) : Prop :=
  d.1 ≤ 1 ∧ (d.1 = 1 ↔ ∀ x, x ∈ d.2 → x = 0)

/-- The invariant of the sample window between callbacks, for a window of `n` samples: the
cursor is below `n`, the silence flag is 0 or 1 and is set exactly when every sample below
the cursor is zero, and every delivery so far was a window of `n` samples with a silence
flag that agrees with it. -/
def window_inv {υ : Type} (n : Nat) (st : state_t υ) : Prop :=
  st.n_samples = n ∧ st.write_index < n ∧ st.buffer_silence ≤ 1
    ∧ (st.buffer_silence ≠ 0 ↔ ∀ j, j < st.write_index → st.output_buffer j = 0)
    ∧ ∀ d, d ∈ deliveries st.trace → d.2.length = n ∧ silence_ok d

/-- The batch of a read event has a byte count that fits `size_t`. -/
def event_sized : event → Prop
  | .stream_read _ _ (.data _ pa_buffer) => pa_buffer.length < 18446744073709551616
  | _ => True

/-- The constant `PA_SUBSCRIPTION_EVENT_CHANGE` of `pulse/def.h`. -/
def PA_SUBSCRIPTION_EVENT_CHANGE : Nat := 0x0010

/-- A state for the examples: the context is ready, the sink 1 (monitor source `"A"`) is
found and tracked, the stream 7 is open on it, the window has two samples and is empty. -/
def tracking_state : state_t Unit :=
  { pa_set_up_state 2 (array_of []) (fun _ u b => (0, u, b)) () with
    monitor_source_name := [0x41]
    running_index := 1
    found := 1
    pa_context_ready := 1
    current_stream_source_index := 1
    stream := some 7 }

/-- The sink 2 of the examples, running, with monitor source `"B"`. -/
def sink_b : pa_sink_info := { state := PA_SINK_RUNNING, index := 2, monitor_source_name := [0x42] }

/-- Answers of the client for the examples: every call succeeds, the operation asked about
is finished, the stream created is the stream 8. -/
def env_ok : tick_env :=
  { sink_info_list := true
    operation_running := false
    stream_disconnect := 0
    stream_new := some 8
    stream_connect_record := 0 }

/-- The index `i` passes the test of line 161: its frequency is neither below `min_freq`
nor above `max_freq`. -/
def in_range (data_frequency : Nat → ℚ) (min_freq max_freq : Nat) (i : Nat) : Prop :=
  ¬ (data_frequency i < (min_freq : ℚ) ∨ data_frequency i > (max_freq : ℚ))

instance (data_frequency : Nat → ℚ) (min_freq max_freq i : Nat) :
    Decidable (in_range data_frequency min_freq max_freq i) := by
  unfold in_range
  infer_instance

/-- The state of the binning loop of `output_init` after the indices `0 .. k - 1`. -/
def init_loop_upto (env : libm) (no_grouping : Bool) (data_frequency : Nat → ℚ)
    (min_freq max_freq num_points data_length k : Nat) : init_loop_state :=
  (List.range k).foldl
    (init_loop_step env no_grouping data_frequency min_freq max_freq num_points)
    (init_loop_start data_length)

/-- The values `output_print` accumulates into the column `c`: the entries of `values` at
the indices of `min_data_index .. max_data_index` whose column is `c`, in index order. -/
def contributions (out_ctx : output_context) (values : Nat → ℚ) (c : Nat) : List ℚ :=
  ((index_range out_ctx.min_data_index out_ctx.max_data_index).filter
    fun i => decide (out_ctx.data_buffer_index_to_acc_buffer_index i = some c)).map values

/-- What holds of the state of the binning loop after the indices `0 .. k - 1`: the cells
of the index array that are assigned are those of the indices that pass the range test;
each count is the number of indices assigned to that column; `min_data_index` and
`max_data_index` are the least and greatest index passing the test (or `data_length` and 0
when there is none); the last column assigned is below the size `num_points` of the
buffers; without grouping the columns are handed out in sequence. -/
def init_inv (no_grouping : Bool) (data_frequency : Nat → ℚ)
    (min_freq max_freq num_points data_length k : Nat) (s : init_loop_state) : Prop :=
  (∀ i, (s.data_buffer_index_to_acc_buffer_index i).isSome
      ↔ i < k ∧ in_range data_frequency min_freq max_freq i)
  ∧ (∀ c, s.acc_buffer_data_count c
      = (List.range k).countP fun i =>
          decide (s.data_buffer_index_to_acc_buffer_index i = some c))
  ∧ ((∀ i, i < k → ¬ in_range data_frequency min_freq max_freq i) →
      s.min_data_index = data_length ∧ s.max_data_index = 0
        ∧ s.target_acc_index = 4294967295)
  ∧ ((∃ i, i < k ∧ in_range data_frequency min_freq max_freq i) →
      s.min_data_index < k ∧ in_range data_frequency min_freq max_freq s.min_data_index
        ∧ s.max_data_index < k ∧ in_range data_frequency min_freq max_freq s.max_data_index
        ∧ (∀ i, i < k → in_range data_frequency min_freq max_freq i →
            s.min_data_index ≤ i ∧ i ≤ s.max_data_index)
        ∧ s.target_acc_index < num_points)
  ∧ (no_grouping = true →
      s.target_acc_index
        = u32 ((List.range k).countP
            (fun i => decide (in_range data_frequency min_freq max_freq i)) + 4294967295))

/-- The binning tables of a context are consistent: every index of
`min_data_index .. max_data_index` has a column; the count of a column is the number of
those indices assigned to it; below `num_points` the averaging factor of a column is the
reciprocal of its count, or 0 when the count is 0. The context `output_init` builds from
ascending frequencies is of this kind (`output_init_bins_ok`), and the setters leave the
fields involved alone. -/
def bins_ok (out_ctx : output_context) : Prop :=
  (∀ i, out_ctx.min_data_index ≤ i → i ≤ out_ctx.max_data_index →
      ∃ c, out_ctx.data_buffer_index_to_acc_buffer_index i = some c)
  ∧ (∀ c, out_ctx.acc_buffer_data_count c
      = ((index_range out_ctx.min_data_index out_ctx.max_data_index).filter
          fun i => decide (out_ctx.data_buffer_index_to_acc_buffer_index i = some c)).length)
  ∧ (∀ c, c < out_ctx.num_points →
      out_ctx.acc_buffer_avg_factor c
        = if out_ctx.acc_buffer_data_count c > 0 then
            1 / (out_ctx.acc_buffer_data_count c : ℚ)
          else 0)

/-- A context for the examples: five frequencies `0 .. 4` grouped linearly into two columns
over the range `[0, 4]`, with the reducer `group_func`. The indices 0 and 1 fall into the
column 0, the indices 2, 3 and 4 into the column 1. -/
def grouped_ctx (group_func : Int) : output_context :=
  output_init example_env example_heap 5 (array_of [0, 1, 2, 3, 4]) 0 4 2 0 8
    OUTPUT_LINEAL_GROUPING group_func OUTPUT_NO_TRANSFORM

/-- A platform for the examples whose `log` is the natural logarithm rounded to two
decimals at the arguments 150, 200, 1500 and 2000. -/
def log_env : libm :=
  { log := fun x =>
      if x = 150 then 501 / 100
      else if x = 200 then 530 / 100
      else if x = 1500 then 731 / 100
      else if x = 2000 then 760 / 100
      else 0
    exp := fun x => x
    undef_int := -2147483648
    undef_uint := 0 }

/-! ## Auxiliary notions for the scaling stage -/

/-- The quantized level of the column `col`: the quantisation of its normalised value. -/
def column_level (env : libm) (out_ctx : output_context) (smooth_buffer : Nat → ℚ)
    (min max : ℚ) (col : Nat) : Int :=
  quantize env out_ctx ((smooth_buffer col - min) / (max - min))

/-- The digits the inner loop of `output_print` combines for the group `g`, in the order of
the sub-columns. -/
def group_digits (env : libm) (out_ctx : output_context) (smooth_buffer : Nat → ℚ)
    (min max : ℚ) (g : Nat) : List Nat :=
  (List.range out_ctx.visualization_points_per_char).map fun current_point =>
    int_to_u32 (print_f_ranged env out_ctx smooth_buffer min max
      (g * out_ctx.visualization_points_per_char) current_point)

/-- A platform for the examples whose `exp` is the exponential rounded to four decimals at
the arguments 1/2 and -1/2. -/
def sigmoid_env : libm :=
  { log := fun x => x
    exp := fun x =>
      if x = 1 / 2 then 16487 / 10000
      else if x = -1 / 2 then 6065 / 10000
      else 1
    undef_int := -2147483648
    undef_uint := 0 }

/-- The scenario context with the braille charset (two columns per character) and a
sigmoid factor of 1: five columns in three groups, the last group has one column. -/
def braille_sigmoid_ctx : output_context :=
  output_set_sigmoid_scale_factor
    (output_set_charset sigmoid_env scenario_ctx OUTPUT_CHARSET_BRAILLE) 1

/-- A context for the examples: five frequencies `0 .. 4` grouped linearly into thirty
columns over the range `[0, 4]`, Max reducer. -/
def sparse_ctx : output_context :=
  output_init example_env example_heap 5 (array_of [0, 1, 2, 3, 4]) 0 4 30 0 8
    OUTPUT_LINEAL_GROUPING OUTPUT_MAX_GROUPING_FUNC OUTPUT_NO_TRANSFORM

/-- A context for the examples: five frequencies `0 .. 4`, range `[1, 3]`, no grouping and
no reducer. -/
def ranged_ctx : output_context :=
  output_init example_env example_heap 5 (array_of [0, 1, 2, 3, 4]) 1 3 30 0 8
    OUTPUT_NO_GROUPING OUTPUT_NO_GROUPING_FUNC OUTPUT_NO_TRANSFORM

/-! ## Auxiliary notions for the smoothing stage -/

/-- The value `new_value` of line 332 for the column `i`, from the smoothed buffer of the
context before the call. -/
def smooth_new (out_ctx : output_context) (acc_buffer : Nat → ℚ) (i : Nat) : ℚ :=
  c_max (out_ctx.smooth_buffer i * out_ctx.smoothing_old_value_factor
    + acc_buffer i * out_ctx.smoothing_new_value_factor) 0

/-- The state of the smoothing loop of `output_print` after the columns `0 .. k - 1`. -/
def smooth_loop_upto (out_ctx : output_context) (acc_buffer : Nat → ℚ) (k : Nat) :
    smooth_loop_state :=
  (List.range k).foldl (smooth_step out_ctx acc_buffer)
    { smooth_buffer := out_ctx.smooth_buffer, local_min := none, local_max := 0 }

/-- What holds of the state of the smoothing loop after the columns `0 .. k - 1`: the cells
from `k` on are untouched; a column below `k` with a contributing index holds its new value;
a column `i > 0` below `k` without one holds what the column `i - 1` holds; the column 0
without one is untouched; `local_min` is still `INFINITY` exactly when no column below `k`
has a contributing index, and otherwise it is the least new value of those columns;
`local_max` is 0 or the greatest new value of those columns, whichever is greater. -/
def smooth_inv (out_ctx : output_context) (acc_buffer : Nat → ℚ) (k : Nat)
    (s : smooth_loop_state) : Prop :=
  (∀ i, k ≤ i → s.smooth_buffer i = out_ctx.smooth_buffer i)
  ∧ (∀ i, i < k → out_ctx.acc_buffer_data_count i ≠ 0 →
      s.smooth_buffer i = smooth_new out_ctx acc_buffer i)
  ∧ (∀ i, i < k → 0 < i → out_ctx.acc_buffer_data_count i = 0 →
      s.smooth_buffer i = s.smooth_buffer (i - 1))
  ∧ (out_ctx.acc_buffer_data_count 0 = 0 → s.smooth_buffer 0 = out_ctx.smooth_buffer 0)
  ∧ (s.local_min = none ↔ ∀ i, i < k → out_ctx.acc_buffer_data_count i = 0)
  ∧ (∀ m, s.local_min = some m →
      (∃ i, i < k ∧ out_ctx.acc_buffer_data_count i ≠ 0
        ∧ smooth_new out_ctx acc_buffer i = m)
      ∧ ∀ i, i < k → out_ctx.acc_buffer_data_count i ≠ 0 →
          m ≤ smooth_new out_ctx acc_buffer i)
  ∧ 0 ≤ s.local_max
  ∧ (s.local_max = 0 ∨ ∃ i, i < k ∧ out_ctx.acc_buffer_data_count i ≠ 0
      ∧ smooth_new out_ctx acc_buffer i = s.local_max)
  ∧ (∀ i, i < k → out_ctx.acc_buffer_data_count i ≠ 0 →
      smooth_new out_ctx acc_buffer i ≤ s.local_max)

/-- The context of the scenario with exponential smoothing (factors 1/2, limits 0). -/
def smooth_ctx : output_context := output_set_smoothing scenario_ctx OUTPUT_EXP2_SMOOTH

/-- The context after `n` calls of `output_print`, each on the array `values`. -/
def print_frames (env : libm) (out_ctx : output_context) (values : Nat → ℚ) :
    Nat → Option output_context
  | 0 => some out_ctx
  | n + 1 =>
    (print_frames env out_ctx values n).bind fun c =>
      (output_print env c values).map fun r => r.1

/-- The fields of a context that `output_print` does not write: the context with its work
buffers and its adaptive limits blanked. -/
def config_of (c : output_context) : output_context :=
  { c with
    acc_buffer := fun _ => 0
    smooth_buffer := fun _ => 0
    wchar_buffer := fun _ => 0
    smoothing_min_limit := 0
    smoothing_max_limit := 0 }

/-- The adaptive limit after `n` frames, from 0, when the local extremum of the frame `k`
is `m * (1 - r ^ k)` and the new-limit factor is `b`. -/
def limit_seq (b r m : ℚ) : Nat → ℚ
  | 0 => 0
  | n + 1 => limit_seq b r m n * (1 - b) + m * (1 - r ^ (n + 1)) * b

/-- The context `smooth_ctx` with the new-value factor 1/2 and the new-limit factor 0. -/
def frozen_limits_ctx : output_context := output_set_smoothing_factors smooth_ctx (1 / 2) 0

/-- The buffer the accumulation stage yields for the values 0, 2, 4, 6, 8 on `smooth_ctx`
(Max reducer). -/
def scenario_acc : Nat → ℚ := fun c =>
  (contributions smooth_ctx (array_of [0, 2, 4, 6, 8]) c).foldl c_max (acc_clear smooth_ctx c)

/-! ## Auxiliary notions for successive calls of output_print -/

/-- The context after successive calls of `output_print`, one on each array of the list. -/
def print_run (env : libm) : output_context → List (Nat → ℚ) → Option output_context
  | c, [] => some c
  | c, values :: frames => (output_print env c values).bind fun r => print_run env r.1 frames

/-- A platform for the examples whose `log` is the natural logarithm rounded to two
decimals at the arguments 4, 8, 1.39 and 2.08. -/
def ln_env : libm :=
  { log := fun x =>
      if x = 4 then 139 / 100
      else if x = 8 then 208 / 100
      else if x = 139 / 100 then 33 / 100
      else if x = 208 / 100 then 73 / 100
      else 0
    exp := fun x => x
    undef_int := -2147483648
    undef_uint := 0 }

/-- A context for the examples with the logarithmic value transform: five frequencies
`0 .. 4`, range `[1, 3]`, no grouping, Max reducer. -/
def log_values_ctx : output_context :=
  output_init ln_env example_heap 5 (array_of [0, 1, 2, 3, 4]) 1 3 30 0 8
    OUTPUT_NO_GROUPING OUTPUT_MAX_GROUPING_FUNC OUTPUT_LOGARITMIC_TRANSFORM

/-- The invariant of the smoothing state: every entry of the smoothed buffer is at least
0, and the adaptive floor is at most the adaptive ceiling. -/
def smooth_ok (c : output_context) : Prop :=
  (∀ i, 0 ≤ c.smooth_buffer i) ∧ c.smoothing_min_limit ≤ c.smoothing_max_limit

/-! # Theorems -/

/-! ## Lemmas on the machine arithmetic -/

theorem c_max_eq_max {α : Type} [LinearOrder α] (a b : α) : c_max a b = max a b := by
  unfold c_max
  split_ifs with h
  · exact (max_eq_left (le_of_lt h)).symm
  · exact (max_eq_right (not_lt.mp h)).symm

theorem c_min_eq_min {α : Type} [LinearOrder α] (a b : α) : c_min a b = min a b := by
  unfold c_min
  split_ifs with h
  · exact (min_eq_left (le_of_lt h)).symm
  · exact (min_eq_right (not_lt.mp h)).symm

theorem clamp_bounds (z : Int) (levels : Nat) (h1 : 1 ≤ levels) (h2 : levels ≤ 2147483648) :
    0 ≤ c_min_int_uint (c_max z 0) (u32 (levels + 4294967295))
      ∧ c_min_int_uint (c_max z 0) (u32 (levels + 4294967295)) ≤ (levels : Int) - 1 := by
  unfold c_min_int_uint c_max u32_to_int int_to_u32 u32
  split_ifs <;> omega

theorem quantize_bounds (env : libm) (out_ctx : output_context) (level : ℚ)
    (h1 : 1 ≤ out_ctx.visualization_levels) (h2 : out_ctx.visualization_levels ≤ 2147483648) :
    0 ≤ quantize env out_ctx level
      ∧ quantize env out_ctx level ≤ (out_ctx.visualization_levels : Int) - 1 := by
  unfold quantize
  exact clamp_bounds _ _ h1 h2

/-! ## The scaling stage -/

theorem print_f_ranged_bounds (env : libm) (out_ctx : output_context) (smooth_buffer : Nat → ℚ)
    (min max : ℚ) (i current_point : Nat)
    (h1 : 1 ≤ out_ctx.visualization_levels) (h2 : out_ctx.visualization_levels ≤ 2147483648) :
    0 ≤ print_f_ranged env out_ctx smooth_buffer min max i current_point
      ∧ print_f_ranged env out_ctx smooth_buffer min max i current_point
          ≤ (out_ctx.visualization_levels : Int) - 1 :=
  quantize_bounds env out_ctx _ h1 h2

theorem symbol_fold_lt (levels : Nat) (d : Nat → Int) (h1 : 1 ≤ levels)
    (hd : ∀ c, 0 ≤ d c ∧ d c ≤ (levels : Int) - 1) :
    ∀ n, levels ^ n ≤ 4294967296 →
      (List.range n).foldl
        (fun current_symbol_index current_point =>
          u32 (u32 (current_symbol_index * levels) + int_to_u32 (d current_point))) 0
        < levels ^ n := by
  intro n
  induction n with
  | zero => intro _; simp
  | succ n ih =>
    intro hpow
    have hle : levels ^ n ≤ levels ^ (n + 1) := Nat.pow_le_pow_right h1 (Nat.le_succ n)
    have ih1 := ih (le_trans hle hpow)
    rw [List.range_succ, List.foldl_append]
    simp only [List.foldl_cons, List.foldl_nil]
    generalize (List.range n).foldl
        (fun current_symbol_index current_point =>
          u32 (u32 (current_symbol_index * levels) + int_to_u32 (d current_point))) 0 = c at ih1
    have hdn := hd n
    have hmul : (c + 1) * levels ≤ levels ^ n * levels := Nat.mul_le_mul_right _ ih1
    rw [Nat.pow_succ] at hpow ⊢
    have hexp : (c + 1) * levels = c * levels + levels := by ring
    unfold u32 int_to_u32
    omega

theorem print_symbol_index_lt (env : libm) (out_ctx : output_context) (smooth_buffer : Nat → ℚ)
    (min max : ℚ) (i : Nat) (hok : charset_ok out_ctx) :
    print_symbol_index env out_ctx smooth_buffer min max i
      < out_ctx.visualization_levels ^ out_ctx.visualization_points_per_char := by
  obtain ⟨_, h1, h2, hpow, _⟩ := hok
  exact symbol_fold_lt out_ctx.visualization_levels
    (fun c => print_f_ranged env out_ctx smooth_buffer min max i c) h1
    (fun c => print_f_ranged_bounds env out_ctx smooth_buffer min max i c h1 h2) _ hpow

theorem lt_num_groups_iff (out_ctx : output_context)
    (hp : 1 ≤ out_ctx.visualization_points_per_char) (k : Nat) :
    k < num_groups out_ctx ↔ k * out_ctx.visualization_points_per_char < out_ctx.num_points := by
  unfold num_groups
  rw [Nat.lt_iff_add_one_le, Nat.le_div_iff_mul_le (by omega), Nat.add_mul]
  omega

theorem print_chars_spec (env : libm) (out_ctx : output_context) (smooth_buffer : Nat → ℚ)
    (min max : ℚ) (hok : charset_ok out_ctx)
    (hsz : out_ctx.num_points + out_ctx.visualization_points_per_char ≤ 4294967296) :
    ∀ (fuel k : Nat) (buf : Nat → Nat), k ≤ num_groups out_ctx →
      num_groups out_ctx - k ≤ fuel →
      print_chars env out_ctx smooth_buffer min max fuel
          (k * out_ctx.visualization_points_per_char) (u32 (k + 4294967295)) buf
        = some (u32 (num_groups out_ctx + 4294967295),
            fun j => if k ≤ j ∧ j < num_groups out_ctx then
              group_glyph env out_ctx smooth_buffer min max j else buf j) := by
  have hp : 1 ≤ out_ctx.visualization_points_per_char := hok.1
  intro fuel
  induction fuel with
  | zero =>
    intro k buf hk hfuel
    have hkG : k = num_groups out_ctx := by omega
    have hnot : ¬ k * out_ctx.visualization_points_per_char < out_ctx.num_points := by
      rw [← lt_num_groups_iff out_ctx hp]; omega
    have hfun : (fun j => if k ≤ j ∧ j < num_groups out_ctx then
        group_glyph env out_ctx smooth_buffer min max j else buf j) = buf := by
      funext j
      rw [if_neg (by omega)]
    simp only [print_chars, if_neg hnot, hfun]
    rw [hkG]
  | succ fuel ih =>
    intro k buf hk hfuel
    by_cases hlt : k * out_ctx.visualization_points_per_char < out_ctx.num_points
    · have hkG : k < num_groups out_ctx := (lt_num_groups_iff out_ctx hp k).mpr hlt
      obtain ⟨symbol, hsym, _⟩ := hok.2.2.2.2 _
        (print_symbol_index_lt env out_ctx smooth_buffer min max
          (k * out_ctx.visualization_points_per_char) hok)
      have hi : u32 (k * out_ctx.visualization_points_per_char
          + out_ctx.visualization_points_per_char)
          = (k + 1) * out_ctx.visualization_points_per_char := by
        unfold u32; rw [Nat.add_mul, Nat.one_mul]; omega
      have hGle : num_groups out_ctx ≤ out_ctx.num_points := by
        by_contra hcon
        have h3 := (lt_num_groups_iff out_ctx hp out_ctx.num_points).mp (by omega)
        have h4 : out_ctx.num_points * 1
            ≤ out_ctx.num_points * out_ctx.visualization_points_per_char :=
          Nat.mul_le_mul_left _ hp
        omega
      have hw1 : u32 (u32 (k + 4294967295) + 1) = k := by unfold u32; omega
      have hw2 : u32 (k + 1 + 4294967295) = k := by unfold u32; omega
      simp only [print_chars, if_pos hlt, hsym, hi, hw1]
      have := ih (k + 1) (Function.update buf k symbol) (by omega) (by omega)
      rw [hw2] at this
      rw [this]
      have hg : group_glyph env out_ctx smooth_buffer min max k = symbol := by
        unfold group_glyph
        rw [List.getD_eq_getElem?_getD, hsym]; rfl
      have hfun : (fun j => if k + 1 ≤ j ∧ j < num_groups out_ctx then
          group_glyph env out_ctx smooth_buffer min max j else Function.update buf k symbol j)
          = (fun j => if k ≤ j ∧ j < num_groups out_ctx then
          group_glyph env out_ctx smooth_buffer min max j else buf j) := by
        funext j
        by_cases hjk : j = k
        · subst hjk
          rw [if_neg (by omega), if_pos (by omega), Function.update_same, hg]
        · rw [Function.update_noteq hjk]
          by_cases hc : k ≤ j ∧ j < num_groups out_ctx
          · rw [if_pos hc, if_pos (by omega)]
          · rw [if_neg hc, if_neg (by omega)]
      rw [hfun]
    · have hkG : k = num_groups out_ctx := by
        have := (lt_num_groups_iff out_ctx hp k).not.mpr hlt
        omega
      have hfun : (fun j => if k ≤ j ∧ j < num_groups out_ctx then
          group_glyph env out_ctx smooth_buffer min max j else buf j) = buf := by
        funext j
        rw [if_neg (by omega)]
      simp only [print_chars, if_neg hlt, hfun]
      rw [hkG]

theorem wcs_eq_of_terminator (f : Nat → Nat) (cap g : Nat) (hg : g < cap) (h0 : f g = 0)
    (hne : ∀ j, j < g → f j ≠ 0) : wcs f cap = (List.range g).map f := by
  unfold wcs
  obtain ⟨m, rfl⟩ : ∃ m, cap = g + (m + 1) := ⟨cap - g - 1, by omega⟩
  rw [List.range_add, List.map_append, List.takeWhile_append_of_pos]
  · rw [List.range_succ_eq_map, List.map_cons, List.map_cons, List.takeWhile_cons_of_neg]
    · simp
    · simp [h0]
  · intro a ha
    rw [List.mem_map] at ha
    obtain ⟨j, hj, rfl⟩ := ha
    simpa using hne j (List.mem_range.mp hj)

theorem charset_ok_bars (out_ctx : output_context)
    (hs : out_ctx.visualization_str = bars_str) (hl : out_ctx.visualization_levels = 9)
    (hp : out_ctx.visualization_points_per_char = 1) : charset_ok out_ctx := by
  unfold charset_ok
  rw [hs, hl, hp]
  refine ⟨by decide, by decide, by decide, by decide, ?_⟩
  intro j hj
  have hj9 : j < 9 := by simpa using hj
  interval_cases j <;> simp [bars_str]

theorem charset_ok_braille (out_ctx : output_context)
    (hs : out_ctx.visualization_str = braille_str) (hl : out_ctx.visualization_levels = 5)
    (hp : out_ctx.visualization_points_per_char = 2
      ∨ out_ctx.visualization_points_per_char = 1) : charset_ok out_ctx := by
  unfold charset_ok
  rw [hs, hl]
  rcases hp with hp | hp <;> rw [hp]
  · refine ⟨by decide, by decide, by decide, by decide, ?_⟩
    intro j hj
    have hj25 : j < 25 := by simpa using hj
    interval_cases j <;> simp [braille_str]
  · refine ⟨by decide, by decide, by decide, by decide, ?_⟩
    intro j hj
    have hj5 : j < 5 := by simpa using hj
    interval_cases j <;> simp [braille_str]

theorem output_set_charset_ok (env : libm) (out_ctx : output_context) (charset : Int) :
    charset_ok (output_set_charset env out_ctx charset) := by
  unfold output_set_charset
  by_cases h1 : charset = OUTPUT_CHARSET_BRAILLE ∨ charset = OUTPUT_CHARSET_BRAILLE_WIDE
  · rw [if_pos h1]
    by_cases h2 : charset = OUTPUT_CHARSET_BRAILLE_WIDE
    · exact charset_ok_braille _ rfl rfl (Or.inr (if_pos h2))
    · exact charset_ok_braille _ rfl rfl (Or.inl (if_neg h2))
  · rw [if_neg h1]
    exact charset_ok_bars _ rfl rfl rfl

theorem print_smooth_frame (out_ctx : output_context) (acc_buffer : Nat → ℚ)
    (sm : smooth_result) (h : print_smooth out_ctx acc_buffer = some sm) :
    sm.out_ctx.num_points = out_ctx.num_points
      ∧ sm.out_ctx.visualization_levels = out_ctx.visualization_levels
      ∧ sm.out_ctx.visualization_points_per_char = out_ctx.visualization_points_per_char
      ∧ sm.out_ctx.visualization_str = out_ctx.visualization_str
      ∧ sm.out_ctx.wchar_buffer = out_ctx.wchar_buffer := by
  unfold print_smooth at h
  split_ifs at h
  · cases hm : (smooth_loop out_ctx acc_buffer).local_min with
    | none => simp [hm] at h
    | some m =>
      simp only [hm] at h
      injection h with h
      subst h
      exact ⟨rfl, rfl, rfl, rfl, rfl⟩
  · injection h with h
    subst h
    exact ⟨rfl, rfl, rfl, rfl, rfl⟩

theorem print_stages_frame (env : libm) (out_ctx : output_context) (values : Nat → ℚ)
    (sm : smooth_result) (h : print_stages env out_ctx values = some sm) :
    sm.out_ctx.num_points = out_ctx.num_points
      ∧ sm.out_ctx.visualization_levels = out_ctx.visualization_levels
      ∧ sm.out_ctx.visualization_points_per_char = out_ctx.visualization_points_per_char
      ∧ sm.out_ctx.visualization_str = out_ctx.visualization_str
      ∧ sm.out_ctx.wchar_buffer = out_ctx.wchar_buffer := by
  unfold print_stages at h
  cases hacc : print_acc out_ctx (print_transform env out_ctx values) with
  | none => simp [hacc] at h
  | some acc_buffer =>
    rw [hacc, Option.some_bind] at h
    exact print_smooth_frame { out_ctx with acc_buffer := acc_buffer } _ _ h

theorem num_groups_le (out_ctx : output_context)
    (hp : 1 ≤ out_ctx.visualization_points_per_char) :
    num_groups out_ctx ≤ out_ctx.num_points := by
  by_contra hcon
  have h3 := (lt_num_groups_iff out_ctx hp out_ctx.num_points).mp (by omega)
  have h4 : out_ctx.num_points * 1
      ≤ out_ctx.num_points * out_ctx.visualization_points_per_char :=
    Nat.mul_le_mul_left _ hp
  omega

theorem print_scale_spec (env : libm) (out_ctx : output_context) (smooth_buffer : Nat → ℚ)
    (min max : ℚ) (hok : charset_ok out_ctx) (hnp : 1 ≤ out_ctx.num_points)
    (hsz : out_ctx.num_points + out_ctx.visualization_points_per_char ≤ 4294967296) :
    ∃ wchar_buffer, print_scale env out_ctx smooth_buffer min max = some wchar_buffer
      ∧ wcs wchar_buffer (out_ctx.num_points + 1)
        = (List.range (num_groups out_ctx - 1)).map
            (group_glyph env out_ctx smooth_buffer min max) := by
  have hp : 1 ≤ out_ctx.visualization_points_per_char := hok.1
  have hG := num_groups_le out_ctx hp
  have hG1 : 1 ≤ num_groups out_ctx := by
    have := (lt_num_groups_iff out_ctx hp 0).mpr (by omega)
    omega
  have hspec := print_chars_spec env out_ctx smooth_buffer min max hok hsz
    out_ctx.num_points 0 out_ctx.wchar_buffer (by omega) (by omega)
  have h0 : u32 (0 + 4294967295) = 4294967295 := by decide
  rw [Nat.zero_mul, h0] at hspec
  have hidx : u32 (num_groups out_ctx + 4294967295) = num_groups out_ctx - 1 := by
    unfold u32; omega
  refine ⟨_, by rw [print_scale, hspec, Option.some_bind, if_pos (by rw [hidx]; omega)], ?_⟩
  simp only [hidx]
  rw [wcs_eq_of_terminator _ _ (num_groups out_ctx - 1) (by omega) (by simp)]
  · apply List.map_congr_left
    intro j hj
    have hj1 := List.mem_range.mp hj
    rw [Function.update_noteq (by omega), if_pos (by omega)]
  · intro j hj
    rw [Function.update_noteq (by omega), if_pos (by omega)]
    obtain ⟨symbol, hsym, hne⟩ := hok.2.2.2.2 _
      (print_symbol_index_lt env out_ctx smooth_buffer min max
        (j * out_ctx.visualization_points_per_char) hok)
    unfold group_glyph
    rw [List.getD_eq_getElem?_getD, hsym]
    exact hne

/-! ## C1 -/

/-- C1, as the code behaves. For a context with a glyph table set by `output_set_charset`
and at least one column, whenever the grouping and smoothing stages produce their buffers,
`output_print` returns a line holding `ceil(num_points / points_per_char) - 1` glyphs before
its terminator, one short of the number of groups: the terminator is stored at the final
`wchar_index`, over the glyph of the last group. The line is the glyphs of the groups
`0 .. ceil(num_points / points_per_char) - 2`. -/
theorem output_print_line_length (env : libm) (out_ctx : output_context) (values : Nat → ℚ)
    (hok : charset_ok out_ctx) (hnp : 1 ≤ out_ctx.num_points)
    (hsz : out_ctx.num_points + out_ctx.visualization_points_per_char ≤ 4294967296)
    (hst : (print_stages env out_ctx values).isSome = true) :
    ∃ r sm, output_print env out_ctx values = some r
      ∧ print_stages env out_ctx values = some sm
      ∧ (output_line r.1).length = num_groups out_ctx - 1
      ∧ output_line r.1
        = (List.range (num_groups out_ctx - 1)).map
            (group_glyph env sm.out_ctx sm.smooth_buffer sm.min sm.max) := by
  obtain ⟨sm, hsm⟩ := Option.isSome_iff_exists.mp hst
  obtain ⟨hn, hl, hp, hs, _⟩ := print_stages_frame _ _ _ _ hsm
  have hok1 : charset_ok sm.out_ctx := by
    unfold charset_ok
    rw [hl, hp, hs]
    exact hok
  have hng : num_groups sm.out_ctx = num_groups out_ctx := by
    unfold num_groups
    rw [hn, hp]
  obtain ⟨wchar_buffer, hscale, hwcs⟩ := print_scale_spec env sm.out_ctx sm.smooth_buffer
    sm.min sm.max hok1 (by rw [hn]; exact hnp) (by rw [hn, hp]; exact hsz)
  refine ⟨({ sm.out_ctx with wchar_buffer := wchar_buffer },
    print_transform env out_ctx values), sm, ?_, hsm, ?_, ?_⟩
  · simp [output_print, hsm, hscale]
  · simp only [output_line]
    rw [hwcs, List.length_map, List.length_range, hng]
  · simp only [output_line]
    rw [hwcs, hng]

/-- The scenario of section 8 rendered by `output_print`: five columns in five groups, and
a line of four glyphs, the entries 0, 2, 4 and 6 of the bar table. -/
theorem output_print_line_length_witness :
    num_groups scenario_ctx = 5
      ∧ (∃ r sm, output_print example_env scenario_ctx (array_of [0, 2, 4, 6, 8]) = some r
        ∧ print_stages example_env scenario_ctx (array_of [0, 2, 4, 6, 8]) = some sm
        ∧ (output_line r.1).length = num_groups scenario_ctx - 1
        ∧ output_line r.1
          = (List.range (num_groups scenario_ctx - 1)).map
              (group_glyph example_env sm.out_ctx sm.smooth_buffer sm.min sm.max))
      ∧ (output_print example_env scenario_ctx (array_of [0, 2, 4, 6, 8])).map
          (fun r => output_line r.1) = some [0x20, 0x2582, 0x2584, 0x2586] :=
  ⟨by decide,
    output_print_line_length example_env scenario_ctx (array_of [0, 2, 4, 6, 8])
      (charset_ok_bars scenario_ctx rfl rfl rfl) (by decide) (by decide) (by decide),
    by decide!⟩

/-! ## C3 -/

/-- C3. For every column value, every normalisation range with ceiling different from
floor, every sigmoid factor and every linear-scale offset (any context whose level count is
that of a glyph alphabet, at least 1), the quantized level `output_print` computes for a
sub-column is an integer in `[0, levels - 1]`. -/
theorem quantized_level_in_range (env : libm) (out_ctx : output_context)
    (smooth_buffer : Nat → ℚ) (floor ceiling : ℚ) (i current_point : Nat)
    (_hrange : ceiling ≠ floor)
    (h1 : 1 ≤ out_ctx.visualization_levels) (h2 : out_ctx.visualization_levels ≤ 2147483648) :
    0 ≤ print_f_ranged env out_ctx smooth_buffer floor ceiling i current_point
      ∧ print_f_ranged env out_ctx smooth_buffer floor ceiling i current_point
          ≤ (out_ctx.visualization_levels : Int) - 1 :=
  print_f_ranged_bounds env out_ctx smooth_buffer floor ceiling i current_point h1 h2

/-- The bound of C3 on the scenario context with a sigmoid factor of 3 and an offset of 4/5,
at the column holding 6 in the range from 0 to 8. -/
theorem quantized_level_in_range_witness :
    0 ≤ print_f_ranged example_env
          (output_set_sigmoid_scale_factor
            (output_set_lineal_scale_factor_offset scenario_ctx (4 / 5)) 3)
          (array_of [0, 2, 4, 6, 8]) 0 8 3 0
      ∧ print_f_ranged example_env
          (output_set_sigmoid_scale_factor
            (output_set_lineal_scale_factor_offset scenario_ctx (4 / 5)) 3)
          (array_of [0, 2, 4, 6, 8]) 0 8 3 0 ≤ (9 : Int) - 1 :=
  quantized_level_in_range example_env
    (output_set_sigmoid_scale_factor
      (output_set_lineal_scale_factor_offset scenario_ctx (4 / 5)) 3)
    (array_of [0, 2, 4, 6, 8]) 0 8 3 0 (by norm_num) (by decide) (by decide)

/-! ## The read callback -/

theorem read_fill_spec {υ : Type} (pa_buffer : List Int) (limit : Nat) :
    ∀ (k : Nat) (st : state_t υ) (i : Nat), st.write_index + k = limit →
      ∃ b : Nat,
        read_fill pa_buffer limit k st i
          = ({ st with
              output_buffer := fun j =>
                if st.write_index ≤ j ∧ j < limit then
                  ((pa_buffer.getD (i + (j - st.write_index)) 0 : Int) : ℚ)
                else st.output_buffer j
              buffer_silence := b
              write_index := limit }, i + k)
        ∧ (b ≠ 0 ↔ st.buffer_silence ≠ 0 ∧ ∀ j, j < k → pa_buffer.getD (i + j) 0 = 0)
        ∧ (st.buffer_silence ≤ 1 → b ≤ 1) := by
  intro k
  induction k with
  | zero =>
    intro st i h
    have hw : st.write_index = limit := by omega
    refine ⟨st.buffer_silence, ?_, by simp, fun h => h⟩
    simp only [read_fill]
    have hfun : (fun j => if st.write_index ≤ j ∧ j < limit then
        ((pa_buffer.getD (i + (j - st.write_index)) 0 : Int) : ℚ)
        else st.output_buffer j) = st.output_buffer := by
      funext j
      rw [if_neg (by omega)]
    rw [hfun, ← hw]
    rfl
  | succ k ih =>
    intro st i h
    have hlt : st.write_index < limit := by omega
    obtain ⟨b, h2, h3, h4⟩ := ih
      { st with
        output_buffer :=
          Function.update st.output_buffer st.write_index ((pa_buffer.getD i 0 : Int) : ℚ)
        buffer_silence := if st.buffer_silence ≠ 0 ∧ pa_buffer.getD i 0 = 0 then 1 else 0
        write_index := st.write_index + 1 }
      (i + 1) (by simp only []; omega)
    have hfun : (fun j => if st.write_index + 1 ≤ j ∧ j < limit then
          ((pa_buffer.getD (i + 1 + (j - (st.write_index + 1))) 0 : Int) : ℚ)
        else Function.update st.output_buffer st.write_index
          ((pa_buffer.getD i 0 : Int) : ℚ) j)
        = (fun j => if st.write_index ≤ j ∧ j < limit then
          ((pa_buffer.getD (i + (j - st.write_index)) 0 : Int) : ℚ)
        else st.output_buffer j) := by
      funext j
      by_cases hj : j = st.write_index
      · subst hj
        rw [if_neg (by omega), if_pos (by omega), Function.update_same, Nat.sub_self,
          Nat.add_zero]
      · rw [Function.update_noteq hj]
        by_cases hc : st.write_index ≤ j ∧ j < limit
        · rw [if_pos (by omega), if_pos hc,
            show i + 1 + (j - (st.write_index + 1)) = i + (j - st.write_index) by omega]
        · rw [if_neg (by omega), if_neg hc]
    refine ⟨b, ?_, ?_, ?_⟩
    · simp only [read_fill, if_pos hlt]
      rw [h2]
      dsimp only
      rw [hfun, Nat.add_assoc, Nat.add_comm 1 k]
    · rw [h3]
      dsimp only
      constructor
      · rintro ⟨ha, hb⟩
        have hcond : st.buffer_silence ≠ 0 ∧ pa_buffer.getD i 0 = 0 := by
          by_contra hcon
          rw [if_neg hcon] at ha
          exact ha rfl
        refine ⟨hcond.1, fun j hj => ?_⟩
        rcases Nat.eq_zero_or_pos j with h0 | hpos
        · subst h0
          simpa using hcond.2
        · have := hb (j - 1) (by omega)
          rwa [show i + 1 + (j - 1) = i + j by omega] at this
      · rintro ⟨ha, hb⟩
        have h0 := hb 0 (by omega)
        rw [Nat.add_zero] at h0
        refine ⟨by rw [if_pos ⟨ha, h0⟩]; decide, fun j hj => ?_⟩
        have := hb (j + 1) (by omega)
        rwa [show i + (j + 1) = i + 1 + j by omega] at this
    · intro _
      apply h4
      dsimp only
      split_ifs <;> omega

theorem map_range_fill (f g : Nat → ℚ) (w k : Nat) (F : Nat → ℚ)
    (hF : ∀ j, F j = if w ≤ j ∧ j < w + k then g (j - w) else f j) :
    (List.range (w + k)).map F = (List.range w).map f ++ (List.range k).map g := by
  rw [List.range_add, List.map_append, List.map_map]
  congr 1
  · apply List.map_congr_left
    intro j hj
    have := List.mem_range.mp hj
    rw [hF, if_neg (by omega)]
  · apply List.map_congr_left
    intro j hj
    have := List.mem_range.mp hj
    simp only [Function.comp]
    rw [hF, if_pos (by omega)]
    congr 1
    omega

theorem samples_split (pa_buffer : List Int) (i a b : Nat) :
    samples pa_buffer i (a + b) = samples pa_buffer i a ++ samples pa_buffer (i + a) b := by
  unfold samples
  rw [List.range_add, List.map_append, List.map_map]
  congr 1
  apply List.map_congr_left
  intro j _
  simp only [Function.comp, Nat.add_assoc]

theorem samples_length (pa_buffer : List Int) (i n : Nat) :
    (samples pa_buffer i n).length = n := by
  simp [samples]

theorem deliveries_append (t1 t2 : List effect) :
    deliveries (t1 ++ t2) = deliveries t1 ++ deliveries t2 := by
  simp [deliveries, List.filterMap_append]

theorem windows_succ (W T : List ℚ) (n q : Nat) (hW : W.length = n) :
    (List.range (q + 1)).map (fun k => ((W ++ T).drop (k * n)).take n)
      = W :: (List.range q).map (fun k => (T.drop (k * n)).take n) := by
  rw [List.range_succ_eq_map, List.map_cons, List.map_map]
  congr 1
  · simp [← hW]
  · apply List.map_congr_left
    intro k _
    simp only [Function.comp]
    have : (k + 1) * n = W.length + k * n := by rw [hW]; ring
    rw [this, List.drop_append]

theorem read_loop_zero_wait {υ : Type} (s : Nat) (pa_buffer : List Int) :
    ∀ (length fuel : Nat) (st : state_t υ) (i : Nat),
      length ≤ fuel → st.write_index < st.n_samples → st.n_samples < 4294967296 →
      length < 18446744073709551616 →
      (∀ a b c, (st.output_cb a b c).1 = 0) →
      ∃ st1, read_loop s pa_buffer fuel st i length = some st1
        ∧ st1.n_samples = st.n_samples
        ∧ st1.flush_in_progress = st.flush_in_progress
        ∧ st1.write_index = (st.write_index + length) % st.n_samples
        ∧ (deliveries st1.trace).map Prod.snd
            = (deliveries st.trace).map Prod.snd
              ++ (List.range ((st.write_index + length) / st.n_samples)).map
                  (fun k => ((buffered st ++ samples pa_buffer i length).drop
                    (k * st.n_samples)).take st.n_samples)
        ∧ buffered st1
            = (buffered st ++ samples pa_buffer i length).drop
                ((st.write_index + length) / st.n_samples * st.n_samples) := by
  intro length
  induction length using Nat.strong_induction_on with
  | _ length ih =>
    intro fuel st i hfuel hw hn hlen hcb
    by_cases hl0 : length = 0
    · subst hl0
      have hq : (st.write_index + 0) / st.n_samples = 0 := Nat.div_eq_of_lt (by omega)
      have hr : (st.write_index + 0) % st.n_samples = st.write_index :=
        Nat.mod_eq_of_lt (by omega)
      refine ⟨st, by cases fuel <;> simp [read_loop], rfl, rfl, hr.symm, ?_, ?_⟩
      · rw [hq]; simp
      · rw [hq]; simp [samples]
    · obtain ⟨f, rfl⟩ : ∃ f, fuel = f + 1 := ⟨fuel - 1, by omega⟩
      by_cases hfull : st.n_samples > st.write_index + length
      · obtain ⟨b, hfill, _, _⟩ :=
          read_fill_spec pa_buffer (st.write_index + length) length st i rfl
        have hk : st.write_index + length - st.write_index = length := by omega
        have hq : (st.write_index + length) / st.n_samples = 0 := Nat.div_eq_of_lt hfull
        have hr : (st.write_index + length) % st.n_samples = st.write_index + length :=
          Nat.mod_eq_of_lt hfull
        simp only [read_loop, if_neg hl0, if_pos hfull, hk, hfill]
        rw [if_neg (by omega)]
        refine ⟨_, rfl, rfl, rfl, hr.symm, ?_, ?_⟩
        · rw [hq]; simp
        · rw [hq]
          simp only [buffered, Nat.zero_mul, List.drop_zero]
          exact map_range_fill st.output_buffer
            (fun j => ((pa_buffer.getD (i + j) 0 : Int) : ℚ)) st.write_index length _
            (fun j => rfl)
      · obtain ⟨b, hfill, _, _⟩ :=
          read_fill_spec pa_buffer st.n_samples (st.n_samples - st.write_index) st i
            (by omega)
        have hlen1 : u64 (length + 18446744073709551616
            - u32 (st.n_samples + 4294967296 - st.write_index))
            = length - (st.n_samples - st.write_index) := by
          unfold u64 u32; omega
        have hsum : st.write_index + length
            = (length - (st.n_samples - st.write_index)) + st.n_samples := by omega
        have hq : (st.write_index + length) / st.n_samples
            = (length - (st.n_samples - st.write_index)) / st.n_samples + 1 := by
          rw [hsum, Nat.add_div_right _ (by omega)]
        have hr : (st.write_index + length) % st.n_samples
            = (length - (st.n_samples - st.write_index)) % st.n_samples := by
          rw [hsum, Nat.add_mod_right]
        have hwin : window (read_fill pa_buffer st.n_samples
            (st.n_samples - st.write_index) st i).1
            = buffered st ++ samples pa_buffer i (st.n_samples - st.write_index) := by
          rw [hfill]
          simp only [window, buffered, samples]
          have hn1 : st.n_samples = st.write_index + (st.n_samples - st.write_index) := by
            omega
          conv_lhs => rw [hn1]
          apply map_range_fill st.output_buffer
            (fun j => ((pa_buffer.getD (i + j) 0 : Int) : ℚ))
          intro j
          rw [← hn1]
        have hz : int_to_u32 0 = 0 := by decide
        simp only [read_loop, if_neg hl0, if_neg hfull, hlen1]
        generalize hfl : read_fill pa_buffer st.n_samples
          (st.n_samples - st.write_index) st i = fl at hfill hwin
        have hfl1 : fl.1.write_index = st.n_samples := by rw [hfill]
        have hfl2 : fl.2 = i + (st.n_samples - st.write_index) := by rw [hfill]
        have hfl3 : fl.1.n_samples = st.n_samples := by rw [hfill]
        have hfl4 : fl.1.output_cb = st.output_cb := by rw [hfill]
        have hfl5 : fl.1.trace = st.trace := by rw [hfill]
        have hfl6 : fl.1.flush_in_progress = st.flush_in_progress := by rw [hfill]
        have hd2 : (read_deliver fl.1).2 = 0 := by
          simp only [read_deliver, hfl4, hcb, hz]
        have hd1 : (read_deliver fl.1).1.write_index = 0 := rfl
        have hd3 : (read_deliver fl.1).1.n_samples = st.n_samples := hfl3
        have hd4 : (read_deliver fl.1).1.output_cb = st.output_cb := hfl4
        have hd5 : (read_deliver fl.1).1.trace
            = st.trace ++ [.output_cb fl.1.buffer_silence (window fl.1)] := by
          simp only [read_deliver, emit, hfl5]
        have hd6 : (read_deliver fl.1).1.flush_in_progress = st.flush_in_progress := hfl6
        have hd7 : buffered (read_deliver fl.1).1 = [] := by
          simp only [buffered, hd1, List.range_zero, List.map_nil]
        rw [if_pos hfl1, hd2, if_neg (by simp), hfl2]
        obtain ⟨st1, h1, h2, h3, h4, h5, h6⟩ := ih
          (length - (st.n_samples - st.write_index)) (by omega) f (read_deliver fl.1).1
          (i + (st.n_samples - st.write_index)) (by omega)
          (by rw [hd1, hd3]; omega) (by rw [hd3]; exact hn) (by omega)
          (by rw [hd4]; exact hcb)
        rw [hd1, hd3, Nat.zero_add] at h4 h5 h6
        have hS : buffered st ++ samples pa_buffer i length
            = (buffered st ++ samples pa_buffer i (st.n_samples - st.write_index))
              ++ samples pa_buffer (i + (st.n_samples - st.write_index))
                  (length - (st.n_samples - st.write_index)) := by
          rw [List.append_assoc, ← samples_split]
          congr 2
          omega
        have hWlen : (buffered st
            ++ samples pa_buffer i (st.n_samples - st.write_index)).length
            = st.n_samples := by
          simp only [List.length_append, buffered, List.length_map, List.length_range,
            samples_length]
          omega
        refine ⟨st1, h1, by rw [h2, hd3], by rw [h3, hd6], by rw [h4, hr], ?_, ?_⟩
        · rw [h5, hd5, deliveries_append, hq, hS, windows_succ _ _ _ _ hWlen, hd7,
            List.nil_append, hwin]
          simp [deliveries]
        · have e : ((length - (st.n_samples - st.write_index)) / st.n_samples + 1)
              * st.n_samples
              = (buffered st ++ samples pa_buffer i (st.n_samples - st.write_index)).length
                + (length - (st.n_samples - st.write_index)) / st.n_samples
                  * st.n_samples := by
            rw [hWlen]; ring
          rw [h6, hd7, List.nil_append, hq, hS, e, List.drop_append]

theorem samples_all (pa_buffer : List Int) :
    samples pa_buffer 0 pa_buffer.length = pa_buffer.map fun x => ((x : Int) : ℚ) := by
  apply List.ext_getElem
  · simp [samples]
  · intro j h1 h2
    have hj : j < pa_buffer.length := by simpa [samples] using h1
    simp [samples, List.getD_eq_getElem?_getD, List.getElem?_eq_getElem hj]

theorem windows_flatten (S : List ℚ) (n : Nat) :
    ∀ q, ((List.range q).map fun k => (S.drop (k * n)).take n).flatten ++ S.drop (q * n)
      = S := by
  intro q
  induction q with
  | zero => simp
  | succ q ih =>
    rw [List.range_succ, List.map_append, List.flatten_append, List.map_singleton,
      List.flatten_singleton, List.append_assoc]
    rw [Nat.add_mul, Nat.one_mul, ← List.drop_drop, List.take_append_drop]
    exact ih

/-! ## C4 -/

/-- C4. For a window of `n >= 1` samples with the write cursor at `w < n`, a frame handler
that always returns 0 and no flush in progress, `pa_stream_read_cb` on a batch of `L`
samples terminates; it invokes the handler exactly `(w + L) / n` times, the windows
delivered being the successive runs of `n` samples of the stream made of the `w` buffered
samples followed by the batch; the cursor is left at `(w + L) mod n`, the samples below it
are the rest of the stream, and the windows followed by that rest are the stream itself. -/
theorem read_cb_delivers_windows {υ : Type} (st : state_t υ) (s length : Nat)
    (pa_buffer : List Int)
    (hlength : 0 < length)
    (hw : st.write_index < st.n_samples) (hn : st.n_samples < 4294967296)
    (hL : pa_buffer.length < 18446744073709551616)
    (hflush : st.flush_in_progress = 0)
    (hcb : ∀ a b c, (st.output_cb a b c).1 = 0) :
    ∃ st1, pa_stream_read_cb st s length (.data true pa_buffer) = some st1
      ∧ (deliveries st1.trace).length
          = (deliveries st.trace).length
            + (st.write_index + pa_buffer.length) / st.n_samples
      ∧ (deliveries st1.trace).map Prod.snd
          = (deliveries st.trace).map Prod.snd
            ++ (List.range ((st.write_index + pa_buffer.length) / st.n_samples)).map
                (fun k => ((buffered st ++ pa_buffer.map fun x => ((x : Int) : ℚ)).drop
                  (k * st.n_samples)).take st.n_samples)
      ∧ st1.write_index = (st.write_index + pa_buffer.length) % st.n_samples
      ∧ buffered st1
          = (buffered st ++ pa_buffer.map fun x => ((x : Int) : ℚ)).drop
              ((st.write_index + pa_buffer.length) / st.n_samples * st.n_samples)
      ∧ ((List.range ((st.write_index + pa_buffer.length) / st.n_samples)).map
            (fun k => ((buffered st ++ pa_buffer.map fun x => ((x : Int) : ℚ)).drop
              (k * st.n_samples)).take st.n_samples)).flatten ++ buffered st1
          = buffered st ++ pa_buffer.map fun x => ((x : Int) : ℚ) := by
  obtain ⟨st1, h1, _, _, h4, h5, h6⟩ := read_loop_zero_wait s pa_buffer pa_buffer.length
    pa_buffer.length st 0 (le_refl _) hw hn hL hcb
  rw [samples_all] at h5 h6
  have hlen := congrArg List.length h5
  simp only [List.length_map, List.length_append, List.length_range] at hlen
  refine ⟨emit st1 (.stream_drop s), ?_, ?_, ?_, h4, h6, ?_⟩
  · simp [pa_stream_read_cb, hlength, hflush, h1]
  · simpa [emit, deliveries_append, deliveries] using hlen
  · simpa [emit, deliveries_append, deliveries] using h5
  · have hb : buffered (emit st1 (.stream_drop s)) = buffered st1 := rfl
    rw [hb, h6]
    exact windows_flatten _ _ _

/-- C4 on a window of two samples holding the sample 5, and the batch 3, 0, 7: the
handler is invoked twice, on the windows 5, 3 and 0, 7, and the cursor is left at 0. -/
theorem read_cb_delivers_windows_witness :
    ∃ st1, pa_stream_read_cb example_state 7 6 (.data true [3, 0, 7]) = some st1
      ∧ (deliveries st1.trace).length = 2
      ∧ (deliveries st1.trace).map Prod.snd = [[5, 3], [0, 7]]
      ∧ st1.write_index = 0
      ∧ buffered st1 = [] := by
  obtain ⟨st1, h1, h2, h3, h4, h5, _⟩ :=
    read_cb_delivers_windows example_state 7 6 [3, 0, 7] (by decide) (by decide)
      (by decide) (by decide) rfl (fun _ _ _ => rfl)
  refine ⟨st1, h1, ?_, ?_, ?_, ?_⟩
  · rw [h2]; decide
  · rw [h3]; decide!
  · rw [h4]; decide
  · rw [h5]; decide!

/-! ## C5 -/

theorem fill_zero_iff (buf : Nat → ℚ) (pa_buffer : List Int) (i w limit silence b : Nat)
    (hw : w ≤ limit)
    (hs : silence ≠ 0 ↔ ∀ j, j < w → buf j = 0)
    (hb : b ≠ 0 ↔ silence ≠ 0 ∧ ∀ j, j < limit - w → pa_buffer.getD (i + j) 0 = 0) :
    b ≠ 0 ↔ ∀ j, j < limit →
      (if w ≤ j ∧ j < limit then ((pa_buffer.getD (i + (j - w)) 0 : Int) : ℚ) else buf j)
        = 0 := by
  rw [hb, hs]
  constructor
  · rintro ⟨h1, h2⟩ j hj
    by_cases hc : w ≤ j
    · rw [if_pos ⟨hc, hj⟩]
      exact_mod_cast h2 (j - w) (by omega)
    · rw [if_neg (by omega)]
      exact h1 j (by omega)
  · intro h
    constructor
    · intro j hj
      have := h j (by omega)
      rwa [if_neg (by omega)] at this
    · intro j hj
      have := h (w + j) (by omega)
      rw [if_pos (by omega), show w + j - w = j by omega] at this
      exact_mod_cast this

theorem window_inv_of_same {υ : Type} (n : Nat) (st st1 : state_t υ)
    (h1 : st1.n_samples = st.n_samples) (h2 : st1.write_index = st.write_index)
    (h3 : st1.buffer_silence = st.buffer_silence) (h4 : st1.output_buffer = st.output_buffer)
    (h5 : deliveries st1.trace = deliveries st.trace) (h : window_inv n st) :
    window_inv n st1 := by
  unfold window_inv at h ⊢
  rw [h1, h2, h3, h4, h5]
  exact h

theorem read_loop_inv {υ : Type} (s : Nat) (pa_buffer : List Int) (n : Nat)
    (hn : n < 4294967296) :
    ∀ (length fuel : Nat) (st : state_t υ) (i : Nat),
      length ≤ fuel → length < 18446744073709551616 → window_inv n st →
      ∃ st1, read_loop s pa_buffer fuel st i length = some st1 ∧ window_inv n st1 := by
  intro length
  induction length using Nat.strong_induction_on with
  | _ length ih =>
    intro fuel st i hfuel hlen hinv
    obtain ⟨hns, hw, hs1, hs, hd⟩ := hinv
    by_cases hl0 : length = 0
    · subst hl0
      exact ⟨st, by cases fuel <;> simp [read_loop], hns, hw, hs1, hs, hd⟩
    · obtain ⟨f, rfl⟩ : ∃ f, fuel = f + 1 := ⟨fuel - 1, by omega⟩
      by_cases hfull : st.n_samples > st.write_index + length
      · obtain ⟨b, hfill, hb, hb1⟩ :=
          read_fill_spec pa_buffer (st.write_index + length) length st i rfl
        have hk : st.write_index + length - st.write_index = length := by omega
        simp only [read_loop, if_neg hl0, if_pos hfull, hk, hfill]
        rw [if_neg (by omega)]
        refine ⟨_, rfl, hns, by dsimp only; omega, hb1 hs1, ?_, hd⟩
        exact fill_zero_iff st.output_buffer pa_buffer i st.write_index
          (st.write_index + length) st.buffer_silence b (by omega) hs (by rw [hk]; exact hb)
      · obtain ⟨b, hfill, hb, hb1⟩ :=
          read_fill_spec pa_buffer st.n_samples (st.n_samples - st.write_index) st i
            (by omega)
        have hlen1 : u64 (length + 18446744073709551616
            - u32 (st.n_samples + 4294967296 - st.write_index))
            = length - (st.n_samples - st.write_index) := by
          unfold u64 u32; omega
        have hzero := fill_zero_iff st.output_buffer pa_buffer i st.write_index
          st.n_samples st.buffer_silence b (by omega) hs hb
        simp only [read_loop, if_neg hl0, if_neg hfull, hlen1]
        generalize hfl : read_fill pa_buffer st.n_samples
          (st.n_samples - st.write_index) st i = fl at hfill
        have hfl1 : fl.1.write_index = st.n_samples := by rw [hfill]
        have hfl3 : fl.1.n_samples = st.n_samples := by rw [hfill]
        have hfl5 : fl.1.trace = st.trace := by rw [hfill]
        have hfl7 : fl.1.buffer_silence = b := by rw [hfill]
        have hwin : window fl.1 = (List.range st.n_samples).map fun j =>
            if st.write_index ≤ j ∧ j < st.n_samples then
              ((pa_buffer.getD (i + (j - st.write_index)) 0 : Int) : ℚ)
            else st.output_buffer j := by
          rw [hfill]; rfl
        have hd5 : (read_deliver fl.1).1.trace
            = st.trace ++ [.output_cb b (window fl.1)] := by
          simp only [read_deliver, emit, hfl5, hfl7]
        have hdel : ∀ d, d ∈ deliveries (read_deliver fl.1).1.trace →
            d.2.length = n ∧ silence_ok d := by
          intro d hdm
          rw [hd5, deliveries_append, List.mem_append] at hdm
          rcases hdm with hdm | hdm
          · exact hd d hdm
          · have hde : d = (b, window fl.1) := by simpa [deliveries] using hdm
            subst hde
            refine ⟨by simp [window, hfl3, hns], hb1 hs1, ?_⟩
            have hb01 : b = 1 ↔ b ≠ 0 := by have := hb1 hs1; omega
            rw [hb01, hzero, hwin]
            simp only [List.mem_map, List.mem_range]
            constructor
            · rintro h x ⟨j, hj, rfl⟩
              exact h j hj
            · intro h j hj
              exact h _ ⟨j, hj, rfl⟩
        have hinv2 : window_inv n (read_deliver fl.1).1 :=
          ⟨hfl3.trans hns, by show 0 < n; omega, by show 1 ≤ 1; omega,
            by show (1 ≠ 0 ↔ _); simp [read_deliver], hdel⟩
        rw [if_pos hfl1]
        by_cases hwait : (read_deliver fl.1).2 ≠ 0
        · rw [if_pos hwait]
          refine ⟨_, rfl, ?_⟩
          refine window_inv_of_same n (read_deliver fl.1).1 _ rfl rfl rfl rfl ?_ hinv2
          simp [emit, deliveries_append, deliveries]
        · rw [if_neg hwait]
          exact ih (length - (st.n_samples - st.write_index)) (by omega) f _ _ (by omega)
            (by omega) hinv2

theorem window_inv_emit {υ : Type} (n : Nat) (st : state_t υ) (e : effect)
    (he : ∀ silence w, e ≠ .output_cb silence w) (h : window_inv n st) :
    window_inv n (emit st e) := by
  refine window_inv_of_same n st _ rfl rfl rfl rfl ?_ h
  simp only [emit, deliveries_append]
  cases e <;> first | exact absurd rfl (he _ _) | simp [deliveries]

theorem tick_open_inv {υ : Type} (n : Nat) (st : state_t υ) (env : tick_env)
    (h : window_inv n st) : window_inv n (tick_open st env) := by
  unfold tick_open
  cases hnew : env.stream_new with
  | none =>
    refine window_inv_of_same n st _ rfl rfl rfl rfl ?_ h
    simp [emit, deliveries_append, deliveries]
  | some s1 =>
    dsimp only
    split_ifs
    · refine window_inv_of_same n st _ rfl rfl rfl rfl ?_ h
      simp [emit, deliveries_append, deliveries]
    · refine window_inv_of_same n st _ rfl rfl rfl rfl ?_ h
      simp [emit, deliveries_append, deliveries]

theorem tick_inv {υ : Type} (n : Nat) (st : state_t υ) (env : tick_env)
    (h : window_inv n st) : window_inv n (tick st env) := by
  unfold tick
  split_ifs
  · have h1 : window_inv n (tick_discover st env) := by
      unfold tick_discover
      split_ifs
      · exact window_inv_of_same n st _ rfl rfl rfl rfl
          (by simp [emit, deliveries_append, deliveries]) h
      · exact window_inv_of_same n st _ rfl rfl rfl rfl
          (by simp [emit, deliveries_append, deliveries]) h
      · exact h
    generalize tick_discover st env = st1 at h1
    unfold tick_stream
    by_cases hc : st1.found ≠ 0 ∧ st1.current_stream_source_index ≠ st1.running_index
    · rw [if_pos hc]
      cases hs : st1.stream with
      | none => exact tick_open_inv n st1 env h1
      | some s1 =>
        dsimp only
        by_cases hdis : env.stream_disconnect < 0
        · rw [if_pos hdis]
          exact window_inv_of_same n st1 _ rfl rfl rfl rfl
            (by simp [emit, deliveries_append, deliveries]) h1
        · rw [if_neg hdis]
          apply tick_open_inv
          exact window_inv_of_same n st1 _ rfl rfl rfl rfl
            (by simp [emit, deliveries_append, deliveries]) h1
    · rw [if_neg hc]
      exact h1
  · exact h

theorem step_inv {υ : Type} (n : Nat) (hn : n < 4294967296) (st : state_t υ) (e : event)
    (he : event_sized e) (h : window_inv n st) :
    ∃ st1, step st e = some st1 ∧ window_inv n st1 := by
  cases e with
  | context_state c =>
    refine ⟨_, rfl, ?_⟩
    cases c <;>
      exact window_inv_of_same n st _ rfl rfl rfl rfl
        (by simp [pa_context_state_cb, emit, deliveries_append, deliveries]) h
  | subscribe_completed success =>
    refine ⟨_, rfl, ?_⟩
    unfold pa_context_subscribe_completed_cb
    split_ifs
    · exact window_inv_emit n st _ (by simp) h
    · exact h
  | sink_event t sink_index =>
    refine ⟨_, rfl, ?_⟩
    unfold pa_event_cb
    split_ifs
    · exact window_inv_of_same n st _ rfl rfl rfl rfl rfl h
    · exact h
    · exact h
  | sink_list i eol =>
    refine ⟨_, rfl, ?_⟩
    unfold pa_context_sink_list_cb
    split_ifs
    · exact window_inv_of_same n st _ rfl rfl rfl rfl rfl h
    · exact window_inv_of_same n st _ rfl rfl rfl rfl
        (by simp [emit, deliveries_append, deliveries]) h
    · exact h
  | stream_state s stream_state =>
    refine ⟨_, rfl, ?_⟩
    unfold pa_stream_state_cb
    split_ifs
    · exact window_inv_of_same n st _ rfl rfl rfl rfl
        (by simp [emit, deliveries_append, deliveries]) h
    · exact h
    · exact h
  | stream_flushed =>
    exact ⟨_, rfl, window_inv_of_same n st _ rfl rfl rfl rfl rfl h⟩
  | tick env => exact ⟨_, rfl, tick_inv n st env h⟩
  | stream_read s length peek =>
    simp only [step, pa_stream_read_cb]
    split_ifs with hlen
    · cases peek with
      | error =>
        exact ⟨_, rfl, window_inv_of_same n st _ rfl rfl rfl rfl
          (by simp [emit, deliveries_append, deliveries]) h⟩
      | hole => exact ⟨_, rfl, window_inv_emit n st _ (by simp) h⟩
      | data aligned pa_buffer =>
        dsimp only
        split_ifs
        · obtain ⟨st1, h1, h2⟩ := read_loop_inv s pa_buffer n hn pa_buffer.length
            pa_buffer.length st 0 (le_refl _) he h
          exact ⟨_, by rw [h1]; rfl, window_inv_emit n st1 _ (by simp) h2⟩
        · exact ⟨_, rfl, window_inv_emit n st _ (by simp) h⟩
    · exact ⟨_, rfl, h⟩

theorem run_inv {υ : Type} (n : Nat) (hn : n < 4294967296) :
    ∀ (events : List event) (st : state_t υ), (∀ e, e ∈ events → event_sized e) →
      window_inv n st → ∃ st1, run st events = some st1 ∧ window_inv n st1 := by
  intro events
  induction events with
  | nil => intro st _ h; exact ⟨st, rfl, h⟩
  | cons e es ih =>
    intro st hsz h
    obtain ⟨st1, h1, h2⟩ := step_inv n hn st e (hsz e (List.mem_cons_self _ _)) h
    obtain ⟨st2, h3, h4⟩ := ih st1 (fun e1 he1 => hsz e1 (List.mem_cons_of_mem _ he1)) h2
    exact ⟨st2, by simp [run, h1, h3], h4⟩

/-- C5. From the state `pa_set_up_read_callback` starts with, for a window of `n >= 1`
samples and any sequence of callbacks and loop passes (any frame handler, windows filled
across any number of batches), the run goes through and every window delivered to the frame
handler has `n` samples and a silence flag that is 0 or 1, and 1 exactly when every sample
of the window is zero; right after a delivery the cursor is 0 and the flag is 1. -/
theorem silence_flag_iff_all_zero {υ : Type} (n_samples : Nat) (output_buffer : Nat → ℚ)
    (output_cb : handler υ) (output_userdata : υ) (events : List event)
    (hn1 : 1 ≤ n_samples) (hn : n_samples < 4294967296)
    (hsz : ∀ e, e ∈ events → event_sized e) :
    (∃ st, run (pa_set_up_state n_samples output_buffer output_cb output_userdata) events
        = some st
      ∧ ∀ d, d ∈ deliveries st.trace →
          d.2.length = n_samples ∧ d.1 ≤ 1 ∧ (d.1 = 1 ↔ ∀ x, x ∈ d.2 → x = 0))
    ∧ ∀ st0 : state_t υ,
        (read_deliver st0).1.write_index = 0 ∧ (read_deliver st0).1.buffer_silence = 1 := by
  constructor
  · have h0 : window_inv n_samples
        (pa_set_up_state n_samples output_buffer output_cb output_userdata) :=
      ⟨rfl, hn1, le_refl _, by simp [pa_set_up_state], by simp [pa_set_up_state, deliveries]⟩
    obtain ⟨st, h1, h2⟩ := run_inv n_samples hn events _ hsz h0
    exact ⟨st, h1, fun d hd => ⟨(h2.2.2.2.2 d hd).1, (h2.2.2.2.2 d hd).2.1,
      (h2.2.2.2.2 d hd).2.2⟩⟩
  · intro st0
    exact ⟨rfl, rfl⟩

/-- C5 on a window of two samples filled across batches: one sample 0, then the samples
0, 0 and 4, then the sample 0. Two windows are delivered, the first all zero with the flag
set, the second holding a 4 with the flag clear. -/
theorem silence_flag_iff_all_zero_witness :
    (∃ st, run (pa_set_up_state 2 (array_of []) (fun _ (u : Unit) b => (0, u, b)) ())
        [.stream_read 7 2 (.data true [0]), .stream_read 7 6 (.data true [0, 0, 4]),
          .stream_read 7 2 (.data true [0])] = some st
      ∧ ∀ d, d ∈ deliveries st.trace →
          d.2.length = 2 ∧ d.1 ≤ 1 ∧ (d.1 = 1 ↔ ∀ x, x ∈ d.2 → x = 0))
    ∧ (∀ st0 : state_t Unit,
        (read_deliver st0).1.write_index = 0 ∧ (read_deliver st0).1.buffer_silence = 1)
    ∧ (run (pa_set_up_state 2 (array_of []) (fun _ (u : Unit) b => (0, u, b)) ())
        [.stream_read 7 2 (.data true [0]), .stream_read 7 6 (.data true [0, 0, 4]),
          .stream_read 7 2 (.data true [0])]).map (fun st => deliveries st.trace)
        = some [(1, [0, 0]), (0, [0, 4])] := by
  have h := silence_flag_iff_all_zero 2 (array_of []) (fun _ (u : Unit) b => (0, u, b)) ()
    [.stream_read 7 2 (.data true [0]), .stream_read 7 6 (.data true [0, 0, 4]),
      .stream_read 7 2 (.data true [0])] (by decide) (by decide)
    (by intro e he; simp only [List.mem_cons, List.mem_singleton, List.not_mem_nil,
          or_false] at he
        rcases he with rfl | rfl | rfl <;> simp [event_sized])
  exact ⟨h.1, h.2, by decide!⟩

/-! ## C8 -/

/-- C8. `pa_event_cb` on an event of the sink facility with index `k` clears `found` when
a sink is found and its running index is `k`; in every other case (another index, nothing
found, another facility) it returns the state unchanged; in every case the state it returns
is the given state with at most the field `found` replaced. -/
theorem pa_event_cb_frame {υ : Type} (st : state_t υ) (t k : Nat) :
    pa_event_cb st t k
        = (if t &&& PA_SUBSCRIPTION_EVENT_FACILITY_MASK = PA_SUBSCRIPTION_EVENT_SINK
              ∧ st.found ≠ 0 ∧ st.running_index = k
            then { st with found := 0 } else st)
      ∧ pa_event_cb st t k = { st with found := (pa_event_cb st t k).found }
      ∧ (pa_event_cb st t k).found
          = (if t &&& PA_SUBSCRIPTION_EVENT_FACILITY_MASK = PA_SUBSCRIPTION_EVENT_SINK
                ∧ st.found ≠ 0 ∧ st.running_index = k
              then 0 else st.found) := by
  unfold pa_event_cb
  by_cases h1 : t &&& PA_SUBSCRIPTION_EVENT_FACILITY_MASK = PA_SUBSCRIPTION_EVENT_SINK
  · by_cases h2 : st.found ≠ 0 ∧ st.running_index = k
    · rw [if_pos h1, if_pos h2, if_pos ⟨h1, h2⟩, if_pos ⟨h1, h2⟩]
      exact ⟨rfl, rfl, rfl⟩
    · rw [if_pos h1, if_neg h2, if_neg (fun h => h2 h.2), if_neg (fun h => h2 h.2)]
      exact ⟨rfl, rfl, rfl⟩
  · rw [if_neg h1, if_neg (fun h => h1 h.1), if_neg (fun h => h1 h.1)]
    exact ⟨rfl, rfl, rfl⟩

/-! ## C6 -/

/-- C6 fails as stated. The sink 1 is tracked with the stream 7 open on it; a change event
for the sink 1 arrives and the next loop pass requests the sink list. A batch of two
samples read from the stream 7 is then delivered to the frame handler, with the stream 7
still open: nothing has been disconnected, released or opened. The switch to the running
sink 2 takes place afterwards, in the loop pass that follows the sink-list callback. -/
theorem delivery_before_switch :
    (run tracking_state
        [.sink_event PA_SUBSCRIPTION_EVENT_CHANGE 1, .tick env_ok,
          .stream_read 7 4 (.data true [3, 4])]).map
        (fun st => (st.found, st.stream, st.current_stream_source_index, st.trace))
      = some (0, some 7, 1,
          [.get_sink_info_list, .output_cb 0 [3, 4], .stream_drop 7])
    ∧ (run tracking_state
        [.sink_event PA_SUBSCRIPTION_EVENT_CHANGE 1, .tick env_ok,
          .stream_read 7 4 (.data true [3, 4]), .sink_list sink_b 0, .tick env_ok]).map
        (fun st => (st.found, st.stream, st.current_stream_source_index, st.trace))
      = some (1, some 8, 2,
          [.get_sink_info_list, .output_cb 0 [3, 4], .stream_drop 7, .operation_unref,
            .stream_disconnect 7, .stream_unref 7, .stream_new (some 8),
            .stream_connect_record 8 [0x42]]) := by
  constructor <;> decide!

/-- C6, amended. A sink is tracked with the stream `a` open on it and no sink-list
operation pending. A sink event carrying the tracked index clears `found`; the next loop
pass requests the sink list; once the sink-list callback reports a running sink `B` with
another index, the following loop pass disconnects and releases the stream `a`, then
creates a stream and connects it to the monitor source of `B`, in that order, and records
the index of `B` as the index of the stream. -/
theorem sink_switch_reopens {υ : Type} (st : state_t υ) (a b t : Nat) (B : pa_sink_info)
    (env1 env2 : tick_env)
    (hready : st.pa_context_ready ≠ 0) (hfound : st.found ≠ 0)
    (hcur : st.current_stream_source_index = st.running_index)
    (hstream : st.stream = some a) (hop : st.pa_operation = false)
    (ht : t &&& PA_SUBSCRIPTION_EVENT_FACILITY_MASK = PA_SUBSCRIPTION_EVENT_SINK)
    (hB : B.state = PA_SINK_RUNNING) (hBi : B.index ≠ st.running_index)
    (hBn : B.monitor_source_name.length ≤ 255)
    (h1 : env1.sink_info_list = true) (h2 : env2.operation_running = false)
    (h3 : 0 ≤ env2.stream_disconnect) (h4 : env2.stream_new = some b)
    (h5 : 0 ≤ env2.stream_connect_record) :
    (pa_event_cb st t st.running_index).found = 0
      ∧ ∃ st1, run st [.sink_event t st.running_index, .tick env1, .sink_list B 0, .tick env2]
          = some st1
        ∧ st1.trace = st.trace ++ [.get_sink_info_list, .operation_unref,
            .stream_disconnect a, .stream_unref a, .stream_new (some b),
            .stream_connect_record b B.monitor_source_name]
        ∧ st1.stream = some b
        ∧ st1.found = 1
        ∧ st1.running_index = B.index
        ∧ st1.current_stream_source_index = B.index
        ∧ st1.monitor_source_name = B.monitor_source_name := by
  have hev : pa_event_cb st t st.running_index = { st with found := 0 } := by
    unfold pa_event_cb
    rw [if_pos ht, if_pos ⟨hfound, rfl⟩]
  have hne : st.running_index ≠ B.index := fun h => hBi h.symm
  have hlt1 : ¬ (env2.stream_disconnect < 0) := by omega
  have hlt2 : ¬ (env2.stream_connect_record < 0) := by omega
  have hs1 : tick { st with found := 0 } env1
      = { st with
          found := 0
          pa_operation := true
          trace := st.trace ++ [.get_sink_info_list] } := by
    have hd : tick_discover { st with found := 0 } env1
        = { st with
          found := 0
          pa_operation := true
          trace := st.trace ++ [.get_sink_info_list] } := by
      unfold tick_discover
      rw [if_pos ⟨rfl, hop⟩, h1]
      rfl
    unfold tick
    rw [if_pos hready, hd]
    unfold tick_stream
    rw [if_neg (fun h => h.1 rfl)]
  have hs2 : pa_context_sink_list_cb
      { st with
          found := 0
          pa_operation := true
          trace := st.trace ++ [.get_sink_info_list] } B 0
      = { st with
          found := 1
          pa_operation := true
          trace := st.trace ++ [.get_sink_info_list]
          monitor_source_name := B.monitor_source_name
          running_index := B.index } := by
    unfold pa_context_sink_list_cb
    rw [if_pos ⟨le_refl _, hB⟩, if_pos hBn]
  have hs3 : tick
      { st with
          found := 1
          pa_operation := true
          trace := st.trace ++ [.get_sink_info_list]
          monitor_source_name := B.monitor_source_name
          running_index := B.index } env2
      = { st with
          found := 1
          pa_operation := false
          trace := st.trace ++ [.get_sink_info_list, .operation_unref,
            .stream_disconnect a, .stream_unref a, .stream_new (some b),
            .stream_connect_record b B.monitor_source_name]
          monitor_source_name := B.monitor_source_name
          running_index := B.index
          stream := some b
          current_stream_source_index := B.index } := by
    have hd : tick_discover
        { st with
          found := 1
          pa_operation := true
          trace := st.trace ++ [.get_sink_info_list]
          monitor_source_name := B.monitor_source_name
          running_index := B.index } env2
        = { st with
            found := 1
            pa_operation := false
            trace := st.trace ++ [.get_sink_info_list, .operation_unref]
            monitor_source_name := B.monitor_source_name
            running_index := B.index } := by
      unfold tick_discover
      rw [if_neg (fun h => absurd h.1 Nat.one_ne_zero), if_pos ⟨rfl, h2⟩]
      simp [emit]
    unfold tick
    rw [if_pos hready, hd]
    unfold tick_stream
    rw [if_pos ⟨Nat.one_ne_zero, by dsimp only; rw [hcur]; exact hne⟩]
    dsimp only
    rw [hstream]
    dsimp only
    rw [if_neg hlt1]
    unfold tick_open
    dsimp only
    rw [h4]
    dsimp only
    rw [if_neg hlt2]
    simp [emit]
  refine ⟨by rw [hev], ?_⟩
  simp only [run, step, Option.some_bind, hev, hs1, hs2, hs3]
  exact ⟨_, rfl, rfl, rfl, rfl, rfl, rfl, rfl⟩

/-- C6, amended, on the example: the sink 1 is tracked with the stream 7, the sink 2
turns up running. -/
theorem sink_switch_reopens_witness :
    (pa_event_cb tracking_state PA_SUBSCRIPTION_EVENT_CHANGE tracking_state.running_index).found
        = 0
      ∧ ∃ st1, run tracking_state
          [.sink_event PA_SUBSCRIPTION_EVENT_CHANGE tracking_state.running_index,
            .tick env_ok, .sink_list sink_b 0, .tick env_ok] = some st1
        ∧ st1.trace = tracking_state.trace ++ [.get_sink_info_list, .operation_unref,
            .stream_disconnect 7, .stream_unref 7, .stream_new (some 8),
            .stream_connect_record 8 sink_b.monitor_source_name]
        ∧ st1.stream = some 8
        ∧ st1.found = 1
        ∧ st1.running_index = sink_b.index
        ∧ st1.current_stream_source_index = sink_b.index
        ∧ st1.monitor_source_name = sink_b.monitor_source_name :=
  sink_switch_reopens tracking_state 7 8 PA_SUBSCRIPTION_EVENT_CHANGE sink_b env_ok env_ok
    (by decide) (by decide) rfl rfl rfl (by decide) rfl (by decide) (by decide) rfl rfl
    (by decide) rfl (by decide)

/-! ## C7 -/

theorem acc_fold_spec (out_ctx : output_context) (values : Nat → ℚ) (f : ℚ → ℚ → ℚ) :
    ∀ (l : List Nat) (a : Nat → ℚ),
      (∀ i, i ∈ l → ∃ c, out_ctx.data_buffer_index_to_acc_buffer_index i = some c) →
      l.foldl (acc_step out_ctx values f) (some a)
        = some fun c =>
            ((l.filter fun i =>
              decide (out_ctx.data_buffer_index_to_acc_buffer_index i = some c)).map
                values).foldl f (a c) := by
  intro l
  induction l with
  | nil => intro a _; simp
  | cons i l ih =>
    intro a h
    obtain ⟨ci, hci⟩ := h i (List.mem_cons_self _ _)
    rw [List.foldl_cons]
    have hstep : acc_step out_ctx values f (some a) i
        = some (Function.update a ci (f (a ci) (values i))) := by
      simp only [acc_step, hci]
    rw [hstep, ih _ (fun j hj => h j (List.mem_cons_of_mem _ hj))]
    congr 1
    funext c
    by_cases hc : ci = c
    · subst hc
      simp [List.filter_cons, hci]
    · have hne : ¬ (out_ctx.data_buffer_index_to_acc_buffer_index i = some c) := by
        rw [hci]
        intro h1
        exact hc (Option.some.inj h1)
      simp [List.filter_cons, hne, Function.update_noteq (Ne.symm hc)]

theorem acc_loop_spec (out_ctx : output_context) (values : Nat → ℚ) (f : ℚ → ℚ → ℚ)
    (hmap : ∀ i, out_ctx.min_data_index ≤ i → i ≤ out_ctx.max_data_index →
      ∃ c, out_ctx.data_buffer_index_to_acc_buffer_index i = some c) :
    acc_loop out_ctx values f
      = some fun c => (contributions out_ctx values c).foldl f (acc_clear out_ctx c) := by
  unfold acc_loop contributions
  apply acc_fold_spec
  intro i hi
  unfold index_range at hi
  rw [List.mem_range'_1] at hi
  exact hmap i hi.1 (by omega)

theorem foldl_c_max_spec (l : List ℚ) :
    ∀ a : ℚ, a ≤ l.foldl c_max a ∧ (∀ v, v ∈ l → v ≤ l.foldl c_max a)
      ∧ (l.foldl c_max a = a ∨ l.foldl c_max a ∈ l) := by
  induction l with
  | nil => intro a; simp
  | cons x l ih =>
    intro a
    rw [List.foldl_cons, c_max_eq_max]
    obtain ⟨h1, h2, h3⟩ := ih (max a x)
    refine ⟨le_trans (le_max_left a x) h1, ?_, ?_⟩
    · intro v hv
      rcases List.mem_cons.mp hv with rfl | hv
      · exact le_trans (le_max_right a v) h1
      · exact h2 v hv
    · rcases h3 with h3 | h3
      · rcases max_choice a x with hm | hm
        · left; rw [h3, hm]
        · right; rw [h3, hm]; exact List.mem_cons_self _ _
      · right; exact List.mem_cons_of_mem _ h3

theorem foldl_add_spec (l : List ℚ) : ∀ a : ℚ, l.foldl (fun a v => a + v) a = a + l.sum := by
  induction l with
  | nil => intro a; simp
  | cons x l ih =>
    intro a
    rw [List.foldl_cons, ih, List.sum_cons, add_assoc]

/-! ## The binning loop of output_init -/

theorem init_loop_upto_succ (env : libm) (no_grouping : Bool) (data_frequency : Nat → ℚ)
    (min_freq max_freq num_points data_length k : Nat) :
    init_loop_upto env no_grouping data_frequency min_freq max_freq num_points data_length
        (k + 1)
      = init_loop_step env no_grouping data_frequency min_freq max_freq num_points
          (init_loop_upto env no_grouping data_frequency min_freq max_freq num_points
            data_length k) k := by
  simp [init_loop_upto, List.range_succ, List.foldl_append]

theorem countP_range_le (p : Nat → Bool) (k : Nat) : (List.range k).countP p ≤ k := by
  have := List.countP_le_length p (l := List.range k)
  simpa using this

theorem init_inv_skip (no_grouping : Bool) (F : Nat → ℚ) (lo hi np n k : Nat)
    (s : init_loop_state) (hk : ¬ in_range F lo hi k)
    (h : init_inv no_grouping F lo hi np n k s) :
    init_inv no_grouping F lo hi np n (k + 1) s := by
  obtain ⟨ha, hb, hc0, hc1, hd⟩ := h
  have hnone : s.data_buffer_index_to_acc_buffer_index k = none := by
    have := (ha k).not.mpr (fun h1 => by omega)
    simpa using this
  refine ⟨?_, ?_, ?_, ?_, ?_⟩
  · intro i
    rw [ha i]
    constructor
    · rintro ⟨h1, h2⟩
      exact ⟨by omega, h2⟩
    · rintro ⟨h1, h2⟩
      refine ⟨?_, h2⟩
      rcases Nat.lt_succ_iff_lt_or_eq.mp h1 with h3 | h3
      · exact h3
      · subst h3; exact absurd h2 hk
  · intro c
    rw [hb c, List.range_succ, List.countP_append]
    simp [hnone]
  · intro hall
    exact hc0 (fun i hi => hall i (by omega))
  · rintro ⟨i, hi, hin⟩
    have hik : i < k := by
      rcases Nat.lt_succ_iff_lt_or_eq.mp hi with h3 | h3
      · exact h3
      · subst h3; exact absurd hin hk
    obtain ⟨g1, g2, g3, g4, g5, g6⟩ := hc1 ⟨i, hik, hin⟩
    refine ⟨by omega, g2, by omega, g4, ?_, g6⟩
    intro j hj hjin
    have hjk : j < k := by
      rcases Nat.lt_succ_iff_lt_or_eq.mp hj with h3 | h3
      · exact h3
      · subst h3; exact absurd hjin hk
    exact g5 j hjk hjin
  · intro hng
    rw [hd hng, List.range_succ, List.countP_append]
    simp [hk]

theorem init_inv_bin (no_grouping : Bool) (F : Nat → ℚ) (lo hi np n k t : Nat)
    (s : init_loop_state) (hkn : k < n) (hn : n < 4294967296) (hk : in_range F lo hi k)
    (h : init_inv no_grouping F lo hi np n k s) (ht : t < np)
    (htd : no_grouping = true → t = u32 (s.target_acc_index + 1)) :
    init_inv no_grouping F lo hi np n (k + 1)
      { target_acc_index := t
        min_data_index := c_min s.min_data_index k
        max_data_index := c_max s.max_data_index k
        data_buffer_index_to_acc_buffer_index :=
          Function.update s.data_buffer_index_to_acc_buffer_index k (some t)
        acc_buffer_data_count :=
          Function.update s.acc_buffer_data_count t (u32 (s.acc_buffer_data_count t + 1)) } := by
  obtain ⟨ha, hb, hc0, hc1, hd⟩ := h
  have hold : ∀ i, i < k →
      Function.update s.data_buffer_index_to_acc_buffer_index k (some t) i
        = s.data_buffer_index_to_acc_buffer_index i := by
    intro i hi
    rw [Function.update_noteq (by omega)]
  have hmin : c_min s.min_data_index k
      = if ∃ i, i < k ∧ in_range F lo hi i then s.min_data_index else k := by
    unfold c_min
    by_cases hex : ∃ i, i < k ∧ in_range F lo hi i
    · rw [if_pos hex, if_pos (hc1 hex).1]
    · rw [if_neg hex]
      have h0 := hc0 (fun i hi hin => hex ⟨i, hi, hin⟩)
      rw [if_neg (by omega)]
  have hmax : c_max s.max_data_index k = k := by
    unfold c_max
    by_cases hex : ∃ i, i < k ∧ in_range F lo hi i
    · rw [if_neg (by have := (hc1 hex).2.2.1; omega)]
    · have h0 := hc0 (fun i hi hin => hex ⟨i, hi, hin⟩)
      rw [if_neg (by omega)]
  refine ⟨?_, ?_, ?_, ?_, ?_⟩
  · intro i
    dsimp only
    by_cases hik : i = k
    · subst hik
      simp [hk]
    · rw [Function.update_noteq hik, ha i]
      constructor
      · rintro ⟨h1, h2⟩
        exact ⟨by omega, h2⟩
      · rintro ⟨h1, h2⟩
        exact ⟨by omega, h2⟩
  · intro c
    dsimp only
    rw [List.range_succ, List.countP_append]
    have hcongr : (List.range k).countP
          (fun i => decide
            (Function.update s.data_buffer_index_to_acc_buffer_index k (some t) i = some c))
        = (List.range k).countP
          (fun i => decide (s.data_buffer_index_to_acc_buffer_index i = some c)) := by
      apply List.countP_congr
      intro i hi
      rw [hold i (List.mem_range.mp hi)]
    rw [hcongr, ← hb c]
    have hcnt : s.acc_buffer_data_count t ≤ k := by
      rw [hb t]; exact countP_range_le _ _
    by_cases hc : c = t
    · subst hc
      simp only [Function.update_same, List.countP_cons, List.countP_nil, decide_True,
        if_true]
      unfold u32
      omega
    · rw [Function.update_noteq hc]
      have : ¬ (some t = some c) := fun h1 => hc (Option.some.inj h1).symm
      simp [this]
  · intro hall
    exact absurd hk (hall k (by omega))
  · intro _
    dsimp only
    rw [hmin, hmax]
    refine ⟨?_, ?_, by omega, hk, ?_, ht⟩
    · split_ifs with hex
      · have := (hc1 hex).1; omega
      · omega
    · split_ifs with hex
      · exact (hc1 hex).2.1
      · exact hk
    · intro j hj hjin
      by_cases hjk : j = k
      · subst hjk
        refine ⟨?_, le_refl _⟩
        split_ifs with hex
        · have := (hc1 hex).1; omega
        · exact le_refl _
      · have hjlt : j < k := by omega
        have hex : ∃ i, i < k ∧ in_range F lo hi i := ⟨j, hjlt, hjin⟩
        rw [if_pos hex]
        exact ⟨((hc1 hex).2.2.2.2.1 j hjlt hjin).1, by omega⟩
  · intro hng
    dsimp only
    rw [htd hng, hd hng, List.range_succ, List.countP_append]
    have hcnt := countP_range_le (fun i => decide (in_range F lo hi i)) k
    simp only [List.countP_cons, List.countP_nil, hk, decide_True, if_true]
    unfold u32
    omega

theorem init_loop_inv (env : libm) (no_grouping : Bool) (F : Nat → ℚ) (lo hi np n : Nat)
    (hn : n < 4294967296) (hnp : no_grouping = true → np = n)
    (hgrp : no_grouping = false → 1 ≤ np ∧ np ≤ 4294967296) :
    ∀ k, k ≤ n →
      init_inv no_grouping F lo hi np n k (init_loop_upto env no_grouping F lo hi np n k) := by
  intro k
  induction k with
  | zero =>
    intro _
    refine ⟨?_, ?_, ?_, ?_, ?_⟩
    · intro i; simp [init_loop_upto, init_loop_start]
    · intro c; simp [init_loop_upto, init_loop_start]
    · intro _; exact ⟨rfl, rfl, rfl⟩
    · rintro ⟨i, hi, _⟩; omega
    · intro _; simp [init_loop_upto, init_loop_start, u32]
  | succ k ih =>
    intro hk
    have h := ih (by omega)
    rw [init_loop_upto_succ]
    generalize init_loop_upto env no_grouping F lo hi np n k = s at h
    by_cases hin : in_range F lo hi k
    · have hcond : ¬ (F k < (lo : ℚ) ∨ F k > (hi : ℚ)) := hin
      simp only [init_loop_step, if_neg hcond]
      apply init_inv_bin no_grouping F lo hi np n k _ s (by omega) hn hin h
      · cases hng : no_grouping with
        | true =>
          rw [if_pos rfl]
          have hd := h.2.2.2.2 hng
          have hcnt := countP_range_le (fun i => decide (in_range F lo hi i)) k
          rw [hd, hnp hng]
          unfold u32
          omega
        | false =>
          rw [if_neg (by decide)]
          obtain ⟨g1, g2⟩ := hgrp hng
          have hb : u32 (np + 4294967295) < np := by unfold u32; omega
          exact lt_of_le_of_lt (by rw [c_min_eq_min]; exact min_le_right _ _) hb
      · intro hng
        rw [if_pos hng]
    · have hcond : F k < (lo : ℚ) ∨ F k > (hi : ℚ) := by
        unfold in_range at hin
        exact not_not.mp hin
      simp only [init_loop_step, if_pos hcond]
      exact init_inv_skip no_grouping F lo hi np n k s hin h

theorem countP_range_window (p : Nat → Bool) (n lo len : Nat) (hle : lo + len ≤ n)
    (hp : ∀ i, i < n → p i = true → lo ≤ i ∧ i < lo + len) :
    (List.range n).countP p = (List.range' lo len).countP p := by
  have hsplit : List.range n
      = List.range' 0 lo ++ (List.range' lo len ++ List.range' (lo + len) (n - (lo + len))) := by
    rw [List.range_eq_range', List.range'_append_1]
    have h0 := List.range'_append_1 0 lo (n - (lo + len) + len)
    rw [Nat.zero_add] at h0
    rw [h0]
    congr 1
    omega
  rw [hsplit, List.countP_append, List.countP_append]
  have h1 : (List.range' 0 lo).countP p = 0 := by
    rw [List.countP_eq_zero]
    intro i hi
    rw [List.mem_range'_1] at hi
    intro hpi
    have := hp i (by omega) hpi
    omega
  have h2 : (List.range' (lo + len) (n - (lo + len))).countP p = 0 := by
    rw [List.countP_eq_zero]
    intro i hi
    rw [List.mem_range'_1] at hi
    intro hpi
    have := hp i (by omega) hpi
    omega
  rw [h1, h2]
  omega

theorem output_init_binning (env : libm) (heap : malloc_contents) (data_length : Nat)
    (data_frequency : Nat → ℚ) (min_freq max_freq num_points : Nat) (abs_min abs_max : ℚ)
    (group group_func : Int) (transform_flags : Nat) (s : init_loop_state)
    (hs : s = init_loop_upto env (init_no_grouping group group_func)
      (init_data_frequency env group group_func data_length data_frequency)
      (init_min_freq env group group_func min_freq)
      (init_max_freq env group group_func max_freq)
      (init_num_points group group_func data_length num_points) data_length data_length) :
    (output_init env heap data_length data_frequency min_freq max_freq num_points
        abs_min abs_max group group_func transform_flags).data_buffer_index_to_acc_buffer_index
        = s.data_buffer_index_to_acc_buffer_index
      ∧ (output_init env heap data_length data_frequency min_freq max_freq num_points
        abs_min abs_max group group_func transform_flags).acc_buffer_data_count
        = s.acc_buffer_data_count
      ∧ (output_init env heap data_length data_frequency min_freq max_freq num_points
        abs_min abs_max group group_func transform_flags).min_data_index = s.min_data_index
      ∧ (output_init env heap data_length data_frequency min_freq max_freq num_points
        abs_min abs_max group group_func transform_flags).max_data_index = s.max_data_index
      ∧ (output_init env heap data_length data_frequency min_freq max_freq num_points
        abs_min abs_max group group_func transform_flags).num_points
        = u32 (s.target_acc_index + 1)
      ∧ (output_init env heap data_length data_frequency min_freq max_freq num_points
        abs_min abs_max group group_func transform_flags).acc_buffer_avg_factor
        = (fun i =>
            if i < init_num_points group group_func data_length num_points then
              (if s.acc_buffer_data_count i > 0 then 1 / (s.acc_buffer_data_count i : ℚ)
                else 0)
            else 0)
      ∧ (output_init env heap data_length data_frequency min_freq max_freq num_points
        abs_min abs_max group group_func transform_flags).group_func = group_func := by
  subst hs
  exact ⟨rfl, rfl, rfl, rfl, rfl, rfl, rfl⟩

/-- The context `output_init` builds has consistent binning tables, for a frequency axis
(as compared by the loop, after the logarithm when grouping is logarithmic) that is
ascending, at least one input index, and at least one requested column when grouping. -/
theorem output_init_bins_ok (env : libm) (heap : malloc_contents) (data_length : Nat)
    (data_frequency : Nat → ℚ) (min_freq max_freq num_points : Nat) (abs_min abs_max : ℚ)
    (group group_func : Int) (transform_flags : Nat)
    (hn1 : 1 ≤ data_length) (hn : data_length < 4294967296)
    (hnp : num_points < 4294967296)
    (hgrp : init_no_grouping group group_func = false → 1 ≤ num_points)
    (hsorted : ∀ j, j < data_length → ∀ i, i < j →
      init_data_frequency env group group_func data_length data_frequency i
        ≤ init_data_frequency env group group_func data_length data_frequency j) :
    bins_ok (output_init env heap data_length data_frequency min_freq max_freq num_points
      abs_min abs_max group group_func transform_flags) := by
  have hinv := init_loop_inv env (init_no_grouping group group_func)
    (init_data_frequency env group group_func data_length data_frequency)
    (init_min_freq env group group_func min_freq)
    (init_max_freq env group group_func max_freq)
    (init_num_points group group_func data_length num_points) data_length hn
    (by intro h; simp [init_num_points, h])
    (by intro h
        have := hgrp h
        simp only [init_num_points, h]
        exact ⟨this, by simp; omega⟩)
    data_length (le_refl _)
  obtain ⟨e1, e2, e3, e4, e5, e6, _⟩ := output_init_binning env heap data_length
    data_frequency min_freq max_freq num_points abs_min abs_max group group_func
    transform_flags _ rfl
  generalize init_data_frequency env group group_func data_length data_frequency = F
    at hinv hsorted e1 e2 e3 e4 e5 e6
  generalize init_min_freq env group group_func min_freq = lo at hinv e1 e2 e3 e4 e5 e6
  generalize init_max_freq env group group_func max_freq = hi at hinv e1 e2 e3 e4 e5 e6
  generalize init_num_points group group_func data_length num_points = np1
    at hinv e1 e2 e3 e4 e5 e6
  generalize init_loop_upto env (init_no_grouping group group_func) F lo hi np1 data_length
    data_length = s at hinv e1 e2 e3 e4 e5 e6
  obtain ⟨ha, hb, hc0, hc1, _⟩ := hinv
  unfold bins_ok
  rw [e1, e2, e3, e4, e5, e6]
  by_cases hex : ∃ i, i < data_length ∧ in_range F lo hi i
  · obtain ⟨g1, g2, g3, g4, g5, g6⟩ := hc1 hex
    have hmm : s.min_data_index ≤ s.max_data_index := (g5 _ g1 g2).2
    have hle : ∀ i j, i ≤ j → j < data_length → F i ≤ F j := by
      intro i j hij hj
      rcases Nat.eq_or_lt_of_le hij with h | h
      · rw [h]
      · exact hsorted j hj i h
    refine ⟨?_, ?_, ?_⟩
    · intro i h1 h2
      have hin : in_range F lo hi i := by
        unfold in_range at g2 g4 ⊢
        push_neg at g2 g4 ⊢
        exact ⟨le_trans g2.1 (hle _ _ h1 (by omega)), le_trans (hle _ _ h2 g3) g4.2⟩
      have := (ha i).mpr ⟨by omega, hin⟩
      exact Option.isSome_iff_exists.mp this
    · intro c
      rw [hb c, ← List.countP_eq_length_filter]
      unfold index_range
      apply countP_range_window _ _ _ _ (by omega)
      intro i hi hpi
      have hsome : (s.data_buffer_index_to_acc_buffer_index i).isSome := by
        rw [decide_eq_true_eq] at hpi
        rw [hpi]; rfl
      have := g5 i hi ((ha i).mp hsome).2
      omega
    · intro c hc
      have hc1 : c < np1 := by
        unfold u32 at hc
        omega
      simp only [if_pos hc1]
  · have hall : ∀ i, i < data_length → ¬ in_range F lo hi i :=
      fun i hi hin => hex ⟨i, hi, hin⟩
    obtain ⟨g1, g2, g3⟩ := hc0 hall
    have hnone : ∀ i c, s.data_buffer_index_to_acc_buffer_index i ≠ some c := by
      intro i c hic
      have hsome : (s.data_buffer_index_to_acc_buffer_index i).isSome := by rw [hic]; rfl
      have := (ha i).mp hsome
      exact hall i this.1 this.2
    refine ⟨?_, ?_, ?_⟩
    · intro i h1 h2
      omega
    · intro c
      rw [hb c, g1, g2]
      have hr : index_range data_length 0 = [] := by
        unfold index_range
        rw [show 0 + 1 - data_length = 0 by omega]
        rfl
      rw [hr, List.countP_eq_zero.mpr]
      · rfl
      · intro i _
        simp [hnone i c]
    · intro c hc
      rw [g3] at hc
      unfold u32 at hc
      omega

theorem grouped_ctx_bins_ok (group_func : Int) : bins_ok (grouped_ctx group_func) := by
  refine output_init_bins_ok _ _ _ _ _ _ _ _ _ _ _ _ (by decide) (by decide) (by decide)
    (fun _ => by decide) ?_
  intro j hj i hi
  have hF : init_data_frequency example_env OUTPUT_LINEAL_GROUPING group_func 5
      (array_of [0, 1, 2, 3, 4]) = array_of [0, 1, 2, 3, 4] := by
    have hg : init_group OUTPUT_LINEAL_GROUPING group_func ≠ OUTPUT_LOGARITMIC_GROUPING := by
      unfold init_group
      split_ifs <;> decide
    unfold init_data_frequency
    rw [if_neg hg]
  rw [hF]
  interval_cases j <;> interval_cases i <;> norm_num [array_of]

/-! ## C9 -/

/-- C9 fails as stated. With the Max reducer, the column 0 of the example context receives
the contributions -3 and -1, and the value accumulated for it is 0, which is above every
contribution: the accumulation starts from the cleared buffer. -/
theorem max_reducer_negative :
    contributions (grouped_ctx OUTPUT_MAX_GROUPING_FUNC) (array_of [-3, -1, -2, -5, -4]) 0
        = [-3, -1]
      ∧ (print_acc (grouped_ctx OUTPUT_MAX_GROUPING_FUNC)
          (array_of [-3, -1, -2, -5, -4])).map (fun acc => acc 0) = some 0
      ∧ ∀ v, v ∈ ([-3, -1] : List ℚ) → v < 0 := by
  refine ⟨by decide!, by decide!, ?_⟩
  intro v hv
  simp only [List.mem_cons, List.mem_singleton, List.not_mem_nil, or_false] at hv
  rcases hv with rfl | rfl <;> norm_num

/-- C9, amended. With the Max reducer and consistent binning tables, the accumulation stage
of `output_print` produces its buffer, and for every column below `num_points` the value
accumulated is the maximum of 0 and the contributions `v1..vk` of the column: it is
non-negative, at least every contribution, and either 0 or one of the contributions. When
some contribution is non-negative (as for magnitudes), it is the maximum of `v1..vk`. -/
theorem max_reducer_spec (out_ctx : output_context) (values : Nat → ℚ)
    (hbins : bins_ok out_ctx) (hfunc : out_ctx.group_func = OUTPUT_MAX_GROUPING_FUNC) :
    ∃ acc, print_acc out_ctx values = some acc
      ∧ ∀ c, c < out_ctx.num_points →
          acc c = (contributions out_ctx values c).foldl max 0
          ∧ 0 ≤ acc c
          ∧ (∀ v, v ∈ contributions out_ctx values c → v ≤ acc c)
          ∧ (acc c = 0 ∨ acc c ∈ contributions out_ctx values c)
          ∧ ((∃ v, v ∈ contributions out_ctx values c ∧ 0 ≤ v) →
              acc c ∈ contributions out_ctx values c) := by
  refine ⟨_, by rw [print_acc, if_pos hfunc, acc_loop_spec out_ctx values c_max hbins.1], ?_⟩
  intro c hc
  have h0 : acc_clear out_ctx c = 0 := by
    unfold acc_clear
    rw [if_pos hc]
  obtain ⟨h1, h2, h3⟩ := foldl_c_max_spec (contributions out_ctx values c) 0
  have hmax : (c_max : ℚ → ℚ → ℚ) = max := by
    funext a b
    exact c_max_eq_max a b
  rw [h0]
  refine ⟨by rw [hmax], h1, h2, h3, ?_⟩
  rintro ⟨v, hv, hv0⟩
  rcases h3 with h3 | h3
  · have hle := h2 v hv
    rw [h3] at hle ⊢
    have : v = 0 := le_antisymm hle hv0
    rw [← this]
    exact hv
  · exact h3

/-- C9, amended, on the example context with the magnitudes 3, 1, 2, 5, 4: the column 0
accumulates 3 and the column 1 accumulates 5. -/
theorem max_reducer_spec_witness :
    (∃ acc, print_acc (grouped_ctx OUTPUT_MAX_GROUPING_FUNC) (array_of [3, 1, 2, 5, 4])
        = some acc
      ∧ ∀ c, c < (grouped_ctx OUTPUT_MAX_GROUPING_FUNC).num_points →
          acc c = (contributions (grouped_ctx OUTPUT_MAX_GROUPING_FUNC)
            (array_of [3, 1, 2, 5, 4]) c).foldl max 0
          ∧ 0 ≤ acc c
          ∧ (∀ v, v ∈ contributions (grouped_ctx OUTPUT_MAX_GROUPING_FUNC)
              (array_of [3, 1, 2, 5, 4]) c → v ≤ acc c)
          ∧ (acc c = 0 ∨ acc c ∈ contributions (grouped_ctx OUTPUT_MAX_GROUPING_FUNC)
              (array_of [3, 1, 2, 5, 4]) c)
          ∧ ((∃ v, v ∈ contributions (grouped_ctx OUTPUT_MAX_GROUPING_FUNC)
                (array_of [3, 1, 2, 5, 4]) c ∧ 0 ≤ v) →
              acc c ∈ contributions (grouped_ctx OUTPUT_MAX_GROUPING_FUNC)
                (array_of [3, 1, 2, 5, 4]) c))
    ∧ (print_acc (grouped_ctx OUTPUT_MAX_GROUPING_FUNC)
        (array_of [3, 1, 2, 5, 4])).map (fun acc => (acc 0, acc 1)) = some (3, 5) :=
  ⟨max_reducer_spec (grouped_ctx OUTPUT_MAX_GROUPING_FUNC) (array_of [3, 1, 2, 5, 4])
      (grouped_ctx_bins_ok OUTPUT_MAX_GROUPING_FUNC) rfl,
    by decide!⟩

/-! ## C10 -/

/-- C10. With the Average reducer and consistent binning tables (those `output_init`
builds), the accumulation stage of `output_print` produces its buffer, and for every column
below `num_points`: the count `output_init` recorded for the column is the number `k` of
its contributions `v1..vk`, and the value accumulated is `(v1 + ... + vk) / k` when `k >= 1`
and 0 when the column has no contribution. -/
theorem average_reducer_spec (out_ctx : output_context) (values : Nat → ℚ)
    (hbins : bins_ok out_ctx) (hfunc : out_ctx.group_func = OUTPUT_AVG_GROUPING_FUNC) :
    ∃ acc, print_acc out_ctx values = some acc
      ∧ ∀ c, c < out_ctx.num_points →
          out_ctx.acc_buffer_data_count c = (contributions out_ctx values c).length
          ∧ acc c = (if contributions out_ctx values c = [] then 0
              else (contributions out_ctx values c).sum
                / ((contributions out_ctx values c).length : ℚ)) := by
  have hne : ¬ (out_ctx.group_func = OUTPUT_MAX_GROUPING_FUNC) := by
    rw [hfunc]; decide
  refine ⟨_, by rw [print_acc, if_neg hne, if_pos hfunc,
    acc_loop_spec out_ctx values _ hbins.1]; rfl, ?_⟩
  intro c hc
  have h0 : acc_clear out_ctx c = 0 := by
    unfold acc_clear
    rw [if_pos hc]
  have hcount : out_ctx.acc_buffer_data_count c = (contributions out_ctx values c).length := by
    rw [hbins.2.1 c]
    simp [contributions]
  refine ⟨hcount, ?_⟩
  beta_reduce
  rw [if_pos hc, foldl_add_spec, h0, zero_add, hbins.2.2 c hc, hcount]
  by_cases hnil : contributions out_ctx values c = []
  · rw [if_pos hnil, hnil]
    simp
  · rw [if_neg hnil, if_pos (List.length_pos.mpr hnil), mul_one_div]

/-- C10 on the example context with the magnitudes 1, 2, 3, 4, 5: the column 0 holds
`(1 + 2) / 2` and the column 1 holds `(3 + 4 + 5) / 3`. -/
theorem average_reducer_spec_witness :
    (∃ acc, print_acc (grouped_ctx OUTPUT_AVG_GROUPING_FUNC) (array_of [1, 2, 3, 4, 5])
        = some acc
      ∧ ∀ c, c < (grouped_ctx OUTPUT_AVG_GROUPING_FUNC).num_points →
          (grouped_ctx OUTPUT_AVG_GROUPING_FUNC).acc_buffer_data_count c
            = (contributions (grouped_ctx OUTPUT_AVG_GROUPING_FUNC)
                (array_of [1, 2, 3, 4, 5]) c).length
          ∧ acc c = (if contributions (grouped_ctx OUTPUT_AVG_GROUPING_FUNC)
                (array_of [1, 2, 3, 4, 5]) c = [] then 0
              else (contributions (grouped_ctx OUTPUT_AVG_GROUPING_FUNC)
                  (array_of [1, 2, 3, 4, 5]) c).sum
                / ((contributions (grouped_ctx OUTPUT_AVG_GROUPING_FUNC)
                  (array_of [1, 2, 3, 4, 5]) c).length : ℚ)))
    ∧ (print_acc (grouped_ctx OUTPUT_AVG_GROUPING_FUNC)
        (array_of [1, 2, 3, 4, 5])).map (fun acc => (acc 0, acc 1)) = some (3 / 2, 4)
    ∧ (grouped_ctx OUTPUT_AVG_GROUPING_FUNC).num_points = 2 :=
  ⟨average_reducer_spec (grouped_ctx OUTPUT_AVG_GROUPING_FUNC) (array_of [1, 2, 3, 4, 5])
      (grouped_ctx_bins_ok OUTPUT_AVG_GROUPING_FUNC) rfl,
    by decide!, by decide!⟩

/-! ## C2 -/

theorem double_to_uint_of_floor (env : libm) (x : ℚ) (m : Nat) (hm : m ≤ 4294967295)
    (h1 : (m : ℚ) ≤ x) (h2 : x < (m : ℚ) + 1) : double_to_uint env x = m := by
  have hx0 : 0 ≤ x := le_trans (Nat.cast_nonneg m) h1
  have hfl : ⌊x⌋ = (m : Int) := by
    rw [Int.floor_eq_iff]
    exact ⟨by exact_mod_cast h1, by exact_mod_cast h2⟩
  unfold double_to_uint trunc
  rw [if_pos hx0, hfl, if_pos ⟨by omega, by omega⟩]
  simp

/-- C2 at a failing input, with logarithmic grouping. For any `log` that brackets the
values at 150, 200, 1500 and 2000 as the natural logarithm does, `output_init` on the
frequencies 150 and 1500 with `min_freq = 200` and `max_freq = 2000` stores the logarithms
of the bounds into the `unsigned int` parameters, which truncates them to 5 and 7; the
index 0 (150 Hz, below `min_freq`) is given a column and the index 1 (1500 Hz, inside the
range) is given none. -/
theorem log_grouping_range_truncated (env : libm) (heap : malloc_contents)
    (h150 : 5 ≤ env.log 150 ∧ env.log 150 < 6) (h200 : 5 ≤ env.log 200 ∧ env.log 200 < 6)
    (h1500 : 7 < env.log 1500) (h2000 : 7 ≤ env.log 2000 ∧ env.log 2000 < 8) :
    init_min_freq env OUTPUT_LOGARITMIC_GROUPING OUTPUT_MAX_GROUPING_FUNC 200 = 5
      ∧ init_max_freq env OUTPUT_LOGARITMIC_GROUPING OUTPUT_MAX_GROUPING_FUNC 2000 = 7
      ∧ ((output_init env heap 2 (array_of [150, 1500]) 200 2000 4 0 8
            OUTPUT_LOGARITMIC_GROUPING OUTPUT_MAX_GROUPING_FUNC
            OUTPUT_NO_TRANSFORM).data_buffer_index_to_acc_buffer_index 0).isSome = true
      ∧ (output_init env heap 2 (array_of [150, 1500]) 200 2000 4 0 8
            OUTPUT_LOGARITMIC_GROUPING OUTPUT_MAX_GROUPING_FUNC
            OUTPUT_NO_TRANSFORM).data_buffer_index_to_acc_buffer_index 1 = none := by
  have hg : init_group OUTPUT_LOGARITMIC_GROUPING OUTPUT_MAX_GROUPING_FUNC
      = OUTPUT_LOGARITMIC_GROUPING := by decide
  have hmin : init_min_freq env OUTPUT_LOGARITMIC_GROUPING OUTPUT_MAX_GROUPING_FUNC 200
      = 5 := by
    unfold init_min_freq
    rw [if_pos hg]
    apply double_to_uint_of_floor _ _ 5 (by decide)
    · push_cast; exact h200.1
    · push_cast; norm_num; exact h200.2
  have hmax : init_max_freq env OUTPUT_LOGARITMIC_GROUPING OUTPUT_MAX_GROUPING_FUNC 2000
      = 7 := by
    unfold init_max_freq
    rw [if_pos hg]
    apply double_to_uint_of_floor _ _ 7 (by decide)
    · push_cast; exact h2000.1
    · push_cast; norm_num; exact h2000.2
  have hF0 : init_data_frequency env OUTPUT_LOGARITMIC_GROUPING OUTPUT_MAX_GROUPING_FUNC 2
      (array_of [150, 1500]) 0 = env.log 150 := by
    unfold init_data_frequency
    rw [if_pos hg]
    simp [array_of]
  have hF1 : init_data_frequency env OUTPUT_LOGARITMIC_GROUPING OUTPUT_MAX_GROUPING_FUNC 2
      (array_of [150, 1500]) 1 = env.log 1500 := by
    unfold init_data_frequency
    rw [if_pos hg]
    simp [array_of]
  have hin0 : in_range (init_data_frequency env OUTPUT_LOGARITMIC_GROUPING
      OUTPUT_MAX_GROUPING_FUNC 2 (array_of [150, 1500])) 5 7 0 := by
    unfold in_range
    rw [hF0]
    push_neg
    exact ⟨by push_cast; exact h150.1, by push_cast; linarith [h150.2]⟩
  have hin1 : ¬ in_range (init_data_frequency env OUTPUT_LOGARITMIC_GROUPING
      OUTPUT_MAX_GROUPING_FUNC 2 (array_of [150, 1500])) 5 7 1 := by
    unfold in_range
    rw [hF1]
    push_neg
    right
    push_cast
    exact h1500
  have hinv := init_loop_inv env
    (init_no_grouping OUTPUT_LOGARITMIC_GROUPING OUTPUT_MAX_GROUPING_FUNC)
    (init_data_frequency env OUTPUT_LOGARITMIC_GROUPING OUTPUT_MAX_GROUPING_FUNC 2
      (array_of [150, 1500])) 5 7
    (init_num_points OUTPUT_LOGARITMIC_GROUPING OUTPUT_MAX_GROUPING_FUNC 2 4) 2 (by decide)
    (by decide) (by decide) 2 (le_refl _)
  obtain ⟨e1, _⟩ := output_init_binning env heap 2 (array_of [150, 1500]) 200 2000 4 0 8
    OUTPUT_LOGARITMIC_GROUPING OUTPUT_MAX_GROUPING_FUNC OUTPUT_NO_TRANSFORM _ rfl
  rw [hmin, hmax] at e1
  refine ⟨hmin, hmax, ?_, ?_⟩
  · rw [e1]
    exact (hinv.1 0).mpr ⟨by decide, hin0⟩
  · rw [e1]
    have := (hinv.1 1).not.mpr (fun h => hin1 h.2)
    simpa using this

/-- The failing input of C2 with the logarithms rounded to two decimals. -/
theorem log_grouping_range_truncated_witness :
    init_min_freq log_env OUTPUT_LOGARITMIC_GROUPING OUTPUT_MAX_GROUPING_FUNC 200 = 5
      ∧ init_max_freq log_env OUTPUT_LOGARITMIC_GROUPING OUTPUT_MAX_GROUPING_FUNC 2000 = 7
      ∧ ((output_init log_env example_heap 2 (array_of [150, 1500]) 200 2000 4 0 8
            OUTPUT_LOGARITMIC_GROUPING OUTPUT_MAX_GROUPING_FUNC
            OUTPUT_NO_TRANSFORM).data_buffer_index_to_acc_buffer_index 0).isSome = true
      ∧ (output_init log_env example_heap 2 (array_of [150, 1500]) 200 2000 4 0 8
            OUTPUT_LOGARITMIC_GROUPING OUTPUT_MAX_GROUPING_FUNC
            OUTPUT_NO_TRANSFORM).data_buffer_index_to_acc_buffer_index 1 = none :=
  log_grouping_range_truncated log_env example_heap (by decide!) (by decide!) (by decide!)
    (by decide!)

/-! ## C20 -/

/-- C20. For a context whose glyph table, level count and points per character are those
`output_set_charset` sets for a charset (bars, braille or wide braille), the alphabet index
`output_print` computes for a group is below the number of glyphs of the table (9 for bars,
25 for both braille variants), and the table lookup yields a glyph, not the terminator. -/
theorem symbol_index_in_table (env : libm) (base out_ctx : output_context) (charset : Int)
    (smooth_buffer : Nat → ℚ) (min max : ℚ) (i : Nat)
    (hs : out_ctx.visualization_str
      = (output_set_charset env base charset).visualization_str)
    (hl : out_ctx.visualization_levels
      = (output_set_charset env base charset).visualization_levels)
    (hp : out_ctx.visualization_points_per_char
      = (output_set_charset env base charset).visualization_points_per_char) :
    print_symbol_index env out_ctx smooth_buffer min max i
        < out_ctx.visualization_str.length - 1
      ∧ out_ctx.visualization_str.length - 1
          = (if charset = OUTPUT_CHARSET_BRAILLE ∨ charset = OUTPUT_CHARSET_BRAILLE_WIDE
              then 25 else 9)
      ∧ ∃ symbol,
          out_ctx.visualization_str[print_symbol_index env out_ctx smooth_buffer min max i]?
            = some symbol ∧ symbol ≠ 0 := by
  have hok0 := output_set_charset_ok env base charset
  have hok : charset_ok out_ctx := by
    unfold charset_ok at hok0 ⊢
    rw [hs, hl, hp]
    exact hok0
  have hlt := print_symbol_index_lt env out_ctx smooth_buffer min max i hok
  have hlen : out_ctx.visualization_str.length - 1
      = (if charset = OUTPUT_CHARSET_BRAILLE ∨ charset = OUTPUT_CHARSET_BRAILLE_WIDE
          then 25 else 9) := by
    rw [hs]
    unfold output_set_charset
    by_cases h1 : charset = OUTPUT_CHARSET_BRAILLE ∨ charset = OUTPUT_CHARSET_BRAILLE_WIDE
    · rw [if_pos h1, if_pos h1]; rfl
    · rw [if_neg h1, if_neg h1]; rfl
  have hpow : out_ctx.visualization_levels ^ out_ctx.visualization_points_per_char
      ≤ out_ctx.visualization_str.length - 1 := by
    rw [hlen, hl, hp]
    unfold output_set_charset
    by_cases h1 : charset = OUTPUT_CHARSET_BRAILLE ∨ charset = OUTPUT_CHARSET_BRAILLE_WIDE
    · rw [if_pos h1, if_pos h1]
      by_cases h2 : charset = OUTPUT_CHARSET_BRAILLE_WIDE
      · show braille_levels ^ (if charset = OUTPUT_CHARSET_BRAILLE_WIDE then 1
            else braille_points_per_char) ≤ 25
        rw [if_pos h2]; decide
      · show braille_levels ^ (if charset = OUTPUT_CHARSET_BRAILLE_WIDE then 1
            else braille_points_per_char) ≤ 25
        rw [if_neg h2]; decide
    · rw [if_neg h1, if_neg h1]
      show bars_levels ^ bars_points_per_char ≤ 9
      decide
  exact ⟨lt_of_lt_of_le hlt hpow, hlen, hok.2.2.2.2 _ hlt⟩

/-- C20 on the scenario context with the braille charset and a sigmoid factor of 1, for
the group that starts at column 4. -/
theorem symbol_index_in_table_witness :
    print_symbol_index sigmoid_env braille_sigmoid_ctx (array_of [0, 2, 4, 6, 8]) 0 8 4
        < braille_sigmoid_ctx.visualization_str.length - 1
      ∧ braille_sigmoid_ctx.visualization_str.length - 1
          = (if OUTPUT_CHARSET_BRAILLE = OUTPUT_CHARSET_BRAILLE
                ∨ OUTPUT_CHARSET_BRAILLE = OUTPUT_CHARSET_BRAILLE_WIDE
              then 25 else 9)
      ∧ ∃ symbol,
          braille_sigmoid_ctx.visualization_str[print_symbol_index sigmoid_env
            braille_sigmoid_ctx (array_of [0, 2, 4, 6, 8]) 0 8 4]?
            = some symbol ∧ symbol ≠ 0 :=
  symbol_index_in_table sigmoid_env scenario_ctx braille_sigmoid_ctx OUTPUT_CHARSET_BRAILLE
    (array_of [0, 2, 4, 6, 8]) 0 8 4 rfl rfl rfl

/-! ## C12 -/

/-- C12 at the scenario. The context has five columns of one character each and the
alphabet indices computed for the five groups are 0, 2, 4, 6 and 8, as the scenario
expects, but the line `output_print` returns holds four glyphs only, the entries 0, 2, 4
and 6 of the bar table: the terminator is stored over the glyph of the last group. -/
theorem scenario_line :
    scenario_ctx.num_points = 5
      ∧ scenario_ctx.visualization_points_per_char = 1
      ∧ (List.range 5).map
          (fun g => print_symbol_index example_env scenario_ctx (array_of [0, 2, 4, 6, 8])
            0 8 g) = [0, 2, 4, 6, 8]
      ∧ (output_print example_env scenario_ctx (array_of [0, 2, 4, 6, 8])).map
          (fun r => output_line r.1)
          = some [bars_str.getD 0 0, bars_str.getD 2 0, bars_str.getD 4 0, bars_str.getD 6 0]
      ∧ (output_print example_env scenario_ctx (array_of [0, 2, 4, 6, 8])).map
          (fun r => (List.range 6).map r.1.wchar_buffer)
          = some [0x20, 0x2582, 0x2584, 0x2586, 0, 63] := by
  refine ⟨by decide, by decide, by decide!, by decide!, by decide!⟩

/-! ## C16 -/

theorem symbol_fold_eq (levels : Nat) (d : Nat → Int) (h1 : 1 ≤ levels)
    (hd : ∀ c, 0 ≤ d c ∧ d c ≤ (levels : Int) - 1) :
    ∀ n, levels ^ n ≤ 4294967296 →
      (List.range n).foldl
        (fun current_symbol_index current_point =>
          u32 (u32 (current_symbol_index * levels) + int_to_u32 (d current_point))) 0
        = Nat.ofDigits levels (((List.range n).map fun c => int_to_u32 (d c)).reverse) := by
  intro n
  induction n with
  | zero => intro _; simp
  | succ n ih =>
    intro hpow
    have hle : levels ^ n ≤ levels ^ (n + 1) := Nat.pow_le_pow_right h1 (Nat.le_succ n)
    have ih1 := ih (le_trans hle hpow)
    have hlt := symbol_fold_lt levels d h1 hd n (le_trans hle hpow)
    rw [List.range_succ, List.foldl_append, List.map_append, List.reverse_append]
    simp only [List.foldl_cons, List.foldl_nil, List.map_cons, List.map_nil,
      List.reverse_cons, List.reverse_nil, List.nil_append, List.singleton_append,
      Nat.ofDigits_cons]
    rw [← ih1]
    generalize (List.range n).foldl
        (fun current_symbol_index current_point =>
          u32 (u32 (current_symbol_index * levels) + int_to_u32 (d current_point))) 0 = c
      at hlt
    have hdn := hd n
    have hmul : (c + 1) * levels ≤ levels ^ n * levels := Nat.mul_le_mul_right _ hlt
    rw [Nat.pow_succ] at hpow
    have hexp : (c + 1) * levels = c * levels + levels := by ring
    have hcomm : levels * c = c * levels := Nat.mul_comm _ _
    unfold u32 int_to_u32
    omega

theorem quantize_zero (env : libm) (out_ctx : output_context)
    (h1 : 1 ≤ out_ctx.visualization_levels) (h2 : out_ctx.visualization_levels ≤ 2147483648)
    (hs : out_ctx.sigmoid_scaling_factor ≤ 0) : quantize env out_ctx 0 = 0 := by
  unfold quantize
  rw [if_neg (not_lt.mpr hs)]
  have h0 : double_to_int env ((0 * out_ctx.lineal_scaling_factor)
      * (out_ctx.visualization_levels : ℚ)) = 0 := by
    rw [zero_mul, zero_mul]
    unfold double_to_int trunc
    simp
  simp only [h0]
  unfold c_min_int_uint c_max u32_to_int int_to_u32 u32
  split_ifs <;> omega

/-- C16 fails as stated. On the scenario context with the braille charset (five columns,
two per character) and a sigmoid factor of 1, the last group holds the column 4 and one
missing sub-column. The level 0 of the missing sub-column goes through the sigmoid and is
quantized to the digit 1, so the alphabet index of the group is `3 * 5 + 1 = 16`, not the
`3 * 5 + 0 = 15` of a padding digit 0. -/
theorem padded_digit_nonzero :
    braille_sigmoid_ctx.num_points = 5
      ∧ braille_sigmoid_ctx.visualization_points_per_char = 2
      ∧ braille_sigmoid_ctx.visualization_levels = 5
      ∧ column_level sigmoid_env braille_sigmoid_ctx (array_of [0, 2, 4, 6, 8]) 0 8 4 = 3
      ∧ print_f_ranged sigmoid_env braille_sigmoid_ctx (array_of [0, 2, 4, 6, 8]) 0 8 4 1 = 1
      ∧ print_symbol_index sigmoid_env braille_sigmoid_ctx (array_of [0, 2, 4, 6, 8]) 0 8 4
          = 16 := by
  refine ⟨by decide, by decide, by decide, by decide!, by decide!, by decide!⟩

/-- C16, amended. For a context with a glyph table set by `output_set_charset`, and a group
`g` of the line, the alphabet index `output_print` selects is the number written in base
`levels` with the digits of the sub-columns of the group, first sub-column most
significant; each digit is below `levels`; the digit of a sub-column that is a column below
`num_points` is the quantized level of that column, and the digit of a sub-column at or
past `num_points` is the quantized level of the level 0, which is 0 when the sigmoid factor
is not positive. -/
theorem symbol_index_digits (env : libm) (out_ctx : output_context) (smooth_buffer : Nat → ℚ)
    (min max : ℚ) (g : Nat) (hok : charset_ok out_ctx) (hg : g < num_groups out_ctx)
    (hsz : out_ctx.num_points + out_ctx.visualization_points_per_char ≤ 4294967296) :
    print_symbol_index env out_ctx smooth_buffer min max
        (g * out_ctx.visualization_points_per_char)
        = Nat.ofDigits out_ctx.visualization_levels
            (group_digits env out_ctx smooth_buffer min max g).reverse
      ∧ (∀ d, d ∈ group_digits env out_ctx smooth_buffer min max g →
          d < out_ctx.visualization_levels)
      ∧ (∀ current_point, current_point < out_ctx.visualization_points_per_char →
          print_f_ranged env out_ctx smooth_buffer min max
              (g * out_ctx.visualization_points_per_char) current_point
            = if g * out_ctx.visualization_points_per_char + current_point
                  < out_ctx.num_points then
                column_level env out_ctx smooth_buffer min max
                  (g * out_ctx.visualization_points_per_char + current_point)
              else quantize env out_ctx 0)
      ∧ (out_ctx.sigmoid_scaling_factor ≤ 0 → quantize env out_ctx 0 = 0) := by
  obtain ⟨hp, h1, h2, hpow, _⟩ := hok
  have hgl := (lt_num_groups_iff out_ctx hp g).mp hg
  refine ⟨?_, ?_, ?_, quantize_zero env out_ctx h1 h2⟩
  · exact symbol_fold_eq out_ctx.visualization_levels
      (fun c => print_f_ranged env out_ctx smooth_buffer min max
        (g * out_ctx.visualization_points_per_char) c) h1
      (fun c => print_f_ranged_bounds env out_ctx smooth_buffer min max _ c h1 h2) _ hpow
  · intro d hd
    unfold group_digits at hd
    rw [List.mem_map] at hd
    obtain ⟨c, _, rfl⟩ := hd
    have hb := print_f_ranged_bounds env out_ctx smooth_buffer min max
      (g * out_ctx.visualization_points_per_char) c h1 h2
    unfold int_to_u32
    omega
  · intro current_point hcp
    have hu : u32 (g * out_ctx.visualization_points_per_char + current_point)
        = g * out_ctx.visualization_points_per_char + current_point := by
      unfold u32; omega
    unfold print_f_ranged print_level column_level
    rw [hu]
    split_ifs <;> rfl

/-- C16, amended, on the scenario context with the braille charset and a sigmoid factor of
1, for the last group (column 4 and one missing sub-column). -/
theorem symbol_index_digits_witness :
    print_symbol_index sigmoid_env braille_sigmoid_ctx (array_of [0, 2, 4, 6, 8]) 0 8
        (2 * braille_sigmoid_ctx.visualization_points_per_char)
        = Nat.ofDigits braille_sigmoid_ctx.visualization_levels
            (group_digits sigmoid_env braille_sigmoid_ctx (array_of [0, 2, 4, 6, 8]) 0 8
              2).reverse
      ∧ (∀ d, d ∈ group_digits sigmoid_env braille_sigmoid_ctx (array_of [0, 2, 4, 6, 8])
            0 8 2 → d < braille_sigmoid_ctx.visualization_levels)
      ∧ (∀ current_point, current_point < braille_sigmoid_ctx.visualization_points_per_char →
          print_f_ranged sigmoid_env braille_sigmoid_ctx (array_of [0, 2, 4, 6, 8]) 0 8
              (2 * braille_sigmoid_ctx.visualization_points_per_char) current_point
            = if 2 * braille_sigmoid_ctx.visualization_points_per_char + current_point
                  < braille_sigmoid_ctx.num_points then
                column_level sigmoid_env braille_sigmoid_ctx (array_of [0, 2, 4, 6, 8]) 0 8
                  (2 * braille_sigmoid_ctx.visualization_points_per_char + current_point)
              else quantize sigmoid_env braille_sigmoid_ctx 0)
      ∧ (braille_sigmoid_ctx.sigmoid_scaling_factor ≤ 0 →
          quantize sigmoid_env braille_sigmoid_ctx 0 = 0) :=
  symbol_index_digits sigmoid_env braille_sigmoid_ctx (array_of [0, 2, 4, 6, 8]) 0 8 2
    (charset_ok_braille braille_sigmoid_ctx rfl rfl (Or.inl rfl)) (by decide) (by decide)

/-! ## C17 -/

theorem u32_target_succ (c : Nat) (hc : c < 4294967296) :
    u32 (u32 (c + 4294967295) + 1) = c := by
  unfold u32
  omega

/-- Without grouping, the column of an index that passes the range test is the number of
indices before it that pass the test. -/
theorem init_map_no_grouping (env : libm) (F : Nat → ℚ) (lo hi n : Nat)
    (hn : n < 4294967296) :
    ∀ k, k ≤ n → ∀ i, i < k → in_range F lo hi i →
      (init_loop_upto env true F lo hi n n k).data_buffer_index_to_acc_buffer_index i
        = some ((List.range i).countP fun j => decide (in_range F lo hi j)) := by
  intro k
  induction k with
  | zero => intro _ i hlt; omega
  | succ k ih =>
    intro hk i hlt hin
    have hinv := init_loop_inv env true F lo hi n n hn (fun _ => rfl)
      (fun h => by cases h) k (by omega)
    rw [init_loop_upto_succ]
    have ih1 := ih (by omega)
    generalize init_loop_upto env true F lo hi n n k = s at ih1 hinv ⊢
    unfold init_loop_step
    by_cases hkr : in_range F lo hi k
    · have hc : ¬ (F k < (lo : ℚ) ∨ F k > (hi : ℚ)) := hkr
      simp only [if_neg hc, if_true]
      by_cases hik : i = k
      · subst hik
        rw [Function.update_same, hinv.2.2.2.2 rfl,
          u32_target_succ _ (lt_of_le_of_lt (countP_range_le _ _) (by omega))]
      · rw [Function.update_noteq hik]
        exact ih1 i (by omega) hin
    · have hc : F k < (lo : ℚ) ∨ F k > (hi : ℚ) := by
        unfold in_range at hkr
        exact not_not.mp hkr
      simp only [if_pos hc]
      have hik : i ≠ k := fun h => hkr (h ▸ hin)
      exact ih1 i (by omega) hin

/-- Every number below the count of a predicate over `0 .. n - 1` is the count over the
indices before some index that satisfies the predicate. -/
theorem countP_range_hits (p : Nat → Bool) :
    ∀ n c, c < (List.range n).countP p →
      ∃ i, i < n ∧ p i = true ∧ (List.range i).countP p = c := by
  intro n
  induction n with
  | zero => intro c h; simp at h
  | succ n ih =>
    intro c h
    by_cases hc : c < (List.range n).countP p
    · obtain ⟨i, hi, h1, h2⟩ := ih c hc
      exact ⟨i, by omega, h1, h2⟩
    · rw [List.range_succ, List.countP_append] at h
      have hp : p n = true := by
        by_contra hpn
        have h0 : List.countP p [n] = 0 := by
          rw [List.countP_eq_zero]
          intro a ha
          rw [List.mem_singleton] at ha
          rw [ha]
          exact hpn
        omega
      have h1 : List.countP p [n] = 1 := by
        simp [List.countP_cons, hp]
      exact ⟨n, by omega, hp, by omega⟩

/-- Once an index has passed the range test, the column of `max_data_index` is the column
assigned last. -/
theorem init_map_last (env : libm) (no_grouping : Bool) (F : Nat → ℚ) (lo hi np n : Nat)
    (hn : n < 4294967296) (hnp : no_grouping = true → np = n)
    (hgrp : no_grouping = false → 1 ≤ np ∧ np ≤ 4294967296) :
    ∀ k, k ≤ n → (∃ i, i < k ∧ in_range F lo hi i) →
      (init_loop_upto env no_grouping F lo hi np n k).data_buffer_index_to_acc_buffer_index
          (init_loop_upto env no_grouping F lo hi np n k).max_data_index
        = some (init_loop_upto env no_grouping F lo hi np n k).target_acc_index := by
  intro k
  induction k with
  | zero => rintro _ ⟨i, hlt, _⟩; omega
  | succ k ih =>
    intro hk hex
    have hinv := init_loop_inv env no_grouping F lo hi np n hn hnp hgrp k (by omega)
    rw [init_loop_upto_succ]
    have ih1 := ih (by omega)
    generalize init_loop_upto env no_grouping F lo hi np n k = s at ih1 hinv ⊢
    obtain ⟨_, _, hc0, hc1, _⟩ := hinv
    unfold init_loop_step
    by_cases hkr : in_range F lo hi k
    · have hc : ¬ (F k < (lo : ℚ) ∨ F k > (hi : ℚ)) := hkr
      simp only [if_neg hc]
      have hmax : s.max_data_index ≤ k := by
        by_cases hprev : ∃ i, i < k ∧ in_range F lo hi i
        · have := (hc1 hprev).2.2.1
          omega
        · have := (hc0 (fun i hlt hin => hprev ⟨i, hlt, hin⟩)).2.1
          omega
      have hk1 : c_max s.max_data_index k = k := by
        unfold c_max
        rw [if_neg (by omega)]
      rw [hk1, Function.update_same]
    · have hc : F k < (lo : ℚ) ∨ F k > (hi : ℚ) := by
        unfold in_range at hkr
        exact not_not.mp hkr
      simp only [if_pos hc]
      obtain ⟨i, hlt, hin⟩ := hex
      have hik : i ≠ k := fun h => hkr (h ▸ hin)
      exact ih1 ⟨i, by omega, hin⟩

/-- C19 fails as stated. Five frequencies `0 .. 4` grouped linearly into thirty columns
give a context of thirty columns of which only the columns 0, 7, 15, 22 and 29 have a
contributing index; the count of the column 1 is 0. -/
theorem grouped_columns_unused :
    sparse_ctx.num_points = 30
      ∧ sparse_ctx.acc_buffer_data_count 1 = 0
      ∧ (List.range 30).filter (fun c => decide (sparse_ctx.acc_buffer_data_count c ≠ 0))
          = [0, 7, 15, 22, 29] := by
  refine ⟨by decide!, by decide!, by decide!⟩

/-- C19, amended. After `output_init` on fewer than `2^32` input indices: without grouping,
every column of `[0, num_points - 1]` has a contributing index; with grouping into at least
one column, if some index passes the range test, then `num_points >= 1` and the last column
`num_points - 1` has a contributing index (the columns before it need not have one). -/
theorem used_columns (env : libm) (heap : malloc_contents) (data_length : Nat)
    (data_frequency : Nat → ℚ) (min_freq max_freq num_points : Nat) (abs_min abs_max : ℚ)
    (group group_func : Int) (transform_flags : Nat)
    (hn : data_length < 4294967296) (hnp : num_points < 4294967296) :
    (init_no_grouping group group_func = true →
      ∀ c, c < (output_init env heap data_length data_frequency min_freq max_freq
          num_points abs_min abs_max group group_func transform_flags).num_points →
        1 ≤ (output_init env heap data_length data_frequency min_freq max_freq
          num_points abs_min abs_max group group_func
          transform_flags).acc_buffer_data_count c)
    ∧ (init_no_grouping group group_func = false → 1 ≤ num_points →
      (∃ i, i < data_length
        ∧ in_range (init_data_frequency env group group_func data_length data_frequency)
            (init_min_freq env group group_func min_freq)
            (init_max_freq env group group_func max_freq) i) →
      1 ≤ (output_init env heap data_length data_frequency min_freq max_freq
          num_points abs_min abs_max group group_func transform_flags).num_points
        ∧ 1 ≤ (output_init env heap data_length data_frequency min_freq max_freq
          num_points abs_min abs_max group group_func
          transform_flags).acc_buffer_data_count
            ((output_init env heap data_length data_frequency min_freq max_freq
              num_points abs_min abs_max group group_func transform_flags).num_points
              - 1)) := by
  obtain ⟨e1, e2, e3, e4, e5, _, _⟩ := output_init_binning env heap data_length
    data_frequency min_freq max_freq num_points abs_min abs_max group group_func
    transform_flags _ rfl
  rw [e2, e5]
  generalize init_data_frequency env group group_func data_length data_frequency = F
  generalize init_min_freq env group group_func min_freq = lo
  generalize init_max_freq env group group_func max_freq = hi
  constructor
  · intro hng
    have hnp1 : init_num_points group group_func data_length num_points = data_length := by
      simp [init_num_points, hng]
    rw [hng, hnp1]
    have hinv := init_loop_inv env true F lo hi data_length data_length hn (fun _ => rfl)
      (fun h => by cases h) data_length (le_refl _)
    have hmap := init_map_no_grouping env F lo hi data_length hn data_length (le_refl _)
    generalize init_loop_upto env true F lo hi data_length data_length data_length = s
      at hinv hmap
    obtain ⟨_, hb, _, _, he⟩ := hinv
    intro c hc
    rw [he rfl, u32_target_succ _ (lt_of_le_of_lt (countP_range_le _ _) hn)] at hc
    obtain ⟨i, hlt, hpi, hci⟩ := countP_range_hits _ _ _ hc
    rw [decide_eq_true_eq] at hpi
    have hmi := hmap i hlt hpi
    rw [hci] at hmi
    rw [hb c]
    apply List.countP_pos_iff.mpr
    exact ⟨i, List.mem_range.mpr hlt, by rw [decide_eq_true_eq]; exact hmi⟩
  · intro hng hnp0 hex
    have hnp1 : init_num_points group group_func data_length num_points = num_points := by
      simp [init_num_points, hng]
    rw [hng, hnp1]
    have hinv := init_loop_inv env false F lo hi num_points data_length hn
      (fun h => by cases h) (fun _ => ⟨hnp0, by omega⟩) data_length (le_refl _)
    have hlast := init_map_last env false F lo hi num_points data_length hn
      (fun h => by cases h) (fun _ => ⟨hnp0, by omega⟩) data_length (le_refl _) hex
    generalize init_loop_upto env false F lo hi num_points data_length data_length = s
      at hinv hlast
    obtain ⟨_, hb, _, hd, _⟩ := hinv
    obtain ⟨_, _, hmax, _, _, htarget⟩ := hd hex
    have hu : u32 (s.target_acc_index + 1) = s.target_acc_index + 1 := by
      unfold u32
      omega
    rw [hu, Nat.add_sub_cancel]
    refine ⟨by omega, ?_⟩
    rw [hb]
    apply List.countP_pos_iff.mpr
    exact ⟨s.max_data_index, List.mem_range.mpr hmax, by rw [decide_eq_true_eq]; exact hlast⟩

/-- C19, amended, on the context of the scenario (no grouping, five columns) and on
`sparse_ctx` (grouping, thirty columns, the last of which is used). -/
theorem used_columns_witness :
    (∀ c, c < scenario_ctx.num_points → 1 ≤ scenario_ctx.acc_buffer_data_count c)
      ∧ 1 ≤ sparse_ctx.num_points
      ∧ 1 ≤ sparse_ctx.acc_buffer_data_count (sparse_ctx.num_points - 1) :=
  ⟨(used_columns example_env example_heap 5 (array_of [0, 1, 2, 3, 4]) 0 4 30 0 8
      OUTPUT_NO_GROUPING OUTPUT_MAX_GROUPING_FUNC OUTPUT_NO_TRANSFORM (by decide)
      (by decide)).1 (by decide),
    (used_columns example_env example_heap 5 (array_of [0, 1, 2, 3, 4]) 0 4 30 0 8
      OUTPUT_LINEAL_GROUPING OUTPUT_MAX_GROUPING_FUNC OUTPUT_NO_TRANSFORM (by decide)
      (by decide)).2 (by decide) (by decide) ⟨0, by decide, by decide!⟩⟩

/-! ## C11 -/

theorem filter_range'_single (p : Nat → Bool) (lo len c : Nat) (hc : c < len)
    (hp : ∀ i, lo ≤ i → i < lo + len → (p i = true ↔ i = lo + c)) :
    (List.range' lo len).filter p = [lo + c] := by
  have hsplit : List.range' lo len
      = List.range' lo c ++ (List.range' (lo + c) 1
          ++ List.range' (lo + c + 1) (len - c - 1)) := by
    rw [List.range'_append_1, List.range'_append_1]
    congr 1
    omega
  have h1 : (List.range' lo c).filter p = [] := by
    rw [List.filter_eq_nil_iff]
    intro i hi hpi
    rw [List.mem_range'_1] at hi
    have := (hp i (by omega) (by omega)).mp hpi
    omega
  have h3 : (List.range' (lo + c + 1) (len - c - 1)).filter p = [] := by
    rw [List.filter_eq_nil_iff]
    intro i hi hpi
    rw [List.mem_range'_1] at hi
    have := (hp i (by omega) (by omega)).mp hpi
    omega
  have h2 : (List.range' (lo + c) 1).filter p = [lo + c] := by
    have hpc : p (lo + c) = true := (hp (lo + c) (by omega) (by omega)).mpr rfl
    simp [List.range', hpc]
  rw [hsplit, List.filter_append, List.filter_append, h1, h2, h3]
  rfl

/-- The accumulation stage on a context whose columns have one contribution each, the
value at the index `min_data_index + c` for the column `c`. -/
theorem print_acc_single (out_ctx : output_context) (values : Nat → ℚ)
    (hbins : bins_ok out_ctx)
    (hcols : ∀ c, c < out_ctx.num_points →
      contributions out_ctx values c = [values (out_ctx.min_data_index + c)]) :
    ∃ acc, print_acc out_ctx values = some acc
      ∧ ∀ c, c < out_ctx.num_points →
          acc c = if out_ctx.group_func = OUTPUT_MAX_GROUPING_FUNC then
              max 0 (values (out_ctx.min_data_index + c))
            else values (out_ctx.min_data_index + c) := by
  have h0 : ∀ c, c < out_ctx.num_points → acc_clear out_ctx c = 0 := by
    intro c hc
    unfold acc_clear
    rw [if_pos hc]
  by_cases hmax : out_ctx.group_func = OUTPUT_MAX_GROUPING_FUNC
  · refine ⟨_, by rw [print_acc, if_pos hmax, acc_loop_spec out_ctx values c_max hbins.1],
      ?_⟩
    intro c hc
    rw [hcols c hc, if_pos hmax, h0 c hc]
    simp only [List.foldl_cons, List.foldl_nil]
    exact c_max_eq_max _ _
  · by_cases havg : out_ctx.group_func = OUTPUT_AVG_GROUPING_FUNC
    · refine ⟨_, by rw [print_acc, if_neg hmax, if_pos havg,
        acc_loop_spec out_ctx values _ hbins.1]; rfl, ?_⟩
      intro c hc
      have hcount : out_ctx.acc_buffer_data_count c = 1 := by
        rw [hbins.2.1 c]
        have := congrArg List.length (hcols c hc)
        simpa [contributions] using this
      beta_reduce
      rw [if_pos hc, if_neg hmax, hcols c hc, h0 c hc, hbins.2.2 c hc, hcount]
      simp
    · refine ⟨_, by rw [print_acc, if_neg hmax, if_neg havg,
        acc_loop_spec out_ctx values _ hbins.1], ?_⟩
      intro c hc
      rw [if_neg hmax, hcols c hc]
      rfl

/-- Without grouping and with ascending frequencies, the indices that pass the range test
are those of `min_data_index .. max_data_index`, and the column of each is its offset from
`min_data_index`. -/
theorem init_no_grouping_sorted (env : libm) (F : Nat → ℚ) (lo hi n : Nat)
    (hn : n < 4294967296)
    (hsorted : ∀ j, j < n → ∀ i, i < j → F i ≤ F j)
    (hex : ∃ i, i < n ∧ in_range F lo hi i) :
    (init_loop_upto env true F lo hi n n n).min_data_index
        ≤ (init_loop_upto env true F lo hi n n n).max_data_index
      ∧ (init_loop_upto env true F lo hi n n n).max_data_index < n
      ∧ u32 ((init_loop_upto env true F lo hi n n n).target_acc_index + 1)
          = (init_loop_upto env true F lo hi n n n).max_data_index + 1
            - (init_loop_upto env true F lo hi n n n).min_data_index
      ∧ ∀ i, (init_loop_upto env true F lo hi n n n).min_data_index ≤ i →
          i ≤ (init_loop_upto env true F lo hi n n n).max_data_index →
          (init_loop_upto env true F lo hi n n n).data_buffer_index_to_acc_buffer_index i
            = some (i - (init_loop_upto env true F lo hi n n n).min_data_index) := by
  have hinv := init_loop_inv env true F lo hi n n hn (fun _ => rfl)
    (fun h => by cases h) n (le_refl _)
  have hmap := init_map_no_grouping env F lo hi n hn n (le_refl _)
  generalize init_loop_upto env true F lo hi n n n = s at hinv hmap ⊢
  obtain ⟨_, _, _, hc1, he⟩ := hinv
  obtain ⟨g1, g2, g3, g4, g5, _⟩ := hc1 hex
  have hmm : s.min_data_index ≤ s.max_data_index := (g5 _ g1 g2).2
  have hle : ∀ i j, i ≤ j → j < n → F i ≤ F j := by
    intro i j hij hj
    rcases Nat.eq_or_lt_of_le hij with h | h
    · rw [h]
    · exact hsorted j hj i h
  have hall : ∀ i, s.min_data_index ≤ i → i ≤ s.max_data_index → in_range F lo hi i := by
    intro i h1 h2
    unfold in_range at g2 g4 ⊢
    push_neg at g2 g4 ⊢
    exact ⟨le_trans g2.1 (hle _ _ h1 (by omega)), le_trans (hle _ _ h2 g3) g4.2⟩
  have hcount : ∀ m, s.min_data_index ≤ m → m ≤ n →
      (m ≤ s.max_data_index + 1 ∨ m = n) →
      (List.range m).countP (fun j => decide (in_range F lo hi j))
        = c_min m (s.max_data_index + 1) - s.min_data_index := by
    intro m h1 h2 h3
    have hcm : c_min m (s.max_data_index + 1) ≤ m := by
      unfold c_min
      split_ifs <;> omega
    have hcm2 : c_min m (s.max_data_index + 1) ≤ s.max_data_index + 1 := by
      unfold c_min
      split_ifs <;> omega
    have hcm3 : s.min_data_index ≤ c_min m (s.max_data_index + 1) := by
      unfold c_min
      split_ifs <;> omega
    rw [countP_range_window _ m s.min_data_index
      (c_min m (s.max_data_index + 1) - s.min_data_index) (by omega)]
    · rw [List.countP_eq_length.mpr, List.length_range']
      intro a ha
      rw [List.mem_range'_1] at ha
      rw [decide_eq_true_eq]
      exact hall a ha.1 (by omega)
    · intro j hj hpj
      rw [decide_eq_true_eq] at hpj
      have := g5 j (by omega) hpj
      refine ⟨this.1, ?_⟩
      have h4 : j < c_min m (s.max_data_index + 1) := by
        unfold c_min
        split_ifs <;> omega
      omega
  refine ⟨hmm, g3, ?_, ?_⟩
  · rw [he rfl, u32_target_succ _ (lt_of_le_of_lt (countP_range_le _ _) hn),
      hcount n (by omega) (le_refl _) (Or.inr rfl)]
    have : c_min n (s.max_data_index + 1) = s.max_data_index + 1 := by
      unfold c_min
      split_ifs <;> omega
    rw [this]
  · intro i h1 h2
    rw [hmap i (by omega) (hall i h1 h2), hcount i h1 (by omega) (Or.inl (by omega))]
    have : c_min i (s.max_data_index + 1) = i := by
      unfold c_min
      split_ifs <;> omega
    rw [this]

/-- C11 fails as stated. Five frequencies `0 .. 4` with the range `[1, 3]`, no grouping and
no reducer give a context of three columns, not five: the columns accumulate the values at
the indices 1, 2 and 3. With the Max reducer (the context of the scenario), a negative
value is not kept: the column 0 accumulates 0 for the value -1. With the frequencies
1, 10, 2 and the range `[0, 5]`, which are not ascending, the index 1 lies between
`min_data_index` and `max_data_index` and has no column: the accumulation stage reads a
cell of the index array that was never assigned. -/
theorem no_grouping_fewer_columns :
    ranged_ctx.num_points = 3
      ∧ (print_acc ranged_ctx (array_of [10, 11, 12, 13, 14])).map
          (fun acc => (List.range 3).map acc) = some [11, 12, 13]
      ∧ (print_acc scenario_ctx (array_of [-1, 2, 4, 6, 8])).map
          (fun acc => (List.range 5).map acc) = some [0, 2, 4, 6, 8]
      ∧ (print_acc
          (output_init example_env example_heap 3 (array_of [1, 10, 2]) 0 5 30 0 8
            OUTPUT_NO_GROUPING OUTPUT_NO_GROUPING_FUNC OUTPUT_NO_TRANSFORM)
          (array_of [7, 8, 9])).isNone = true := by
  refine ⟨by decide!, by decide!, by decide!, by decide!⟩

/-- C11, amended. Without grouping, for at least one and fewer than `2^32` input indices
and ascending frequencies: the final `num_points` is the number of indices whose frequency
passes the range test, which is `data_length` exactly when all of them pass; the
accumulation stage of `output_print` produces its buffer, and the column `c` holds the
value (after the value transform) at the index `min_data_index + c`, unchanged with the
reducers None and Average, and its maximum with 0 with the reducer Max. -/
theorem no_grouping_columns (env : libm) (heap : malloc_contents) (data_length : Nat)
    (data_frequency : Nat → ℚ) (min_freq max_freq num_points : Nat) (abs_min abs_max : ℚ)
    (group group_func : Int) (transform_flags : Nat) (values : Nat → ℚ)
    (hng : init_no_grouping group group_func = true)
    (hn1 : 1 ≤ data_length) (hn : data_length < 4294967296)
    (hnp : num_points < 4294967296)
    (hsorted : ∀ j, j < data_length → ∀ i, i < j → data_frequency i ≤ data_frequency j) :
    (output_init env heap data_length data_frequency min_freq max_freq num_points
        abs_min abs_max group group_func transform_flags).num_points
        = (List.range data_length).countP
            (fun i => decide (in_range data_frequency min_freq max_freq i))
      ∧ ((output_init env heap data_length data_frequency min_freq max_freq num_points
            abs_min abs_max group group_func transform_flags).num_points = data_length
          ↔ ∀ i, i < data_length → in_range data_frequency min_freq max_freq i)
      ∧ ∃ acc,
          print_acc
              (output_init env heap data_length data_frequency min_freq max_freq num_points
                abs_min abs_max group group_func transform_flags)
              (print_transform env
                (output_init env heap data_length data_frequency min_freq max_freq
                  num_points abs_min abs_max group group_func transform_flags) values)
            = some acc
          ∧ ∀ c, c < (output_init env heap data_length data_frequency min_freq max_freq
                num_points abs_min abs_max group group_func transform_flags).num_points →
              acc c
                = if group_func = OUTPUT_MAX_GROUPING_FUNC then
                    max 0 (print_transform env
                      (output_init env heap data_length data_frequency min_freq max_freq
                        num_points abs_min abs_max group group_func transform_flags) values
                      ((output_init env heap data_length data_frequency min_freq max_freq
                        num_points abs_min abs_max group group_func
                        transform_flags).min_data_index + c))
                  else
                    print_transform env
                      (output_init env heap data_length data_frequency min_freq max_freq
                        num_points abs_min abs_max group group_func transform_flags) values
                      ((output_init env heap data_length data_frequency min_freq max_freq
                        num_points abs_min abs_max group group_func
                        transform_flags).min_data_index + c) := by
  have hlog : init_group group group_func ≠ OUTPUT_LOGARITMIC_GROUPING := by
    intro h
    simp [init_no_grouping, h] at hng
  have hF : init_data_frequency env group group_func data_length data_frequency
      = data_frequency := by
    unfold init_data_frequency
    rw [if_neg hlog]
  have hlo : init_min_freq env group group_func min_freq = min_freq := by
    unfold init_min_freq
    rw [if_neg hlog]
  have hhi : init_max_freq env group group_func max_freq = max_freq := by
    unfold init_max_freq
    rw [if_neg hlog]
  have hnp1 : init_num_points group group_func data_length num_points = data_length := by
    simp [init_num_points, hng]
  have hbins := output_init_bins_ok env heap data_length data_frequency min_freq max_freq
    num_points abs_min abs_max group group_func transform_flags hn1 hn hnp
    (fun h => by rw [hng] at h; cases h) (by rw [hF]; exact hsorted)
  obtain ⟨e1, _, e3, e4, e5, _, e7⟩ := output_init_binning env heap data_length
    data_frequency min_freq max_freq num_points abs_min abs_max group group_func
    transform_flags _ rfl
  rw [hng, hF, hlo, hhi, hnp1] at e1 e3 e4 e5
  have hinv := init_loop_inv env true data_frequency min_freq max_freq data_length
    data_length hn (fun _ => rfl) (fun h => by cases h) data_length (le_refl _)
  have hsort := init_no_grouping_sorted env data_frequency min_freq max_freq data_length hn
    hsorted
  generalize output_init env heap data_length data_frequency min_freq max_freq num_points
    abs_min abs_max group group_func transform_flags = ctx at hbins e1 e3 e4 e5 e7 ⊢
  generalize print_transform env ctx values = v
  generalize init_loop_upto env true data_frequency min_freq max_freq data_length
    data_length data_length = s at e1 e3 e4 e5 hinv hsort
  have hnum : ctx.num_points = (List.range data_length).countP
      (fun i => decide (in_range data_frequency min_freq max_freq i)) := by
    rw [e5, hinv.2.2.2.2 rfl, u32_target_succ _ (lt_of_le_of_lt (countP_range_le _ _) hn)]
  refine ⟨hnum, ?_, ?_⟩
  · rw [hnum]
    constructor
    · intro h i hlt
      have h1 : (List.range data_length).countP
          (fun i => decide (in_range data_frequency min_freq max_freq i))
          = (List.range data_length).length := by rw [h, List.length_range]
      have := List.countP_eq_length.mp h1 i (List.mem_range.mpr hlt)
      rwa [decide_eq_true_eq] at this
    · intro h
      have h1 : (List.range data_length).countP
          (fun i => decide (in_range data_frequency min_freq max_freq i))
          = (List.range data_length).length := by
        apply List.countP_eq_length.mpr
        intro i hmem
        rw [decide_eq_true_eq]
        exact h i (List.mem_range.mp hmem)
      rw [h1, List.length_range]
  · rw [← e7]
    apply print_acc_single ctx v hbins
    intro c hc
    by_cases hex : ∃ i, i < data_length ∧ in_range data_frequency min_freq max_freq i
    · obtain ⟨k1, k2, k3, k4⟩ := hsort hex
      rw [e5, k3] at hc
      unfold contributions index_range
      rw [e1, e3, e4, filter_range'_single _ s.min_data_index
        (s.max_data_index + 1 - s.min_data_index) c hc]
      · rfl
      · intro i h1 h2
        rw [decide_eq_true_eq, k4 i h1 (by omega)]
        constructor
        · intro h
          have := Option.some.inj h
          omega
        · intro h
          rw [h, Nat.add_sub_cancel_left]
    · have h0 : (List.range data_length).countP
          (fun i => decide (in_range data_frequency min_freq max_freq i)) = 0 := by
        rw [List.countP_eq_zero]
        intro i hmem hpi
        rw [decide_eq_true_eq] at hpi
        exact hex ⟨i, List.mem_range.mp hmem, hpi⟩
      rw [hnum, h0] at hc
      omega

/-- C11, amended, on the context `ranged_ctx` (five frequencies, three of them in range). -/
theorem no_grouping_columns_witness :
    ranged_ctx.num_points
        = (List.range 5).countP
            (fun i => decide (in_range (array_of [0, 1, 2, 3, 4]) 1 3 i))
      ∧ (ranged_ctx.num_points = 5 ↔ ∀ i, i < 5 → in_range (array_of [0, 1, 2, 3, 4]) 1 3 i)
      ∧ ∃ acc,
          print_acc ranged_ctx
              (print_transform example_env ranged_ctx (array_of [10, 11, 12, 13, 14]))
            = some acc
          ∧ ∀ c, c < ranged_ctx.num_points →
              acc c
                = if OUTPUT_NO_GROUPING_FUNC = OUTPUT_MAX_GROUPING_FUNC then
                    max 0 (print_transform example_env ranged_ctx
                      (array_of [10, 11, 12, 13, 14]) (ranged_ctx.min_data_index + c))
                  else
                    print_transform example_env ranged_ctx (array_of [10, 11, 12, 13, 14])
                      (ranged_ctx.min_data_index + c) :=
  no_grouping_columns example_env example_heap 5 (array_of [0, 1, 2, 3, 4]) 1 3 30 0 8
    OUTPUT_NO_GROUPING OUTPUT_NO_GROUPING_FUNC OUTPUT_NO_TRANSFORM
    (array_of [10, 11, 12, 13, 14]) (by decide) (by decide) (by decide) (by decide)
    (by
      intro j hj i hi
      interval_cases j <;> interval_cases i <;> norm_num [array_of])

/-! ## C13 -/

theorem smooth_new_nonneg (out_ctx : output_context) (acc_buffer : Nat → ℚ) (i : Nat) :
    0 ≤ smooth_new out_ctx acc_buffer i := by
  unfold smooth_new
  rw [c_max_eq_max]
  exact le_max_right _ _

theorem smooth_loop_upto_succ (out_ctx : output_context) (acc_buffer : Nat → ℚ) (k : Nat) :
    smooth_loop_upto out_ctx acc_buffer (k + 1)
      = smooth_step out_ctx acc_buffer (smooth_loop_upto out_ctx acc_buffer k) k := by
  unfold smooth_loop_upto
  rw [List.range_succ, List.foldl_append]
  rfl

theorem smooth_inv_step (out_ctx : output_context) (acc_buffer : Nat → ℚ) (k : Nat)
    (s : smooth_loop_state) (h : smooth_inv out_ctx acc_buffer k s) :
    smooth_inv out_ctx acc_buffer (k + 1) (smooth_step out_ctx acc_buffer s k) := by
  obtain ⟨ha, hb, hc, hd, he, hf, hg, hh, hi⟩ := h
  unfold smooth_step
  by_cases hpop : out_ctx.acc_buffer_data_count k ≠ 0
  · have hnv : c_max (s.smooth_buffer k * out_ctx.smoothing_old_value_factor
        + acc_buffer k * out_ctx.smoothing_new_value_factor) 0
        = smooth_new out_ctx acc_buffer k := by
      unfold smooth_new
      rw [ha k (le_refl _)]
    rw [if_pos hpop]
    simp only [hnv]
    refine ⟨?_, ?_, ?_, ?_, ?_, ?_, ?_, ?_, ?_⟩
    all_goals try dsimp only
    · intro i hik
      rw [Function.update_noteq (by omega)]
      exact ha i (by omega)
    · intro i hik hpi
      by_cases hieq : i = k
      · rw [hieq, Function.update_same]
      · rw [Function.update_noteq hieq]
        exact hb i (by omega) hpi
    · intro i hik h0 hpi
      have h1 : i ≠ k := fun h => hpop (h ▸ hpi)
      rw [Function.update_noteq h1, Function.update_noteq (by omega)]
      exact hc i (by omega) h0 hpi
    · intro h0
      have h1 : 0 ≠ k := fun h => hpop (h ▸ h0)
      rw [Function.update_noteq h1]
      exact hd h0
    · constructor
      · intro hnone
        cases hnone
      · intro hall
        exact absurd (hall k (by omega)) hpop
    · intro m hm
      have hm1 := Option.some.inj hm
      cases hlm : s.local_min with
      | none =>
        rw [hlm] at hm1
        have hnone := he.mp hlm
        refine ⟨⟨k, by omega, hpop, hm1⟩, ?_⟩
        intro i hik hpi
        by_cases hieq : i = k
        · rw [hieq, ← hm1]
        · exact absurd (hnone i (by omega)) hpi
      | some m0 =>
        rw [hlm] at hm1
        obtain ⟨⟨i0, hi0, hp0, hv0⟩, hle0⟩ := hf m0 hlm
        simp only [c_min_eq_min] at hm1
        constructor
        · rcases min_choice m0 (smooth_new out_ctx acc_buffer k) with hc1 | hc1
          · exact ⟨i0, by omega, hp0, by rw [hv0, ← hm1, hc1]⟩
          · exact ⟨k, by omega, hpop, by rw [← hm1, hc1]⟩
        · intro i hik hpi
          rw [← hm1]
          by_cases hieq : i = k
          · rw [hieq]
            exact min_le_right _ _
          · exact le_trans (min_le_left _ _) (hle0 i (by omega) hpi)
    · rw [c_max_eq_max]
      exact le_max_of_le_left hg
    · rw [c_max_eq_max]
      rcases max_choice s.local_max (smooth_new out_ctx acc_buffer k) with hc1 | hc1
      · rw [hc1]
        rcases hh with hh | ⟨i0, hi0, hp0, hv0⟩
        · exact Or.inl hh
        · exact Or.inr ⟨i0, by omega, hp0, hv0⟩
      · exact Or.inr ⟨k, by omega, hpop, hc1.symm⟩
    · intro i hik hpi
      rw [c_max_eq_max]
      by_cases hieq : i = k
      · rw [hieq]
        exact le_max_right _ _
      · exact le_trans (hi i (by omega) hpi) (le_max_left _ _)
  · have hk0 : out_ctx.acc_buffer_data_count k = 0 := not_not.mp hpop
    have hlt : ∀ i, i < k + 1 → out_ctx.acc_buffer_data_count i ≠ 0 → i < k := by
      intro i hik hpi
      have h1 : i ≠ k := fun h => hpi (h ▸ hk0)
      omega
    have hall : (∀ i, i < k → out_ctx.acc_buffer_data_count i = 0)
        ↔ ∀ i, i < k + 1 → out_ctx.acc_buffer_data_count i = 0 := by
      constructor
      · intro h1 i hik
        by_cases hieq : i = k
        · rw [hieq]
          exact hk0
        · exact h1 i (by omega)
      · intro h1 i hik
        exact h1 i (by omega)
    rw [if_neg hpop]
    by_cases hpos : k > 0
    · rw [if_pos hpos]
      refine ⟨?_, ?_, ?_, ?_, he.trans hall, ?_, hg, ?_, ?_⟩
      all_goals try dsimp only
      · intro i hik
        rw [Function.update_noteq (by omega)]
        exact ha i (by omega)
      · intro i hik hpi
        have := hlt i hik hpi
        rw [Function.update_noteq (by omega)]
        exact hb i this hpi
      · intro i hik h0 hpi
        by_cases hieq : i = k
        · rw [hieq, Function.update_same, Function.update_noteq (by omega)]
        · rw [Function.update_noteq hieq, Function.update_noteq (by omega)]
          exact hc i (by omega) h0 hpi
      · intro h0
        rw [Function.update_noteq (by omega)]
        exact hd h0
      · intro m hm
        obtain ⟨⟨i0, hi0, hp0, hv0⟩, hle0⟩ := hf m hm
        exact ⟨⟨i0, by omega, hp0, hv0⟩, fun i hik hpi => hle0 i (hlt i hik hpi) hpi⟩
      · rcases hh with hh | ⟨i0, hi0, hp0, hv0⟩
        · exact Or.inl hh
        · exact Or.inr ⟨i0, by omega, hp0, hv0⟩
      · intro i hik hpi
        exact hi i (hlt i hik hpi) hpi
    · rw [if_neg hpos]
      have hkz : k = 0 := by omega
      refine ⟨?_, ?_, ?_, hd, he.trans hall, ?_, hg, ?_, ?_⟩
      · intro i hik
        exact ha i (by omega)
      · intro i hik hpi
        exact hb i (hlt i hik hpi) hpi
      · intro i hik h0 hpi
        omega
      · intro m hm
        obtain ⟨⟨i0, hi0, hp0, hv0⟩, hle0⟩ := hf m hm
        exact ⟨⟨i0, by omega, hp0, hv0⟩, fun i hik hpi => hle0 i (hlt i hik hpi) hpi⟩
      · rcases hh with hh | ⟨i0, hi0, hp0, hv0⟩
        · exact Or.inl hh
        · exact Or.inr ⟨i0, by omega, hp0, hv0⟩
      · intro i hik hpi
        exact hi i (hlt i hik hpi) hpi

theorem smooth_loop_inv (out_ctx : output_context) (acc_buffer : Nat → ℚ) :
    ∀ k, smooth_inv out_ctx acc_buffer k (smooth_loop_upto out_ctx acc_buffer k) := by
  intro k
  induction k with
  | zero =>
    refine ⟨fun _ _ => rfl, ?_, ?_, fun _ => rfl, ?_, ?_, le_refl _, Or.inl rfl, ?_⟩
    · intro i hi
      omega
    · intro i hi
      omega
    · exact ⟨fun _ i hi => by omega, fun _ => rfl⟩
    · intro m hm
      cases hm
    · intro i hi
      omega
  | succ k ih =>
    rw [smooth_loop_upto_succ]
    exact smooth_inv_step out_ctx acc_buffer k _ ih

/-- Stage SMOOTH with exponential smoothing, for a context with at least one column that
has a contributing index: the stage produces its result, the limits are the weighted sums
of lines 340-341, and the loop has visited every column. -/
theorem print_smooth_spec (out_ctx : output_context) (acc_buffer : Nat → ℚ)
    (hsm : out_ctx.smoothing = OUTPUT_EXP2_SMOOTH)
    (hpop : ∃ i, i < out_ctx.num_points ∧ out_ctx.acc_buffer_data_count i ≠ 0) :
    ∃ sm local_min local_max,
      print_smooth out_ctx acc_buffer = some sm
      ∧ sm.out_ctx
          = { out_ctx with
              smooth_buffer := sm.smooth_buffer
              smoothing_min_limit := sm.min
              smoothing_max_limit := sm.max }
      ∧ sm.min = out_ctx.smoothing_min_limit * out_ctx.smoothing_old_limit_factor
          + local_min * out_ctx.smoothing_new_limit_factor
      ∧ sm.max = out_ctx.smoothing_max_limit * out_ctx.smoothing_old_limit_factor
          + local_max * out_ctx.smoothing_new_limit_factor
      ∧ smooth_inv out_ctx acc_buffer out_ctx.num_points
          { smooth_buffer := sm.smooth_buffer
            local_min := some local_min
            local_max := local_max } := by
  have hinv := smooth_loop_inv out_ctx acc_buffer out_ctx.num_points
  have hloop : smooth_loop_upto out_ctx acc_buffer out_ctx.num_points
      = smooth_loop out_ctx acc_buffer := rfl
  rw [hloop] at hinv
  unfold print_smooth
  rw [if_pos hsm]
  generalize smooth_loop out_ctx acc_buffer = s at hinv
  obtain ⟨buf, lmin, lmax⟩ := s
  cases lmin with
  | none =>
    obtain ⟨i, hi, hpi⟩ := hpop
    exact absurd (hinv.2.2.2.2.1.mp rfl i hi) hpi
  | some m =>
    exact ⟨_, m, lmax, rfl, rfl, rfl, rfl, hinv⟩

/-- C15. With exponential smoothing, a glyph table set by `output_set_charset` and at least
one column with a contributing index, whenever the accumulation stage produces its buffer
`acc`, one call of `output_print` returns and leaves a smoothed buffer in which: each column
with a contributing index holds `max(old * old_value_factor + acc * new_value_factor, 0)`;
each column `i > 0` without one holds what the column `i - 1` now holds; the column 0
without one, and the cells from `num_points` on, hold what they held. The adaptive floor and
ceiling become `limit_old * old_limit_factor + local * new_limit_factor`, where `local` is
the least, respectively the greatest, new value of the columns with a contributing index. -/
theorem smoothing_update (env : libm) (out_ctx : output_context) (values : Nat → ℚ)
    (hsm : out_ctx.smoothing = OUTPUT_EXP2_SMOOTH)
    (hpop : ∃ i, i < out_ctx.num_points ∧ out_ctx.acc_buffer_data_count i ≠ 0)
    (hok : charset_ok out_ctx)
    (hsz : out_ctx.num_points + out_ctx.visualization_points_per_char ≤ 4294967296)
    (hacc : (print_acc out_ctx (print_transform env out_ctx values)).isSome = true) :
    ∃ r acc local_min local_max,
      print_acc out_ctx (print_transform env out_ctx values) = some acc
      ∧ output_print env out_ctx values = some r
      ∧ (∀ i, i < out_ctx.num_points → out_ctx.acc_buffer_data_count i ≠ 0 →
          r.1.smooth_buffer i
            = max (out_ctx.smooth_buffer i * out_ctx.smoothing_old_value_factor
                + acc i * out_ctx.smoothing_new_value_factor) 0)
      ∧ (∀ i, i < out_ctx.num_points → 0 < i → out_ctx.acc_buffer_data_count i = 0 →
          r.1.smooth_buffer i = r.1.smooth_buffer (i - 1))
      ∧ (out_ctx.acc_buffer_data_count 0 = 0 →
          r.1.smooth_buffer 0 = out_ctx.smooth_buffer 0)
      ∧ (∀ i, out_ctx.num_points ≤ i → r.1.smooth_buffer i = out_ctx.smooth_buffer i)
      ∧ r.1.smoothing_min_limit
          = out_ctx.smoothing_min_limit * out_ctx.smoothing_old_limit_factor
            + local_min * out_ctx.smoothing_new_limit_factor
      ∧ r.1.smoothing_max_limit
          = out_ctx.smoothing_max_limit * out_ctx.smoothing_old_limit_factor
            + local_max * out_ctx.smoothing_new_limit_factor
      ∧ (∃ i, i < out_ctx.num_points ∧ out_ctx.acc_buffer_data_count i ≠ 0
          ∧ r.1.smooth_buffer i = local_min)
      ∧ (∀ i, i < out_ctx.num_points → out_ctx.acc_buffer_data_count i ≠ 0 →
          local_min ≤ r.1.smooth_buffer i)
      ∧ (∃ i, i < out_ctx.num_points ∧ out_ctx.acc_buffer_data_count i ≠ 0
          ∧ r.1.smooth_buffer i = local_max)
      ∧ (∀ i, i < out_ctx.num_points → out_ctx.acc_buffer_data_count i ≠ 0 →
          r.1.smooth_buffer i ≤ local_max) := by
  obtain ⟨acc, hacc1⟩ := Option.isSome_iff_exists.mp hacc
  obtain ⟨sm, lmin, lmax, hps, hctx, hmin, hmax, hinv⟩ :=
    print_smooth_spec { out_ctx with acc_buffer := acc } acc hsm hpop
  have hst : print_stages env out_ctx values = some sm := by
    unfold print_stages
    rw [hacc1, Option.some_bind]
    exact hps
  obtain ⟨hn, hl, hpc, hs, _⟩ := print_stages_frame _ _ _ _ hst
  have hok1 : charset_ok sm.out_ctx := by
    unfold charset_ok
    rw [hl, hpc, hs]
    exact hok
  have hnp : 1 ≤ out_ctx.num_points := by
    obtain ⟨i, hi, _⟩ := hpop
    omega
  obtain ⟨wchar_buffer, hscale, _⟩ := print_scale_spec env sm.out_ctx sm.smooth_buffer
    sm.min sm.max hok1 (by rw [hn]; exact hnp) (by rw [hn, hpc]; exact hsz)
  have hbuf : sm.out_ctx.smooth_buffer = sm.smooth_buffer := by rw [hctx]
  have hlo : sm.out_ctx.smoothing_min_limit = sm.min := by rw [hctx]
  have hhi : sm.out_ctx.smoothing_max_limit = sm.max := by rw [hctx]
  obtain ⟨ha, hb, hc, hd, _, hf, hg, hh, hi⟩ := hinv
  obtain ⟨⟨i0, hi0, hp0, hv0⟩, hle0⟩ := hf lmin rfl
  have hnew : ∀ i, smooth_new { out_ctx with acc_buffer := acc } acc i
      = max (out_ctx.smooth_buffer i * out_ctx.smoothing_old_value_factor
          + acc i * out_ctx.smoothing_new_value_factor) 0 := by
    intro i
    unfold smooth_new
    rw [c_max_eq_max]
  refine ⟨({ sm.out_ctx with wchar_buffer := wchar_buffer },
    print_transform env out_ctx values), acc, lmin, lmax, hacc1, ?_, ?_, ?_, ?_, ?_, ?_, ?_,
    ?_, ?_, ?_, ?_⟩
  · simp [output_print, hst, hscale]
  · intro i hlt hpi
    show sm.out_ctx.smooth_buffer i = _
    rw [hbuf, ← hnew]
    exact hb i hlt hpi
  · intro i hlt h0 hpi
    show sm.out_ctx.smooth_buffer i = sm.out_ctx.smooth_buffer (i - 1)
    rw [hbuf]
    exact hc i hlt h0 hpi
  · intro h0
    show sm.out_ctx.smooth_buffer 0 = _
    rw [hbuf]
    exact hd h0
  · intro i hle
    show sm.out_ctx.smooth_buffer i = _
    rw [hbuf]
    exact ha i hle
  · show sm.out_ctx.smoothing_min_limit = _
    rw [hlo, hmin]
  · show sm.out_ctx.smoothing_max_limit = _
    rw [hhi, hmax]
  · refine ⟨i0, hi0, hp0, ?_⟩
    show sm.out_ctx.smooth_buffer i0 = _
    rw [hbuf, ← hv0]
    exact hb i0 hi0 hp0
  · intro i hlt hpi
    show lmin ≤ sm.out_ctx.smooth_buffer i
    rw [hbuf]
    have := hb i hlt hpi
    dsimp only at this
    rw [this]
    exact hle0 i hlt hpi
  · rcases hh with hh | ⟨i1, hi1, hp1, hv1⟩
    · obtain ⟨i1, hi1, hp1⟩ := hpop
      refine ⟨i1, hi1, hp1, ?_⟩
      show sm.out_ctx.smooth_buffer i1 = _
      rw [hbuf]
      have h1 := hb i1 hi1 hp1
      have h2 := hi i1 hi1 hp1
      have h3 := smooth_new_nonneg { out_ctx with acc_buffer := acc } acc i1
      dsimp only at h1 h2 hh
      rw [h1]
      rw [hh] at h2 ⊢
      exact le_antisymm h2 h3
    · refine ⟨i1, hi1, hp1, ?_⟩
      show sm.out_ctx.smooth_buffer i1 = _
      rw [hbuf]
      have h1 := hb i1 hi1 hp1
      dsimp only at h1 hv1
      rw [h1, hv1]
  · intro i hlt hpi
    show sm.out_ctx.smooth_buffer i ≤ lmax
    rw [hbuf]
    have h1 := hb i hlt hpi
    have h2 := hi i hlt hpi
    dsimp only at h1 h2
    rw [h1]
    exact h2

/-- C15 on the context of the scenario with exponential smoothing (factors 1/2) and the
values 0, 2, 4, 6, 8: the smoothed buffer becomes 0, 1, 2, 3, 4, the floor 0 and the
ceiling 2. -/
theorem smoothing_update_witness :
    (∃ r acc local_min local_max,
      print_acc smooth_ctx (print_transform example_env smooth_ctx (array_of [0, 2, 4, 6, 8]))
        = some acc
      ∧ output_print example_env smooth_ctx (array_of [0, 2, 4, 6, 8]) = some r
      ∧ (∀ i, i < smooth_ctx.num_points → smooth_ctx.acc_buffer_data_count i ≠ 0 →
          r.1.smooth_buffer i
            = max (smooth_ctx.smooth_buffer i * smooth_ctx.smoothing_old_value_factor
                + acc i * smooth_ctx.smoothing_new_value_factor) 0)
      ∧ (∀ i, i < smooth_ctx.num_points → 0 < i → smooth_ctx.acc_buffer_data_count i = 0 →
          r.1.smooth_buffer i = r.1.smooth_buffer (i - 1))
      ∧ (smooth_ctx.acc_buffer_data_count 0 = 0 →
          r.1.smooth_buffer 0 = smooth_ctx.smooth_buffer 0)
      ∧ (∀ i, smooth_ctx.num_points ≤ i → r.1.smooth_buffer i = smooth_ctx.smooth_buffer i)
      ∧ r.1.smoothing_min_limit
          = smooth_ctx.smoothing_min_limit * smooth_ctx.smoothing_old_limit_factor
            + local_min * smooth_ctx.smoothing_new_limit_factor
      ∧ r.1.smoothing_max_limit
          = smooth_ctx.smoothing_max_limit * smooth_ctx.smoothing_old_limit_factor
            + local_max * smooth_ctx.smoothing_new_limit_factor
      ∧ (∃ i, i < smooth_ctx.num_points ∧ smooth_ctx.acc_buffer_data_count i ≠ 0
          ∧ r.1.smooth_buffer i = local_min)
      ∧ (∀ i, i < smooth_ctx.num_points → smooth_ctx.acc_buffer_data_count i ≠ 0 →
          local_min ≤ r.1.smooth_buffer i)
      ∧ (∃ i, i < smooth_ctx.num_points ∧ smooth_ctx.acc_buffer_data_count i ≠ 0
          ∧ r.1.smooth_buffer i = local_max)
      ∧ (∀ i, i < smooth_ctx.num_points → smooth_ctx.acc_buffer_data_count i ≠ 0 →
          r.1.smooth_buffer i ≤ local_max))
    ∧ (output_print example_env smooth_ctx (array_of [0, 2, 4, 6, 8])).map
        (fun r => ((List.range 5).map r.1.smooth_buffer, r.1.smoothing_min_limit,
          r.1.smoothing_max_limit))
        = some ([0, 1, 2, 3, 4], 0, 2) :=
  ⟨smoothing_update example_env smooth_ctx (array_of [0, 2, 4, 6, 8]) rfl
      ⟨0, by decide!, by decide!⟩ (charset_ok_bars smooth_ctx rfl rfl rfl) (by decide!)
      (by decide!),
    by decide!⟩

/-! ## C14 -/

/-- One frame of exponential smoothing on a context whose columns with a contributing index
hold `acc * (1 - p)`: they hold `acc * (1 - p * (1 - a))` afterwards, and the local minimum
and maximum of the frame are those of `acc` scaled by `1 - p * (1 - a)`. -/
theorem smooth_frame_step (c : output_context) (acc_buffer : Nat → ℚ) (a m M p : ℚ)
    (hsm : c.smoothing = OUTPUT_EXP2_SMOOTH)
    (ha0 : 0 ≤ a) (hp0 : 0 ≤ p) (hp1 : p ≤ 1)
    (hva : c.smoothing_new_value_factor = a) (hvo : c.smoothing_old_value_factor = 1 - a)
    (hacc : ∀ i, i < c.num_points → c.acc_buffer_data_count i ≠ 0 → 0 ≤ acc_buffer i)
    (hm : ∃ i, i < c.num_points ∧ c.acc_buffer_data_count i ≠ 0 ∧ acc_buffer i = m)
    (hm1 : ∀ i, i < c.num_points → c.acc_buffer_data_count i ≠ 0 → m ≤ acc_buffer i)
    (hM : ∃ i, i < c.num_points ∧ c.acc_buffer_data_count i ≠ 0 ∧ acc_buffer i = M)
    (hM1 : ∀ i, i < c.num_points → c.acc_buffer_data_count i ≠ 0 → acc_buffer i ≤ M)
    (hval : ∀ i, i < c.num_points → c.acc_buffer_data_count i ≠ 0 →
      c.smooth_buffer i = acc_buffer i * (1 - p)) :
    ∃ sm, print_smooth { c with acc_buffer := acc_buffer } acc_buffer = some sm
      ∧ sm.out_ctx
          = { c with
              acc_buffer := acc_buffer
              smooth_buffer := sm.smooth_buffer
              smoothing_min_limit := sm.min
              smoothing_max_limit := sm.max }
      ∧ (∀ i, i < c.num_points → c.acc_buffer_data_count i ≠ 0 →
          sm.smooth_buffer i = acc_buffer i * (1 - p * (1 - a)))
      ∧ sm.min = c.smoothing_min_limit * c.smoothing_old_limit_factor
          + m * (1 - p * (1 - a)) * c.smoothing_new_limit_factor
      ∧ sm.max = c.smoothing_max_limit * c.smoothing_old_limit_factor
          + M * (1 - p * (1 - a)) * c.smoothing_new_limit_factor := by
  obtain ⟨im, him, hpm, hvm⟩ := hm
  obtain ⟨iM, hiM, hpM, hvM⟩ := hM
  obtain ⟨sm, lmin, lmax, hps, hctx, hmin, hmax, hinv⟩ :=
    print_smooth_spec { c with acc_buffer := acc_buffer } acc_buffer hsm ⟨im, him, hpm⟩
  obtain ⟨_, hb, _, _, _, hf, hg, hh, hi⟩ := hinv
  obtain ⟨⟨i0, hi0, hp0', hv0⟩, hle0⟩ := hf lmin rfl
  have hpa : 0 ≤ p * a := mul_nonneg hp0 ha0
  have ht : 0 ≤ 1 - p * (1 - a) := by nlinarith
  have hnew : ∀ i, i < c.num_points → c.acc_buffer_data_count i ≠ 0 →
      smooth_new { c with acc_buffer := acc_buffer } acc_buffer i
        = acc_buffer i * (1 - p * (1 - a)) := by
    intro i hlt hpi
    unfold smooth_new
    dsimp only
    rw [hval i hlt hpi, hvo, hva, c_max_eq_max]
    have h1 : acc_buffer i * (1 - p) * (1 - a) + acc_buffer i * a
        = acc_buffer i * (1 - p * (1 - a)) := by ring
    rw [h1]
    exact max_eq_left (mul_nonneg (hacc i hlt hpi) ht)
  have hlmin : lmin = m * (1 - p * (1 - a)) := by
    apply le_antisymm
    · have := hle0 im him hpm
      rw [hnew im him hpm, hvm] at this
      exact this
    · rw [← hv0, hnew i0 hi0 hp0']
      exact mul_le_mul_of_nonneg_right (hm1 i0 hi0 hp0') ht
  have hM0 : 0 ≤ M := by
    rw [← hvM]
    exact hacc iM hiM hpM
  have hlmax : lmax = M * (1 - p * (1 - a)) := by
    dsimp only at hg hh hi
    apply le_antisymm
    · rcases hh with hh | ⟨i1, hi1, hp1', hv1⟩
      · rw [hh]
        exact mul_nonneg hM0 ht
      · rw [← hv1, hnew i1 hi1 hp1']
        exact mul_le_mul_of_nonneg_right (hM1 i1 hi1 hp1') ht
    · have := hi iM hiM hpM
      rw [hnew iM hiM hpM, hvM] at this
      exact this
  refine ⟨sm, hps, hctx, ?_, ?_, ?_⟩
  · intro i hlt hpi
    have := hb i hlt hpi
    dsimp only at this
    rw [this, hnew i hlt hpi]
  · rw [hmin, hlmin]
  · rw [hmax, hlmax]

/-- The accumulation stage depends on the fields `output_print` does not write only, below
`num_points`. -/
theorem print_acc_below (c out_ctx : output_context) (values : Nat → ℚ)
    (hcfg : config_of c = config_of out_ctx)
    (hmap : ∀ i, out_ctx.min_data_index ≤ i → i ≤ out_ctx.max_data_index →
      ∃ k, out_ctx.data_buffer_index_to_acc_buffer_index i = some k)
    (acc : Nat → ℚ) (hacc : print_acc out_ctx values = some acc) :
    ∃ acc1, print_acc c values = some acc1
      ∧ ∀ k, k < out_ctx.num_points → acc1 k = acc k := by
  have e1 : c.data_buffer_index_to_acc_buffer_index
      = out_ctx.data_buffer_index_to_acc_buffer_index := by
    have h := congrArg (fun x : output_context => x.data_buffer_index_to_acc_buffer_index) hcfg
    exact h
  have e2 : c.min_data_index = out_ctx.min_data_index := by
    have h := congrArg (fun x : output_context => x.min_data_index) hcfg
    exact h
  have e3 : c.max_data_index = out_ctx.max_data_index := by
    have h := congrArg (fun x : output_context => x.max_data_index) hcfg
    exact h
  have e4 : c.num_points = out_ctx.num_points := by
    have h := congrArg (fun x : output_context => x.num_points) hcfg
    exact h
  have e5 : c.group_func = out_ctx.group_func := by
    have h := congrArg (fun x : output_context => x.group_func) hcfg
    exact h
  have e6 : c.acc_buffer_avg_factor = out_ctx.acc_buffer_avg_factor := by
    have h := congrArg (fun x : output_context => x.acc_buffer_avg_factor) hcfg
    exact h
  have hmapc : ∀ i, c.min_data_index ≤ i → i ≤ c.max_data_index →
      ∃ k, c.data_buffer_index_to_acc_buffer_index i = some k := by
    rw [e1, e2, e3]
    exact hmap
  have hcontr : ∀ k, contributions c values k = contributions out_ctx values k := by
    intro k
    unfold contributions
    rw [e1, e2, e3]
  have hclear : ∀ k, k < out_ctx.num_points → acc_clear c k = acc_clear out_ctx k := by
    intro k hk
    unfold acc_clear
    rw [e4, if_pos hk, if_pos hk]
  unfold print_acc at hacc ⊢
  rw [e5]
  by_cases hmax : out_ctx.group_func = OUTPUT_MAX_GROUPING_FUNC
  · rw [if_pos hmax, acc_loop_spec out_ctx values _ hmap] at hacc
    rw [if_pos hmax, acc_loop_spec c values _ hmapc]
    have hacc1 := Option.some.inj hacc
    refine ⟨_, rfl, ?_⟩
    intro k hk
    rw [← hacc1, hcontr k, hclear k hk]
  · by_cases havg : out_ctx.group_func = OUTPUT_AVG_GROUPING_FUNC
    · rw [if_neg hmax, if_pos havg, acc_loop_spec out_ctx values _ hmap,
        Option.map_some'] at hacc
      rw [if_neg hmax, if_pos havg, acc_loop_spec c values _ hmapc, Option.map_some']
      have hacc1 := Option.some.inj hacc
      refine ⟨_, rfl, ?_⟩
      intro k hk
      rw [← hacc1, e4, e6]
      beta_reduce
      rw [hcontr k, hclear k hk]
    · rw [if_neg hmax, if_neg havg, acc_loop_spec out_ctx values _ hmap] at hacc
      rw [if_neg hmax, if_neg havg, acc_loop_spec c values _ hmapc]
      have hacc1 := Option.some.inj hacc
      refine ⟨_, rfl, ?_⟩
      intro k hk
      rw [← hacc1, hcontr k, hclear k hk]

/-- One call of `output_print` on a later context of a run of frames (a context that
differs from the first one in what `output_print` writes), whose columns with a
contributing index hold `acc * (1 - p)`. -/
theorem print_frame_step (env : libm) (c out_ctx : output_context) (values acc : Nat → ℚ)
    (a b m M p : ℚ)
    (hcfg : config_of c = config_of out_ctx)
    (hsm : out_ctx.smoothing = OUTPUT_EXP2_SMOOTH)
    (ha0 : 0 ≤ a) (hp0 : 0 ≤ p) (hp1 : p ≤ 1)
    (hva : out_ctx.smoothing_new_value_factor = a)
    (hvo : out_ctx.smoothing_old_value_factor = 1 - a)
    (hla : out_ctx.smoothing_new_limit_factor = b)
    (hlo : out_ctx.smoothing_old_limit_factor = 1 - b)
    (hlog : log_transform out_ctx = false)
    (hmap : ∀ i, out_ctx.min_data_index ≤ i → i ≤ out_ctx.max_data_index →
      ∃ k, out_ctx.data_buffer_index_to_acc_buffer_index i = some k)
    (hok : charset_ok out_ctx)
    (hsz : out_ctx.num_points + out_ctx.visualization_points_per_char ≤ 4294967296)
    (hacc0 : print_acc out_ctx values = some acc)
    (hacc : ∀ i, i < out_ctx.num_points → out_ctx.acc_buffer_data_count i ≠ 0 → 0 ≤ acc i)
    (hm : ∃ i, i < out_ctx.num_points ∧ out_ctx.acc_buffer_data_count i ≠ 0 ∧ acc i = m)
    (hm1 : ∀ i, i < out_ctx.num_points → out_ctx.acc_buffer_data_count i ≠ 0 → m ≤ acc i)
    (hM : ∃ i, i < out_ctx.num_points ∧ out_ctx.acc_buffer_data_count i ≠ 0 ∧ acc i = M)
    (hM1 : ∀ i, i < out_ctx.num_points → out_ctx.acc_buffer_data_count i ≠ 0 → acc i ≤ M)
    (hval : ∀ i, i < out_ctx.num_points → out_ctx.acc_buffer_data_count i ≠ 0 →
      c.smooth_buffer i = acc i * (1 - p)) :
    ∃ r, output_print env c values = some r
      ∧ config_of r.1 = config_of out_ctx
      ∧ (∀ i, i < out_ctx.num_points → out_ctx.acc_buffer_data_count i ≠ 0 →
          r.1.smooth_buffer i = acc i * (1 - p * (1 - a)))
      ∧ r.1.smoothing_min_limit
          = c.smoothing_min_limit * (1 - b) + m * (1 - p * (1 - a)) * b
      ∧ r.1.smoothing_max_limit
          = c.smoothing_max_limit * (1 - b) + M * (1 - p * (1 - a)) * b := by
  have e4 : c.num_points = out_ctx.num_points := by
    have h := congrArg (fun x : output_context => x.num_points) hcfg
    exact h
  have e7 : c.acc_buffer_data_count = out_ctx.acc_buffer_data_count := by
    have h := congrArg (fun x : output_context => x.acc_buffer_data_count) hcfg
    exact h
  have e8 : c.smoothing = out_ctx.smoothing := by
    have h := congrArg (fun x : output_context => x.smoothing) hcfg
    exact h
  have e9 : c.smoothing_new_value_factor = out_ctx.smoothing_new_value_factor := by
    have h := congrArg (fun x : output_context => x.smoothing_new_value_factor) hcfg
    exact h
  have e10 : c.smoothing_old_value_factor = out_ctx.smoothing_old_value_factor := by
    have h := congrArg (fun x : output_context => x.smoothing_old_value_factor) hcfg
    exact h
  have e11 : c.smoothing_new_limit_factor = out_ctx.smoothing_new_limit_factor := by
    have h := congrArg (fun x : output_context => x.smoothing_new_limit_factor) hcfg
    exact h
  have e12 : c.smoothing_old_limit_factor = out_ctx.smoothing_old_limit_factor := by
    have h := congrArg (fun x : output_context => x.smoothing_old_limit_factor) hcfg
    exact h
  have e13 : c.transform_flags = out_ctx.transform_flags := by
    have h := congrArg (fun x : output_context => x.transform_flags) hcfg
    exact h
  have e14 : c.visualization_levels = out_ctx.visualization_levels := by
    have h := congrArg (fun x : output_context => x.visualization_levels) hcfg
    exact h
  have e15 : c.visualization_points_per_char = out_ctx.visualization_points_per_char := by
    have h := congrArg (fun x : output_context => x.visualization_points_per_char) hcfg
    exact h
  have e16 : c.visualization_str = out_ctx.visualization_str := by
    have h := congrArg (fun x : output_context => x.visualization_str) hcfg
    exact h
  have htr : print_transform env c values = values := by
    have hlogc : log_transform c = false := by
      unfold log_transform at hlog ⊢
      rw [e13]
      exact hlog
    unfold print_transform
    rw [hlogc]
    rfl
  obtain ⟨acc1, hacc1, hbelow⟩ := print_acc_below c out_ctx values hcfg hmap acc hacc0
  obtain ⟨im, him, hpm, hvm⟩ := hm
  obtain ⟨iM, hiM, hpM, hvM⟩ := hM
  obtain ⟨sm, hps, hctx, hv, hmin, hmax⟩ := smooth_frame_step c acc1 a m M p
    (by rw [e8]; exact hsm) ha0 hp0 hp1 (by rw [e9]; exact hva) (by rw [e10]; exact hvo)
    (by
      rw [e4, e7]
      intro i hlt hpi
      rw [hbelow i hlt]
      exact hacc i hlt hpi)
    (by
      rw [e4, e7]
      exact ⟨im, him, hpm, by rw [hbelow im him]; exact hvm⟩)
    (by
      rw [e4, e7]
      intro i hlt hpi
      rw [hbelow i hlt]
      exact hm1 i hlt hpi)
    (by
      rw [e4, e7]
      exact ⟨iM, hiM, hpM, by rw [hbelow iM hiM]; exact hvM⟩)
    (by
      rw [e4, e7]
      intro i hlt hpi
      rw [hbelow i hlt]
      exact hM1 i hlt hpi)
    (by
      rw [e4, e7]
      intro i hlt hpi
      rw [hbelow i hlt]
      exact hval i hlt hpi)
  have hst : print_stages env c values = some sm := by
    unfold print_stages
    rw [htr, hacc1, Option.some_bind]
    exact hps
  obtain ⟨hn, hl, hpc, hs, _⟩ := print_stages_frame _ _ _ _ hst
  have hok1 : charset_ok sm.out_ctx := by
    unfold charset_ok
    rw [hl, hpc, hs, e14, e15, e16]
    exact hok
  obtain ⟨wchar_buffer, hscale, _⟩ := print_scale_spec env sm.out_ctx sm.smooth_buffer
    sm.min sm.max hok1 (by rw [hn, e4]; omega)
    (by rw [hn, hpc, e4, e15]; exact hsz)
  refine ⟨({ sm.out_ctx with wchar_buffer := wchar_buffer },
    print_transform env c values), ?_, ?_, ?_, ?_, ?_⟩
  · simp [output_print, hst, hscale]
  · show config_of { sm.out_ctx with wchar_buffer := wchar_buffer } = _
    rw [hctx]
    exact hcfg
  · intro i hlt hpi
    show sm.out_ctx.smooth_buffer i = _
    rw [hctx]
    show sm.smooth_buffer i = _
    rw [hv i (by rw [e4]; exact hlt) (by rw [e7]; exact hpi), hbelow i hlt]
  · show sm.out_ctx.smoothing_min_limit = _
    rw [hctx]
    show sm.min = _
    rw [hmin, e11, e12, hla, hlo]
  · show sm.out_ctx.smoothing_max_limit = _
    rw [hctx]
    show sm.max = _
    rw [hmax, e11, e12, hla, hlo]

/-- The contexts after `n` calls of `output_print` on the same array, with exponential
smoothing and no value transform, from a smoothed buffer and limits at 0: a column with a
contributing index holds `acc * (1 - (1 - a) ^ n)`, and the limits are `limit_seq`. -/
theorem print_frames_spec (env : libm) (out_ctx : output_context) (values acc : Nat → ℚ)
    (a b m M : ℚ)
    (hsm : out_ctx.smoothing = OUTPUT_EXP2_SMOOTH)
    (ha0 : 0 ≤ a) (ha1 : a ≤ 1)
    (hva : out_ctx.smoothing_new_value_factor = a)
    (hvo : out_ctx.smoothing_old_value_factor = 1 - a)
    (hla : out_ctx.smoothing_new_limit_factor = b)
    (hlo : out_ctx.smoothing_old_limit_factor = 1 - b)
    (hzero : ∀ i, i < out_ctx.num_points → out_ctx.acc_buffer_data_count i ≠ 0 →
      out_ctx.smooth_buffer i = 0)
    (hmin0 : out_ctx.smoothing_min_limit = 0) (hmax0 : out_ctx.smoothing_max_limit = 0)
    (hlog : log_transform out_ctx = false)
    (hmap : ∀ i, out_ctx.min_data_index ≤ i → i ≤ out_ctx.max_data_index →
      ∃ k, out_ctx.data_buffer_index_to_acc_buffer_index i = some k)
    (hok : charset_ok out_ctx)
    (hsz : out_ctx.num_points + out_ctx.visualization_points_per_char ≤ 4294967296)
    (hacc0 : print_acc out_ctx values = some acc)
    (hacc : ∀ i, i < out_ctx.num_points → out_ctx.acc_buffer_data_count i ≠ 0 → 0 ≤ acc i)
    (hm : ∃ i, i < out_ctx.num_points ∧ out_ctx.acc_buffer_data_count i ≠ 0 ∧ acc i = m)
    (hm1 : ∀ i, i < out_ctx.num_points → out_ctx.acc_buffer_data_count i ≠ 0 → m ≤ acc i)
    (hM : ∃ i, i < out_ctx.num_points ∧ out_ctx.acc_buffer_data_count i ≠ 0 ∧ acc i = M)
    (hM1 : ∀ i, i < out_ctx.num_points → out_ctx.acc_buffer_data_count i ≠ 0 →
      acc i ≤ M) :
    ∀ n, ∃ c, print_frames env out_ctx values n = some c
      ∧ config_of c = config_of out_ctx
      ∧ (∀ i, i < out_ctx.num_points → out_ctx.acc_buffer_data_count i ≠ 0 →
          c.smooth_buffer i = acc i * (1 - (1 - a) ^ n))
      ∧ c.smoothing_min_limit = limit_seq b (1 - a) m n
      ∧ c.smoothing_max_limit = limit_seq b (1 - a) M n := by
  intro n
  induction n with
  | zero =>
    refine ⟨out_ctx, rfl, rfl, ?_, hmin0, hmax0⟩
    intro i hlt hpi
    rw [hzero i hlt hpi, pow_zero, sub_self, mul_zero]
  | succ n ih =>
    obtain ⟨c, hc, hcfg, h8, h9, h10⟩ := ih
    have hr0 : 0 ≤ 1 - a := by linarith
    have hr1 : 1 - a ≤ 1 := by linarith
    obtain ⟨r, hr, hcfg1, hv, hmin, hmax⟩ := print_frame_step env c out_ctx values acc a b
      m M ((1 - a) ^ n) hcfg hsm ha0 (pow_nonneg hr0 n) (pow_le_one₀ hr0 hr1) hva hvo hla
      hlo hlog hmap hok hsz hacc0 hacc hm hm1 hM hM1 h8
    have hpow : (1 - a) ^ n * (1 - a) = (1 - a) ^ (n + 1) := (pow_succ _ _).symm
    rw [hpow] at hv hmin hmax
    refine ⟨r.1, ?_, hcfg1, hv, ?_, ?_⟩
    · simp only [print_frames, hc, Option.some_bind, hr, Option.map_some']
    · rw [hmin, h9]
      rfl
    · rw [hmax, h10]
      rfl

theorem limit_seq_zero (r m : ℚ) : ∀ n, limit_seq 0 r m n = 0 := by
  intro n
  induction n with
  | zero => rfl
  | succ n ih =>
    rw [limit_seq, ih]
    ring

/-- The limit sequence converges to `m` when the new-limit factor is in `(0, 1]` and the
ratio `r` in `[0, 1)`. -/
theorem limit_seq_converges (b r m : ℚ) (hb0 : 0 < b) (hb1 : b ≤ 1) (hr0 : 0 ≤ r)
    (hr1 : r < 1) (hm : 0 ≤ m) :
    ∀ ε : ℚ, 0 < ε → ∃ N, ∀ n, N ≤ n → |limit_seq b r m n - m| < ε := by
  have hq0 : 0 ≤ 1 - b := by linarith
  have hq1 : 1 - b < 1 := by linarith
  have hstep : ∀ n, m - limit_seq b r m (n + 1)
      = (1 - b) * (m - limit_seq b r m n) + b * m * r ^ (n + 1) := by
    intro n
    rw [limit_seq]
    ring
  have hbound : ∀ n, 0 ≤ m - limit_seq b r m n ∧ m - limit_seq b r m n ≤ m := by
    intro n
    induction n with
    | zero =>
      rw [limit_seq]
      constructor <;> linarith
    | succ n ih =>
      rw [hstep]
      have h1 : 0 ≤ r ^ (n + 1) := pow_nonneg hr0 _
      have h2 : r ^ (n + 1) ≤ 1 := pow_le_one₀ hr0 (le_of_lt hr1)
      have h3 : 0 ≤ b * m := mul_nonneg (le_of_lt hb0) hm
      constructor
      · exact add_nonneg (mul_nonneg hq0 ih.1) (mul_nonneg h3 h1)
      · have h4 : (1 - b) * (m - limit_seq b r m n) ≤ (1 - b) * m :=
          mul_le_mul_of_nonneg_left ih.2 hq0
        have h5 : b * m * r ^ (n + 1) ≤ b * m * 1 := mul_le_mul_of_nonneg_left h2 h3
        linarith
  have htail : ∀ N k, m - limit_seq b r m (N + k) ≤ m * (r ^ N + (1 - b) ^ k) := by
    intro N k
    induction k with
    | zero =>
      have h1 : 0 ≤ r ^ N := pow_nonneg hr0 _
      have h2 := (hbound N).2
      rw [Nat.add_zero, pow_zero]
      nlinarith [mul_nonneg hm h1]
    | succ k ih =>
      rw [← Nat.add_assoc, hstep]
      have h1 : r ^ (N + k + 1) ≤ r ^ N :=
        pow_le_pow_of_le_one hr0 (le_of_lt hr1) (by omega)
      have h3 : 0 ≤ b * m := mul_nonneg (le_of_lt hb0) hm
      have h4 : (1 - b) * (m - limit_seq b r m (N + k))
          ≤ (1 - b) * (m * (r ^ N + (1 - b) ^ k)) := mul_le_mul_of_nonneg_left ih hq0
      have h5 : b * m * r ^ (N + k + 1) ≤ b * m * r ^ N := mul_le_mul_of_nonneg_left h1 h3
      have h6 : (1 - b) * (m * (r ^ N + (1 - b) ^ k)) + b * m * r ^ N
          = m * (r ^ N + (1 - b) ^ (k + 1)) := by
        rw [pow_succ]
        ring
      linarith
  intro ε hε
  have hm1 : 0 < m + 1 := by linarith
  have hδ : 0 < ε / (2 * (m + 1)) := div_pos hε (by linarith)
  obtain ⟨N, hN⟩ := exists_pow_lt_of_lt_one hδ hr1
  obtain ⟨K, hK⟩ := exists_pow_lt_of_lt_one hδ hq1
  refine ⟨N + K, ?_⟩
  intro n hn
  obtain ⟨k, rfl⟩ : ∃ k, n = N + k := ⟨n - N, by omega⟩
  have hkK : (1 - b) ^ k ≤ (1 - b) ^ K :=
    pow_le_pow_of_le_one hq0 (le_of_lt hq1) (by omega)
  have h1 := htail N k
  have h2 := (hbound (N + k)).1
  have h3 : r ^ N + (1 - b) ^ k < ε / (m + 1) := by
    have : ε / (m + 1) = ε / (2 * (m + 1)) + ε / (2 * (m + 1)) := by
      field_simp
      ring
    rw [this]
    linarith
  have h4 : m * (r ^ N + (1 - b) ^ k) ≤ m * (ε / (m + 1)) :=
    mul_le_mul_of_nonneg_left (le_of_lt h3) hm
  have h5 : m * (ε / (m + 1)) < ε := by
    rw [mul_div_assoc', div_lt_iff₀ hm1]
    nlinarith
  rw [abs_sub_comm, abs_of_nonneg h2]
  linarith

/-- The accumulation stage on the values 0, 2, 4, 6, 8, for a context with the binning
tables, the reducer and the accumulation buffer of the scenario. -/
theorem scenario_acc_spec (out_ctx : output_context)
    (h1 : out_ctx.data_buffer_index_to_acc_buffer_index
      = scenario_ctx.data_buffer_index_to_acc_buffer_index)
    (h2 : out_ctx.min_data_index = scenario_ctx.min_data_index)
    (h3 : out_ctx.max_data_index = scenario_ctx.max_data_index)
    (h4 : out_ctx.num_points = scenario_ctx.num_points)
    (h5 : out_ctx.group_func = OUTPUT_MAX_GROUPING_FUNC)
    (h6 : out_ctx.acc_buffer = scenario_ctx.acc_buffer) :
    (∀ i, out_ctx.min_data_index ≤ i → i ≤ out_ctx.max_data_index →
      ∃ k, out_ctx.data_buffer_index_to_acc_buffer_index i = some k)
    ∧ print_acc out_ctx (array_of [0, 2, 4, 6, 8]) = some scenario_acc := by
  have hbins : bins_ok scenario_ctx := by
    refine output_init_bins_ok _ _ _ _ _ _ _ _ _ _ _ _ (by decide) (by decide) (by decide)
      (fun h => by cases h) ?_
    intro j hj i hi
    have hF : init_data_frequency example_env OUTPUT_NO_GROUPING OUTPUT_MAX_GROUPING_FUNC 5
        (array_of [0, 1, 2, 3, 4]) = array_of [0, 1, 2, 3, 4] := rfl
    rw [hF]
    interval_cases j <;> interval_cases i <;> norm_num [array_of]
  have hmap : ∀ i, out_ctx.min_data_index ≤ i → i ≤ out_ctx.max_data_index →
      ∃ k, out_ctx.data_buffer_index_to_acc_buffer_index i = some k := by
    rw [h1, h2, h3]
    exact hbins.1
  refine ⟨hmap, ?_⟩
  rw [print_acc, if_pos h5, acc_loop_spec out_ctx _ c_max hmap]
  have hfun : (fun c => (contributions out_ctx (array_of [0, 2, 4, 6, 8]) c).foldl c_max
      (acc_clear out_ctx c)) = scenario_acc := by
    funext c
    unfold scenario_acc contributions acc_clear
    rw [h1, h2, h3, h4, h6]
    rfl
  rw [hfun]

/-- C14 fails as stated. The context `frozen_limits_ctx` has exponential smoothing with
the new-value factor 1/2 (and the new-limit factor 0); every call of `output_print` on the
values 0, 2, 4, 6, 8 accumulates these constants into the five columns, and after every
number of calls the adaptive floor and ceiling are 0: the ceiling does not converge to the
maximum 8. -/
theorem limits_frozen :
    frozen_limits_ctx.smoothing = OUTPUT_EXP2_SMOOTH
      ∧ frozen_limits_ctx.smoothing_new_value_factor = 1 / 2
      ∧ log_transform frozen_limits_ctx = false
      ∧ (print_acc frozen_limits_ctx
          (print_transform example_env frozen_limits_ctx (array_of [0, 2, 4, 6, 8]))).map
          (fun acc => (List.range 5).map acc) = some [0, 2, 4, 6, 8]
      ∧ ∀ n, (print_frames example_env frozen_limits_ctx (array_of [0, 2, 4, 6, 8]) n).map
          (fun c => (c.smoothing_min_limit, c.smoothing_max_limit)) = some (0, 0) := by
  refine ⟨rfl, by decide!, by decide!, by decide!, ?_⟩
  intro n
  obtain ⟨hmap, hacc⟩ := scenario_acc_spec frozen_limits_ctx rfl rfl rfl rfl rfl rfl
  obtain ⟨c, hc, _, _, h9, h10⟩ :=
    print_frames_spec example_env frozen_limits_ctx (array_of [0, 2, 4, 6, 8]) scenario_acc
      (1 / 2) 0 0 8 rfl (by norm_num) (by norm_num) (by decide!) (by decide!) (by decide!)
      (by decide!) (by decide!) (by decide!) (by decide!) (by decide!) hmap
      (charset_ok_bars frozen_limits_ctx rfl rfl rfl) (by decide!) hacc (by decide!)
      ⟨0, by decide!, by decide!, by decide!⟩ (by decide!)
      ⟨4, by decide!, by decide!, by decide!⟩ (by decide!) n
  rw [hc, Option.map_some', h9, h10, limit_seq_zero, limit_seq_zero]

/-- C14, amended: the new-limit factor is in `(0, 1]` as well. With exponential smoothing,
new-value factor `a` and new-limit factor `b` in `(0, 1]` (old factors `1 - a`, `1 - b`),
no value transform, smoothed buffer and limits at 0, a glyph table set by
`output_set_charset`, complete binning tables, and an array `values` whose accumulation
`acc` is not negative on the columns with a contributing index, with minimum `m` and
maximum `M` there: every number `n` of calls of `output_print` on `values` leaves in such a
column `acc * (1 - (1 - a) ^ n)`; and for every `eps > 0` there is a number of calls from
which on every such column is within `eps` of its constant, the floor within `eps` of `m`
and the ceiling within `eps` of `M`. -/
theorem smoothing_converges (env : libm) (out_ctx : output_context) (values acc : Nat → ℚ)
    (a b m M : ℚ)
    (hsm : out_ctx.smoothing = OUTPUT_EXP2_SMOOTH)
    (ha0 : 0 < a) (ha1 : a ≤ 1) (hb0 : 0 < b) (hb1 : b ≤ 1)
    (hva : out_ctx.smoothing_new_value_factor = a)
    (hvo : out_ctx.smoothing_old_value_factor = 1 - a)
    (hla : out_ctx.smoothing_new_limit_factor = b)
    (hlo : out_ctx.smoothing_old_limit_factor = 1 - b)
    (hzero : ∀ i, i < out_ctx.num_points → out_ctx.acc_buffer_data_count i ≠ 0 →
      out_ctx.smooth_buffer i = 0)
    (hmin0 : out_ctx.smoothing_min_limit = 0) (hmax0 : out_ctx.smoothing_max_limit = 0)
    (hlog : log_transform out_ctx = false)
    (hmap : ∀ i, out_ctx.min_data_index ≤ i → i ≤ out_ctx.max_data_index →
      ∃ k, out_ctx.data_buffer_index_to_acc_buffer_index i = some k)
    (hok : charset_ok out_ctx)
    (hsz : out_ctx.num_points + out_ctx.visualization_points_per_char ≤ 4294967296)
    (hacc0 : print_acc out_ctx values = some acc)
    (hacc : ∀ i, i < out_ctx.num_points → out_ctx.acc_buffer_data_count i ≠ 0 → 0 ≤ acc i)
    (hm : ∃ i, i < out_ctx.num_points ∧ out_ctx.acc_buffer_data_count i ≠ 0 ∧ acc i = m)
    (hm1 : ∀ i, i < out_ctx.num_points → out_ctx.acc_buffer_data_count i ≠ 0 → m ≤ acc i)
    (hM : ∃ i, i < out_ctx.num_points ∧ out_ctx.acc_buffer_data_count i ≠ 0 ∧ acc i = M)
    (hM1 : ∀ i, i < out_ctx.num_points → out_ctx.acc_buffer_data_count i ≠ 0 →
      acc i ≤ M) :
    (∀ n, ∃ c, print_frames env out_ctx values n = some c
      ∧ ∀ i, i < out_ctx.num_points → out_ctx.acc_buffer_data_count i ≠ 0 →
          c.smooth_buffer i = acc i * (1 - (1 - a) ^ n))
    ∧ ∀ ε : ℚ, 0 < ε → ∃ N, ∀ n, N ≤ n →
        ∃ c, print_frames env out_ctx values n = some c
          ∧ (∀ i, i < out_ctx.num_points → out_ctx.acc_buffer_data_count i ≠ 0 →
              |c.smooth_buffer i - acc i| < ε)
          ∧ |c.smoothing_min_limit - m| < ε
          ∧ |c.smoothing_max_limit - M| < ε := by
  have hspec := print_frames_spec env out_ctx values acc a b m M hsm (le_of_lt ha0) ha1 hva
    hvo hla hlo hzero hmin0 hmax0 hlog hmap hok hsz hacc0 hacc hm hm1 hM hM1
  have hr0 : 0 ≤ 1 - a := by linarith
  have hr1 : 1 - a < 1 := by linarith
  obtain ⟨im, him, hpm, hvm⟩ := hm
  obtain ⟨iM, hiM, hpM, hvM⟩ := hM
  have hm0 : 0 ≤ m := by
    rw [← hvm]
    exact hacc im him hpm
  have hM0 : 0 ≤ M := by
    rw [← hvM]
    exact hacc iM hiM hpM
  constructor
  · intro n
    obtain ⟨c, hc, _, h8, _, _⟩ := hspec n
    exact ⟨c, hc, h8⟩
  · intro ε hε
    have hM1' : 0 < M + 1 := by linarith
    obtain ⟨N1, hN1⟩ := exists_pow_lt_of_lt_one (div_pos hε hM1') hr1
    obtain ⟨N2, hN2⟩ := limit_seq_converges b (1 - a) m hb0 hb1 hr0 hr1 hm0 ε hε
    obtain ⟨N3, hN3⟩ := limit_seq_converges b (1 - a) M hb0 hb1 hr0 hr1 hM0 ε hε
    refine ⟨N1 + N2 + N3, ?_⟩
    intro n hn
    obtain ⟨c, hc, _, h8, h9, h10⟩ := hspec n
    refine ⟨c, hc, ?_, ?_, ?_⟩
    · intro i hlt hpi
      rw [h8 i hlt hpi]
      have h1 : acc i * (1 - (1 - a) ^ n) - acc i = -(acc i * (1 - a) ^ n) := by ring
      have h2 : 0 ≤ (1 - a) ^ n := pow_nonneg hr0 _
      have h3 : (1 - a) ^ n ≤ (1 - a) ^ N1 :=
        pow_le_pow_of_le_one hr0 (le_of_lt hr1) (by omega)
      have h4 : 0 ≤ acc i := hacc i hlt hpi
      have h5 : acc i ≤ M := hM1 i hlt hpi
      rw [h1, abs_neg, abs_of_nonneg (mul_nonneg h4 h2)]
      have h6 : acc i * (1 - a) ^ n ≤ M * (ε / (M + 1)) := by
        apply mul_le_mul h5 (le_of_lt (lt_of_le_of_lt h3 hN1)) h2 hM0
      have h7 : M * (ε / (M + 1)) < ε := by
        rw [mul_div_assoc', div_lt_iff₀ hM1']
        nlinarith
      linarith
    · rw [h9]
      exact hN2 n (by omega)
    · rw [h10]
      exact hN3 n (by omega)

/-- C14, amended, on the context of the scenario with exponential smoothing (both factors
1/2) and calls of `output_print` on the values 0, 2, 4, 6, 8. After three calls the
columns hold 7/8 of their constants, the floor is 0 and the ceiling 11/2. -/
theorem smoothing_converges_witness :
    ((∀ n, ∃ c, print_frames example_env smooth_ctx (array_of [0, 2, 4, 6, 8]) n = some c
      ∧ ∀ i, i < smooth_ctx.num_points → smooth_ctx.acc_buffer_data_count i ≠ 0 →
          c.smooth_buffer i = scenario_acc i * (1 - (1 - (1 / 2 : ℚ)) ^ n))
    ∧ ∀ ε : ℚ, 0 < ε → ∃ N, ∀ n, N ≤ n →
        ∃ c, print_frames example_env smooth_ctx (array_of [0, 2, 4, 6, 8]) n = some c
          ∧ (∀ i, i < smooth_ctx.num_points → smooth_ctx.acc_buffer_data_count i ≠ 0 →
              |c.smooth_buffer i - scenario_acc i| < ε)
          ∧ |c.smoothing_min_limit - 0| < ε
          ∧ |c.smoothing_max_limit - 8| < ε)
    ∧ (List.range 5).map scenario_acc = [0, 2, 4, 6, 8]
    ∧ (print_frames example_env smooth_ctx (array_of [0, 2, 4, 6, 8]) 3).map
        (fun c => ((List.range 5).map c.smooth_buffer, c.smoothing_min_limit,
          c.smoothing_max_limit))
        = some ([0, 7 / 4, 7 / 2, 21 / 4, 7], 0, 11 / 2) :=
  ⟨smoothing_converges example_env smooth_ctx (array_of [0, 2, 4, 6, 8]) scenario_acc
      (1 / 2) (1 / 2) 0 8 rfl (by norm_num) (by norm_num) (by norm_num) (by norm_num)
      (by decide!) (by decide!) (by decide!) (by decide!) (by decide!) (by decide!)
      (by decide!) (by decide!) (scenario_acc_spec smooth_ctx rfl rfl rfl rfl rfl rfl).1
      (charset_ok_bars smooth_ctx rfl rfl rfl) (by decide!)
      (scenario_acc_spec smooth_ctx rfl rfl rfl rfl rfl rfl).2
      (by decide!) ⟨0, by decide!, by decide!, by decide!⟩ (by decide!)
      ⟨4, by decide!, by decide!, by decide!⟩ (by decide!),
    by decide!, by decide!⟩

/-! ## Successive calls of output_print -/

theorem print_acc_some (c : output_context) (values : Nat → ℚ)
    (hmap : ∀ i, c.min_data_index ≤ i → i ≤ c.max_data_index →
      ∃ k, c.data_buffer_index_to_acc_buffer_index i = some k) :
    ∃ acc, print_acc c values = some acc := by
  unfold print_acc
  by_cases hmax : c.group_func = OUTPUT_MAX_GROUPING_FUNC
  · rw [if_pos hmax, acc_loop_spec c values _ hmap]
    exact ⟨_, rfl⟩
  · by_cases havg : c.group_func = OUTPUT_AVG_GROUPING_FUNC
    · rw [if_neg hmax, if_pos havg, acc_loop_spec c values _ hmap, Option.map_some']
      exact ⟨_, rfl⟩
    · rw [if_neg hmax, if_neg havg, acc_loop_spec c values _ hmap]
      exact ⟨_, rfl⟩

/-- A call of `output_print` on a context `c` that differs from `out_ctx` in what
`output_print` writes only, where `out_ctx` has complete binning tables, a glyph table set
by `output_set_charset`, at least one column, and a column with a contributing index when
smoothing is exponential: the call returns, the caller's array is what stage TRANSFORM
leaves, and the context still differs from `out_ctx` in what `output_print` writes only. -/
theorem output_print_returns (env : libm) (c out_ctx : output_context) (values : Nat → ℚ)
    (hcfg : config_of c = config_of out_ctx)
    (hmap : ∀ i, out_ctx.min_data_index ≤ i → i ≤ out_ctx.max_data_index →
      ∃ k, out_ctx.data_buffer_index_to_acc_buffer_index i = some k)
    (hok : charset_ok out_ctx) (hnp : 1 ≤ out_ctx.num_points)
    (hsz : out_ctx.num_points + out_ctx.visualization_points_per_char ≤ 4294967296)
    (hpop : out_ctx.smoothing = OUTPUT_EXP2_SMOOTH →
      ∃ i, i < out_ctx.num_points ∧ out_ctx.acc_buffer_data_count i ≠ 0) :
    ∃ r sm acc,
      print_acc c (print_transform env c values) = some acc
      ∧ print_smooth { c with acc_buffer := acc } acc = some sm
      ∧ output_print env c values = some r
      ∧ r.1 = { sm.out_ctx with wchar_buffer := r.1.wchar_buffer }
      ∧ r.2 = print_transform env c values
      ∧ config_of r.1 = config_of out_ctx := by
  have e1 : c.data_buffer_index_to_acc_buffer_index
      = out_ctx.data_buffer_index_to_acc_buffer_index := by
    have h := congrArg (fun x : output_context => x.data_buffer_index_to_acc_buffer_index) hcfg
    exact h
  have e2 : c.min_data_index = out_ctx.min_data_index := by
    have h := congrArg (fun x : output_context => x.min_data_index) hcfg
    exact h
  have e3 : c.max_data_index = out_ctx.max_data_index := by
    have h := congrArg (fun x : output_context => x.max_data_index) hcfg
    exact h
  have e4 : c.num_points = out_ctx.num_points := by
    have h := congrArg (fun x : output_context => x.num_points) hcfg
    exact h
  have e7 : c.acc_buffer_data_count = out_ctx.acc_buffer_data_count := by
    have h := congrArg (fun x : output_context => x.acc_buffer_data_count) hcfg
    exact h
  have e8 : c.smoothing = out_ctx.smoothing := by
    have h := congrArg (fun x : output_context => x.smoothing) hcfg
    exact h
  have e14 : c.visualization_levels = out_ctx.visualization_levels := by
    have h := congrArg (fun x : output_context => x.visualization_levels) hcfg
    exact h
  have e15 : c.visualization_points_per_char = out_ctx.visualization_points_per_char := by
    have h := congrArg (fun x : output_context => x.visualization_points_per_char) hcfg
    exact h
  have e16 : c.visualization_str = out_ctx.visualization_str := by
    have h := congrArg (fun x : output_context => x.visualization_str) hcfg
    exact h
  have hmapc : ∀ i, c.min_data_index ≤ i → i ≤ c.max_data_index →
      ∃ k, c.data_buffer_index_to_acc_buffer_index i = some k := by
    rw [e1, e2, e3]
    exact hmap
  obtain ⟨acc, hacc⟩ := print_acc_some c (print_transform env c values) hmapc
  have hsmooth : ∃ sm, print_smooth { c with acc_buffer := acc } acc = some sm
      ∧ config_of sm.out_ctx = config_of c := by
    by_cases hs : c.smoothing = OUTPUT_EXP2_SMOOTH
    · obtain ⟨sm, _, _, hps, hctx, _⟩ :=
        print_smooth_spec { c with acc_buffer := acc } acc hs
          (by
            show ∃ i, i < c.num_points ∧ c.acc_buffer_data_count i ≠ 0
            rw [e4, e7]
            exact hpop (by rw [← e8]; exact hs))
      refine ⟨sm, hps, ?_⟩
      rw [hctx]
      rfl
    · have hs1 : ¬ ({ c with acc_buffer := acc } : output_context).smoothing
          = OUTPUT_EXP2_SMOOTH := hs
      refine ⟨_, by rw [print_smooth, if_neg hs1], rfl⟩
  obtain ⟨sm, hps, hcfgsm⟩ := hsmooth
  have hst : print_stages env c values = some sm := by
    unfold print_stages
    rw [hacc, Option.some_bind]
    exact hps
  obtain ⟨hn, hl, hpc, hs, _⟩ := print_stages_frame _ _ _ _ hst
  have hok1 : charset_ok sm.out_ctx := by
    unfold charset_ok
    rw [hl, hpc, hs, e14, e15, e16]
    exact hok
  obtain ⟨wchar_buffer, hscale, _⟩ := print_scale_spec env sm.out_ctx sm.smooth_buffer
    sm.min sm.max hok1 (by rw [hn, e4]; exact hnp)
    (by rw [hn, hpc, e4, e15]; exact hsz)
  refine ⟨({ sm.out_ctx with wchar_buffer := wchar_buffer },
    print_transform env c values), sm, acc, hacc, hps, ?_, rfl, rfl, ?_⟩
  · simp [output_print, hst, hscale]
  · show config_of { sm.out_ctx with wchar_buffer := wchar_buffer } = _
    rw [← hcfg, ← hcfgsm]
    rfl

theorem log_values_ctx_bins_ok : bins_ok log_values_ctx := by
  refine output_init_bins_ok _ _ _ _ _ _ _ _ _ _ _ _ (by decide) (by decide) (by decide)
    (fun h => by cases h) ?_
  intro j hj i hi
  have hF : init_data_frequency ln_env OUTPUT_NO_GROUPING OUTPUT_MAX_GROUPING_FUNC 5
      (array_of [0, 1, 2, 3, 4]) = array_of [0, 1, 2, 3, 4] := rfl
  rw [hF]
  interval_cases j <;> interval_cases i <;> norm_num [array_of]

/-! ## C21 -/

/-- C21. For a context with complete binning tables (those `output_init` builds), a glyph
table set by `output_set_charset`, at least one column, and a column with a contributing
index when smoothing is exponential, `output_print` returns, and so does a second call on
the context and the array the first one leaves. Without the logarithmic value transform the
caller's array is unchanged by the first call and by the second. With it, the first call
replaces exactly the entries at the indices of `min_data_index .. max_data_index` by their
logarithms, and the second call leaves there the logarithms of the logarithms; every other
entry is unchanged. -/
theorem values_after_print (env : libm) (out_ctx : output_context) (values : Nat → ℚ)
    (hmap : ∀ i, out_ctx.min_data_index ≤ i → i ≤ out_ctx.max_data_index →
      ∃ k, out_ctx.data_buffer_index_to_acc_buffer_index i = some k)
    (hok : charset_ok out_ctx) (hnp : 1 ≤ out_ctx.num_points)
    (hsz : out_ctx.num_points + out_ctx.visualization_points_per_char ≤ 4294967296)
    (hpop : out_ctx.smoothing = OUTPUT_EXP2_SMOOTH →
      ∃ i, i < out_ctx.num_points ∧ out_ctx.acc_buffer_data_count i ≠ 0) :
    ∃ r r2, output_print env out_ctx values = some r
      ∧ output_print env r.1 r.2 = some r2
      ∧ (log_transform out_ctx = false → r.2 = values ∧ r2.2 = values)
      ∧ (log_transform out_ctx = true →
          ∀ i, r.2 i
              = (if out_ctx.min_data_index ≤ i ∧ i ≤ out_ctx.max_data_index then
                  env.log (values i)
                else values i)
            ∧ r2.2 i
              = (if out_ctx.min_data_index ≤ i ∧ i ≤ out_ctx.max_data_index then
                  env.log (env.log (values i))
                else values i)) := by
  obtain ⟨r, _, _, _, _, hr, _, hr2, hcfg⟩ :=
    output_print_returns env out_ctx out_ctx values rfl hmap hok hnp hsz hpop
  obtain ⟨r2, _, _, _, _, hr', _, hr2', _⟩ :=
    output_print_returns env r.1 out_ctx r.2 hcfg hmap hok hnp hsz hpop
  have e2 : r.1.min_data_index = out_ctx.min_data_index := by
    have h := congrArg (fun x : output_context => x.min_data_index) hcfg
    exact h
  have e3 : r.1.max_data_index = out_ctx.max_data_index := by
    have h := congrArg (fun x : output_context => x.max_data_index) hcfg
    exact h
  have e13 : r.1.transform_flags = out_ctx.transform_flags := by
    have h := congrArg (fun x : output_context => x.transform_flags) hcfg
    exact h
  have hlog1 : log_transform r.1 = log_transform out_ctx := by
    unfold log_transform
    rw [e13]
  refine ⟨r, r2, hr, hr', ?_, ?_⟩
  · intro hoff
    have h1 : r.2 = values := by
      rw [hr2]
      unfold print_transform
      rw [hoff]
      rfl
    refine ⟨h1, ?_⟩
    rw [hr2', h1]
    unfold print_transform
    rw [hlog1, hoff]
    rfl
  · intro hon i
    have h1 : r.2 i = (if out_ctx.min_data_index ≤ i ∧ i ≤ out_ctx.max_data_index then
        env.log (values i) else values i) := by
      rw [hr2]
      unfold print_transform
      rw [hon]
      rfl
    refine ⟨h1, ?_⟩
    rw [hr2']
    unfold print_transform
    rw [hlog1, hon, e2, e3]
    show (if out_ctx.min_data_index ≤ i ∧ i ≤ out_ctx.max_data_index then
        env.log (r.2 i) else r.2 i) = _
    rw [h1]
    by_cases hin : out_ctx.min_data_index ≤ i ∧ i ≤ out_ctx.max_data_index
    · rw [if_pos hin, if_pos hin, if_pos hin]
    · rw [if_neg hin, if_neg hin, if_neg hin]

/-- C21 on the context `log_values_ctx` (logarithmic value transform, indices 1 to 3 in
range) and the array 4, 8, 4, 8, 4: the first call leaves 4, 2.08, 1.39, 2.08, 4 and the
second 4, 0.73, 0.33, 0.73, 4. -/
theorem values_after_print_witness :
    (∃ r r2, output_print ln_env log_values_ctx (array_of [4, 8, 4, 8, 4]) = some r
      ∧ output_print ln_env r.1 r.2 = some r2
      ∧ (log_transform log_values_ctx = false →
          r.2 = array_of [4, 8, 4, 8, 4] ∧ r2.2 = array_of [4, 8, 4, 8, 4])
      ∧ (log_transform log_values_ctx = true →
          ∀ i, r.2 i
              = (if log_values_ctx.min_data_index ≤ i ∧ i ≤ log_values_ctx.max_data_index
                then ln_env.log (array_of [4, 8, 4, 8, 4] i)
                else array_of [4, 8, 4, 8, 4] i)
            ∧ r2.2 i
              = (if log_values_ctx.min_data_index ≤ i ∧ i ≤ log_values_ctx.max_data_index
                then ln_env.log (ln_env.log (array_of [4, 8, 4, 8, 4] i))
                else array_of [4, 8, 4, 8, 4] i)))
    ∧ log_transform log_values_ctx = true
    ∧ (output_print ln_env log_values_ctx (array_of [4, 8, 4, 8, 4])).map
        (fun r => (List.range 5).map r.2)
        = some [4, 208 / 100, 139 / 100, 208 / 100, 4]
    ∧ ((output_print ln_env log_values_ctx (array_of [4, 8, 4, 8, 4])).bind
        fun r => output_print ln_env r.1 r.2).map (fun r2 => (List.range 5).map r2.2)
        = some [4, 73 / 100, 33 / 100, 73 / 100, 4]
    ∧ (output_print example_env scenario_ctx (array_of [0, 2, 4, 6, 8])).map
        (fun r => (List.range 5).map r.2) = some [0, 2, 4, 6, 8] :=
  ⟨values_after_print ln_env log_values_ctx (array_of [4, 8, 4, 8, 4])
      log_values_ctx_bins_ok.1 (charset_ok_bars log_values_ctx rfl rfl rfl) (by decide)
      (by decide) (fun h => absurd h (by decide)),
    by decide, by decide!, by decide!, by decide!⟩

/-! ## C22 -/

/-- The factors `output_set_smoothing_factors` stores are in `[0, 1]`, and each old factor
is 1 minus the new one. -/
theorem smoothing_factors_range (out_ctx : output_context) (v l : ℚ) :
    0 ≤ (output_set_smoothing_factors out_ctx v l).smoothing_new_value_factor
      ∧ (output_set_smoothing_factors out_ctx v l).smoothing_new_value_factor ≤ 1
      ∧ (output_set_smoothing_factors out_ctx v l).smoothing_old_value_factor
          = 1 - (output_set_smoothing_factors out_ctx v l).smoothing_new_value_factor
      ∧ 0 ≤ (output_set_smoothing_factors out_ctx v l).smoothing_new_limit_factor
      ∧ (output_set_smoothing_factors out_ctx v l).smoothing_new_limit_factor ≤ 1
      ∧ (output_set_smoothing_factors out_ctx v l).smoothing_old_limit_factor
          = 1 - (output_set_smoothing_factors out_ctx v l).smoothing_new_limit_factor := by
  have hclamp : ∀ x : ℚ, 0 ≤ c_max (c_min x 1) 0 ∧ c_max (c_min x 1) 0 ≤ 1 := by
    intro x
    rw [c_max_eq_max, c_min_eq_min]
    exact ⟨le_max_right _ _, max_le (min_le_right _ _) zero_le_one⟩
  exact ⟨(hclamp v).1, (hclamp v).2, rfl, (hclamp l).1, (hclamp l).2, rfl⟩

/-- One call of `output_print` with exponential smoothing and limit factors that are not
negative keeps the invariant of the smoothing state. -/
theorem print_step_smooth_ok (env : libm) (c out_ctx : output_context) (values : Nat → ℚ)
    (hcfg : config_of c = config_of out_ctx)
    (hsm : out_ctx.smoothing = OUTPUT_EXP2_SMOOTH)
    (hnl : 0 ≤ out_ctx.smoothing_new_limit_factor)
    (hol : 0 ≤ out_ctx.smoothing_old_limit_factor)
    (hpop : ∃ i, i < out_ctx.num_points ∧ out_ctx.acc_buffer_data_count i ≠ 0)
    (hmap : ∀ i, out_ctx.min_data_index ≤ i → i ≤ out_ctx.max_data_index →
      ∃ k, out_ctx.data_buffer_index_to_acc_buffer_index i = some k)
    (hok : charset_ok out_ctx)
    (hsz : out_ctx.num_points + out_ctx.visualization_points_per_char ≤ 4294967296)
    (hinv : smooth_ok c) :
    ∃ r, output_print env c values = some r
      ∧ config_of r.1 = config_of out_ctx
      ∧ smooth_ok r.1 := by
  have hnp : 1 ≤ out_ctx.num_points := by
    obtain ⟨i, hi, _⟩ := hpop
    omega
  obtain ⟨r, sm, acc, _, hps, hr, hr1, _, hcfg1⟩ :=
    output_print_returns env c out_ctx values hcfg hmap hok hnp hsz (fun _ => hpop)
  have e4 : c.num_points = out_ctx.num_points := by
    have h := congrArg (fun x : output_context => x.num_points) hcfg
    exact h
  have e7 : c.acc_buffer_data_count = out_ctx.acc_buffer_data_count := by
    have h := congrArg (fun x : output_context => x.acc_buffer_data_count) hcfg
    exact h
  have e8 : c.smoothing = out_ctx.smoothing := by
    have h := congrArg (fun x : output_context => x.smoothing) hcfg
    exact h
  have e11 : c.smoothing_new_limit_factor = out_ctx.smoothing_new_limit_factor := by
    have h := congrArg (fun x : output_context => x.smoothing_new_limit_factor) hcfg
    exact h
  have e12 : c.smoothing_old_limit_factor = out_ctx.smoothing_old_limit_factor := by
    have h := congrArg (fun x : output_context => x.smoothing_old_limit_factor) hcfg
    exact h
  obtain ⟨sm1, lmin, lmax, hps1, hctx, hmin, hmax, hloop⟩ :=
    print_smooth_spec { c with acc_buffer := acc } acc (by rw [← hsm, ← e8])
      (by
        show ∃ i, i < c.num_points ∧ c.acc_buffer_data_count i ≠ 0
        rw [e4, e7]
        exact hpop)
  have hsame : sm1 = sm := by
    rw [hps] at hps1
    exact (Option.some.inj hps1).symm
  subst hsame
  obtain ⟨ha, hb, hc, hd, _, hf, _, _, hi⟩ := hloop
  dsimp only at ha hb hc hd hf hi hmin hmax
  obtain ⟨⟨i0, hi0, hp0, hv0⟩, _⟩ := hf lmin rfl
  have hbuf : ∀ i, 0 ≤ sm1.smooth_buffer i := by
    intro i
    by_cases hlt : i < c.num_points
    · induction i with
      | zero =>
        by_cases hp : c.acc_buffer_data_count 0 = 0
        · rw [hd hp]
          exact hinv.1 0
        · rw [hb 0 hlt hp]
          exact smooth_new_nonneg _ _ _
      | succ j ih =>
        by_cases hp : c.acc_buffer_data_count (j + 1) = 0
        · rw [hc (j + 1) hlt (by omega) hp, Nat.add_sub_cancel]
          exact ih (by omega)
        · rw [hb (j + 1) hlt hp]
          exact smooth_new_nonneg _ _ _
    · rw [ha i (by omega)]
      exact hinv.1 i
  have hlim : sm1.min ≤ sm1.max := by
    rw [hmin, hmax]
    have h1 : lmin ≤ lmax := by
      rw [← hv0]
      exact hi i0 hi0 hp0
    have hnl1 : 0 ≤ c.smoothing_new_limit_factor := by rw [e11]; exact hnl
    have hol1 : 0 ≤ c.smoothing_old_limit_factor := by rw [e12]; exact hol
    exact add_le_add (mul_le_mul_of_nonneg_right hinv.2 hol1)
      (mul_le_mul_of_nonneg_right h1 hnl1)
  refine ⟨r, hr, hcfg1, ?_, ?_⟩
  · intro i
    rw [hr1]
    show 0 ≤ sm1.out_ctx.smooth_buffer i
    rw [hctx]
    exact hbuf i
  · rw [hr1]
    show sm1.out_ctx.smoothing_min_limit ≤ sm1.out_ctx.smoothing_max_limit
    rw [hctx]
    exact hlim

/-- C22. Let a context have exponential smoothing, limit factors as
`output_set_smoothing_factors` stores them, a column with a contributing index, complete
binning tables and a glyph table set by `output_set_charset`. If every entry of its
smoothed buffer is at least 0 and its adaptive floor is at most its ceiling, then any
number of successive calls of `output_print`, on any arrays, return and leave a context in
which every entry of the smoothed buffer is at least 0 and the floor is at most the
ceiling. The state `output_set_smoothing` leaves, on a smoothed buffer without negative
entry (the zeroed buffer of `output_init`), has both limits at 0 and is of that kind. The
new-limit factor is in `[0, 1]` and the old-limit factor is 1 minus it. -/
theorem smoothing_invariant (env : libm) (out_ctx base : output_context) (v l : ℚ)
    (hsm : out_ctx.smoothing = OUTPUT_EXP2_SMOOTH)
    (hnew : out_ctx.smoothing_new_limit_factor
      = (output_set_smoothing_factors base v l).smoothing_new_limit_factor)
    (hold : out_ctx.smoothing_old_limit_factor
      = (output_set_smoothing_factors base v l).smoothing_old_limit_factor)
    (hpop : ∃ i, i < out_ctx.num_points ∧ out_ctx.acc_buffer_data_count i ≠ 0)
    (hmap : ∀ i, out_ctx.min_data_index ≤ i → i ≤ out_ctx.max_data_index →
      ∃ k, out_ctx.data_buffer_index_to_acc_buffer_index i = some k)
    (hok : charset_ok out_ctx)
    (hsz : out_ctx.num_points + out_ctx.visualization_points_per_char ≤ 4294967296)
    (hinv : smooth_ok out_ctx) :
    (∀ frames : List (Nat → ℚ),
      ∃ c, print_run env out_ctx frames = some c
        ∧ (∀ i, 0 ≤ c.smooth_buffer i)
        ∧ c.smoothing_min_limit ≤ c.smoothing_max_limit)
    ∧ (∀ (c0 : output_context) (smoothing : Int), (∀ i, 0 ≤ c0.smooth_buffer i) →
        (output_set_smoothing c0 smoothing).smoothing_min_limit = 0
          ∧ (output_set_smoothing c0 smoothing).smoothing_max_limit = 0
          ∧ smooth_ok (output_set_smoothing c0 smoothing))
    ∧ 0 ≤ out_ctx.smoothing_new_limit_factor ∧ out_ctx.smoothing_new_limit_factor ≤ 1
    ∧ out_ctx.smoothing_old_limit_factor = 1 - out_ctx.smoothing_new_limit_factor := by
  obtain ⟨_, _, _, h4, h5, h6⟩ := smoothing_factors_range base v l
  have hnl : 0 ≤ out_ctx.smoothing_new_limit_factor := by rw [hnew]; exact h4
  have hol : 0 ≤ out_ctx.smoothing_old_limit_factor := by
    rw [hold, h6]
    linarith
  refine ⟨?_, ?_, hnl, by rw [hnew]; exact h5, by rw [hold, hnew]; exact h6⟩
  · intro frames
    have hgen : ∀ (fs : List (Nat → ℚ)) (c : output_context),
        config_of c = config_of out_ctx → smooth_ok c →
        ∃ c1, print_run env c fs = some c1 ∧ smooth_ok c1 := by
      intro fs
      induction fs with
      | nil =>
        intro c _ hc
        exact ⟨c, rfl, hc⟩
      | cons values rest ih =>
        intro c hcfg hc
        obtain ⟨r, hr, hcfg1, hok1⟩ := print_step_smooth_ok env c out_ctx values hcfg hsm
          hnl hol hpop hmap hok hsz hc
        obtain ⟨c1, hc1, hok2⟩ := ih r.1 hcfg1 hok1
        refine ⟨c1, ?_, hok2⟩
        rw [print_run, hr, Option.some_bind]
        exact hc1
    obtain ⟨c1, hc1, hok1⟩ := hgen frames out_ctx rfl hinv
    exact ⟨c1, hc1, hok1.1, hok1.2⟩
  · intro c0 smoothing h0
    exact ⟨rfl, rfl, h0, le_refl _⟩

/-- C22 on the context of the scenario with exponential smoothing and two calls of
`output_print`, on the values 0, 2, 4, 6, 8 and then 8, 6, 4, 2, 0: the smoothed buffer
ends as 4, 7/2, 3, 5/2, 2, the floor as 1 and the ceiling as 3. -/
theorem smoothing_invariant_witness :
    ((∀ frames : List (Nat → ℚ),
      ∃ c, print_run example_env smooth_ctx frames = some c
        ∧ (∀ i, 0 ≤ c.smooth_buffer i)
        ∧ c.smoothing_min_limit ≤ c.smoothing_max_limit)
    ∧ (∀ (c0 : output_context) (smoothing : Int), (∀ i, 0 ≤ c0.smooth_buffer i) →
        (output_set_smoothing c0 smoothing).smoothing_min_limit = 0
          ∧ (output_set_smoothing c0 smoothing).smoothing_max_limit = 0
          ∧ smooth_ok (output_set_smoothing c0 smoothing))
    ∧ 0 ≤ smooth_ctx.smoothing_new_limit_factor ∧ smooth_ctx.smoothing_new_limit_factor ≤ 1
    ∧ smooth_ctx.smoothing_old_limit_factor = 1 - smooth_ctx.smoothing_new_limit_factor)
    ∧ (print_run example_env smooth_ctx
        [array_of [0, 2, 4, 6, 8], array_of [8, 6, 4, 2, 0]]).map
        (fun c => ((List.range 5).map c.smooth_buffer, c.smoothing_min_limit,
          c.smoothing_max_limit))
        = some ([4, 7 / 2, 3, 5 / 2, 2], 1, 3) :=
  ⟨smoothing_invariant example_env smooth_ctx scenario_ctx (1 / 2) (1 / 2) rfl rfl rfl
      ⟨0, by decide!, by decide!⟩
      (scenario_acc_spec smooth_ctx rfl rfl rfl rfl rfl rfl).1
      (charset_ok_bars smooth_ctx rfl rfl rfl) (by decide!)
      ⟨fun _ => le_refl _, le_refl _⟩,
    by decide!⟩

/-! ## C18 -/

end TermPaSpectrum
